import Mathlib

/-!
# Teleport gate registry (magic_teleporter_list.cpp)

A shallow embedding of `teleporter_list`: the registry of discovered
translocator gates, its activation and deactivation, the destination menu and
the long-range `translocate` effect.

Further sections embed parts of savegame.cpp (version headers, monster groups
and their hash, the conversion of outdated terrain ids, the loaders of a saved
game, the scent map, the compacted boolean arrays and the placements of overmap
specials) and the spell and mana declarations of magic.h.

`known_teleporters` is an associative container with unique keys
(`emplace(..).second`, `erase(key)`, `find(key)`, iteration over
`std::pair<tripoint, std::string>`): a `std::map` from overmap-terrain
coordinates to gate names. It is embedded as the list of its entries in
iteration order. The key comparison of `tripoint` is declared in a header that
is not part of this development, so it is a parameter (`less`) of every
operation that inserts.
-/

set_option autoImplicit false

/-! ## Coordinates -/

/-- A 2D point (`point`: two `int` members). -/
structure point where
  x : Int
  y : Int
deriving DecidableEq, Repr

/-- A 3D point (`tripoint`: three `int` members `x`, `y`, `z`). -/
structure tripoint where
  x : Int
  y : Int
  z : Int
deriving DecidableEq, Repr

namespace tripoint

/-- The value-initialised coordinate `tripoint()`, which `std::map::operator[]`
creates for a key that is absent. -/
def zero : tripoint := ⟨0, 0, 0⟩

/-- The constructor `tripoint( const point &, int z )`. -/
def of_point (p : point) (z : Int) : tripoint := ⟨p.x, p.y, z⟩

/-- The sum `tripoint + point`: the offset is added to `x` and `y`. -/
def add_point (a : tripoint) (d : point) : tripoint := ⟨a.x + d.x, a.y + d.y, a.z⟩

/-- Lexicographic comparison by `x`, then `y`, then `z`: one strict total order
on coordinates, used where a concrete key comparison is needed. -/
def lex_less (a b : tripoint) : Bool :=
  if a.x ≠ b.x then decide (a.x < b.x)
  else if a.y ≠ b.y then decide (a.y < b.y)
  else decide (a.z < b.z)

end tripoint

/-- The laws a key comparison of `std::map` obeys when distinct coordinates are
distinct keys: a strict total order. -/
structure strict_total_order (less : tripoint → tripoint → Bool) : Prop where
  irrefl : ∀ a, less a a = false
  trans : ∀ a b c, less a b = true → less b c = true → less a c = true
  total : ∀ a b, a ≠ b → less a b = true ∨ less b a = true

/-! ## The map of known gates -/

/-- The entries of `std::map<tripoint, std::string>` in iteration order. -/
abbrev gate_map := List (tripoint × String)

namespace gate_map

/-- The lookup `m.find( k )`: the name stored under `k`, `none` for `end()`.
Two keys are the same key when neither is less than the other; under a strict
total order that is equality, which is what is tested here. -/
def find (m : gate_map) (k : tripoint) : Option String :=
  match m with
  | [] => none
  | (k', v) :: rest => if k' = k then some v else find rest k

/-- Where `std::map` puts a new entry: before the first entry with a greater
key. -/
def insert_sorted (less : tripoint → tripoint → Bool) (k : tripoint) (v : String) :
    gate_map → gate_map
  | [] => [(k, v)]
  | (k', v') :: rest =>
    if less k k' then (k, v) :: (k', v') :: rest
    else (k', v') :: insert_sorted less k v rest

/-- The call `m.emplace( k, v )`: inserts only when no entry has the key `k`;
the flag is the `.second` of the returned pair (true when inserted). -/
def emplace (less : tripoint → tripoint → Bool) (m : gate_map) (k : tripoint) (v : String) :
    gate_map × Bool :=
  match find m k with
  | some _ => (m, false)
  | none => (insert_sorted less k v m, true)

/-- The call `m.erase( k )`: removes the entry with key `k`, if there is one. -/
def erase (m : gate_map) (k : tripoint) : gate_map :=
  match m with
  | [] => []
  | (k', v) :: rest => if k' = k then erase rest k else (k', v) :: erase rest k

/-- The invariant of `std::map`: keys strictly ascending (hence unique). -/
def well_formed (less : tripoint → tripoint → Bool) (m : gate_map) : Prop :=
  m.Pairwise (fun a b => less a.1 b.1 = true)

end gate_map

/-! ## External capabilities -/

/-- The observable state of a `string_input_popup` after `query()`: whether the
prompt was canceled, and its text. -/
structure string_input_popup where
  canceled : Bool
  text : String
deriving DecidableEq, Repr

/-- The registry of known gates (`class teleporter_list`). -/
structure teleporter_list where
  known_teleporters : gate_map
deriving DecidableEq, Repr

/-- The function `popup_string( result, title )`: `prompt` is the external
naming capability (title to the state of the popup after its query). Returns
the new value of `result` and the boolean result. -/
def popup_string (prompt : String → string_input_popup) (result title : String) :
    String × Bool :=
  let popup := prompt title
  if popup.canceled then (result, false) else (popup.text, true)

namespace teleporter_list

/-- The method `activate_teleporter( omt_pt, _ )`: the new registry and the
returned flag. The result of `popup_string` is ignored, as in the source. -/
def activate_teleporter (less : tripoint → tripoint → Bool)
    (prompt : String → string_input_popup) (tl : teleporter_list)
    (omt_pt : tripoint) (_unused : tripoint) : teleporter_list × Bool :=
  let point_name := ""
  let title := "Name this gate."
  let point_name := (popup_string prompt point_name title).1
  let r := gate_map.emplace less tl.known_teleporters omt_pt point_name
  (⟨r.1⟩, r.2)

/-- The method `deactivate_teleporter( omt_pt, _ )`. -/
def deactivate_teleporter (tl : teleporter_list) (omt_pt : tripoint) (_unused : tripoint) :
    teleporter_list :=
  ⟨gate_map.erase tl.known_teleporters omt_pt⟩

/-- The method `knows_translocator( omt_pos )`. -/
def knows_translocator (tl : teleporter_list) (omt_pos : tripoint) : Bool :=
  (gate_map.find tl.known_teleporters omt_pos).isSome

end teleporter_list

/-! ## Serialization -/

/-- The JSON values the registry writes. -/
inductive json_value where
  | number : Int → json_value
  | string : String → json_value
  | array : List json_value → json_value
  | object : List (String × json_value) → json_value

/-- Modelled from the spec: the grid-coord written for a `position` member. The
code that writes a `tripoint` to JSON is elsewhere in the game; it is taken to
be the array of the three numbers. -/
def tripoint.to_json (p : tripoint) : json_value :=
  .array [.number p.x, .number p.y, .number p.z]

/-- The method `teleporter_list::serialize`: one object, whose member
`known_teleporters` is an array with one `position`/`name` object per gate. -/
def teleporter_list.serialize (tl : teleporter_list) : json_value :=
  .object [("known_teleporters",
    .array (tl.known_teleporters.map fun pair =>
      .object [("position", pair.1.to_json), ("name", .string pair.2)]))]

/-- The array written under `known_teleporters`. -/
def teleporter_list.serialized_gates (tl : teleporter_list) : List json_value :=
  match tl.serialize with
  | .object [(_, .array records)] => records
  | _ => []

/-! ## The destination menu -/

/-- One line of a `uilist`, as `addentry( retval, enabled, hotkey, txt )` makes
it. -/
structure uilist_entry where
  retval : Int
  enabled : Bool
  hotkey : Int
  txt : String
deriving DecidableEq, Repr

/-- The fields of the `uilist` that `choose_teleport_location` sets before the
query. -/
structure uilist where
  entries : List uilist_entry
  w_height : Int
  w_width : Int
  pad_right : Int
  w_x : Int
  w_y : Int
  title : String
deriving DecidableEq, Repr

/-- The external selection capability and the terminal size it is laid out
for: `query` gives the value of `ret` once `uilist::query()` has returned. -/
structure ui_env where
  TERMX : Int
  TERMY : Int
  query : uilist → Int

/-- Modelled from the spec: the behaviour of `uilist::query()`, whose code is
not part of this development. The spec calls it a "choose one of N labeled options,
or none" capability: its result is the `retval` of one of the entries offered,
or a negative number for none. -/
def ui_env.picks_offered_or_none (ui : ui_env) : Prop :=
  ∀ m : uilist, ui.query m < 0 ∨ ∃ e ∈ m.entries, e.retval = ui.query m

/-- The local variables of the loop over `known_teleporters` in
`choose_teleport_location`. `index_pairs` is a `std::map<int, tripoint>` whose
keys are emplaced in ascending order, so each new entry goes to its end. -/
structure menu_loop where
  index : Int
  column_width : Nat
  entries : List uilist_entry
  index_pairs : List (Int × tripoint)
deriving DecidableEq, Repr

/-- The body of the loop over `known_teleporters`. -/
def menu_loop.step (st : menu_loop) (gate : tripoint × String) : menu_loop :=
  { index := st.index + 1
    column_width := max st.column_width gate.2.utf8ByteSize
    entries := st.entries ++ [⟨st.index, true, 0, gate.2⟩]
    index_pairs := st.index_pairs ++ [(st.index, gate.1)] }

/-- The lookup `index_pairs[ i ]`, which yields `tripoint()` for an absent
key. -/
def index_pairs_at (index_pairs : List (Int × tripoint)) (i : Int) : tripoint :=
  match index_pairs with
  | [] => tripoint.zero
  | (j, p) :: rest => if j = i then p else index_pairs_at rest i

namespace teleporter_list

/-- The state of the loop of `choose_teleport_location` when it ends. -/
def menu_loop_result (tl : teleporter_list) : menu_loop :=
  tl.known_teleporters.foldl menu_loop.step ⟨0, 0, [], []⟩

/-- The menu `choose_teleport_location` hands to the selector. The preview
callback only draws and is left out. -/
def teleport_selector (ui : ui_env) (tl : teleporter_list) : uilist :=
  let st := tl.menu_loop_result
  let column_width := max st.column_width 25
  let w_height : Int := 24
  let w_width : Int := 38 + column_width
  { entries := st.entries
    w_height := w_height
    w_width := w_width
    pad_right := 33
    w_x := (ui.TERMX - w_width).tdiv 2
    w_y := (ui.TERMY - w_height).tdiv 2
    title := "Choose Translocator Gate" }

/-- The method `choose_teleport_location()`. Redrawing the screen
(`g->refresh_all()`) is not modelled. -/
def choose_teleport_location (ui : ui_env) (tl : teleporter_list) : Option tripoint :=
  let ret := ui.query (tl.teleport_selector ui)
  if ret ≥ 0 then some (index_pairs_at tl.menu_loop_result.index_pairs ret) else none

end teleporter_list

/-! ## The game world seen by `translocate` -/

/-- The message classes used here; `add_msg` without a class is neutral. -/
inductive game_message_type where
  | m_bad
  | m_neutral
deriving DecidableEq, Repr

/-- Functions and constants of the game that `translocate` calls and that are
defined elsewhere in the game, over an abstract game state `G`.
`has_flag_furn g sm flag p` and `getabs sm x y`, `getlocal sm p` stand for the
methods of a `tinymap` loaded at submap `sm`. -/
structure game_env (G : Type) where
  SEEX : Nat
  SEEY : Nat
  omt_to_sm_copy : tripoint → tripoint
  has_flag_furn : G → tripoint → String → tripoint → Bool
  getabs : tripoint → Int → Int → point
  getlocal : tripoint → tripoint → tripoint
  critter_at_avatar : G → tripoint → Bool
  place_player_overmap : G → tripoint → G
  place_player : G → tripoint → G

/-- Everything `translocate` can change: the registry (`this`), the game (`g`)
and the message log. -/
structure world (G : Type) where
  teleporters : teleporter_list
  g : G
  messages : List (game_message_type × String)

/-- The call `add_msg( type, text )`: appends to the message log. -/
def add_msg {G : Type} (type : game_message_type) (text : String) (w : world G) : world G :=
  { w with messages := w.messages ++ [(type, text)] }

/-- The cells `(x, y)` in the order the two nested loops of
`find_valid_teleporters_omt` visit them. -/
def omt_cells {G : Type} (env : game_env G) : List (Nat × Nat) :=
  (List.range (env.SEEX * 2)).flatMap fun x => (List.range (env.SEEY * 2)).map fun y => (x, y)

/-- The function `find_valid_teleporters_omt( omt_pt )`: the first cell of the
overmap terrain whose furniture has the flag TRANSLOCATOR, in global
coordinates. -/
def find_valid_teleporters_omt {G : Type} (env : game_env G) (g : G) (omt_pt : tripoint) :
    Option tripoint :=
  let sm_pt := env.omt_to_sm_copy omt_pt
  let z_level := omt_pt.z
  match (omt_cells env).find? (fun c => env.has_flag_furn g sm_pt "TRANSLOCATOR" ⟨c.1, c.2, z_level⟩) with
  | some c => some (tripoint.of_point (env.getabs sm_pt c.1 c.2) z_level)
  | none => none

namespace teleporter_list

/-- The method `place_avatar_overmap( _, omt_pt )`: the returned flag and the
game afterwards. -/
def place_avatar_overmap {G : Type} (env : game_env G) (g : G) (omt_pt : tripoint) : Bool × G :=
  let sm_dest := env.omt_to_sm_copy omt_pt
  match find_valid_teleporters_omt env g omt_pt with
  | none => (false, g)
  | some global_dest =>
    let local_dest := (env.getlocal sm_dest global_dest).add_point ⟨60, 60⟩
    (true, env.place_player (env.place_player_overmap g omt_pt) local_dest)

/-- The body of the loop over `targets` in `translocate`; the flag is
`valid_targets`. -/
def translocate_step {G : Type} (env : game_env G) (omt_dest : tripoint)
    (st : world G × Bool) (pt : tripoint) : world G × Bool :=
  if env.critter_at_avatar st.1.g pt then
    let placed := place_avatar_overmap env st.1.g omt_dest
    let w : world G := { st.1 with g := placed.2 }
    if !placed.1 then
      let w := add_msg .m_neutral "Failed to teleport.  Teleporter obstructed or destroyed." w
      ({ w with teleporters := w.teleporters.deactivate_teleporter omt_dest pt }, true)
    else (w, true)
  else st

/-- The method `translocate( targets )`; `targets` lists the cells of the
`std::set` in iteration order. -/
def translocate {G : Type} (env : game_env G) (ui : ui_env) (w : world G)
    (targets : List tripoint) : world G :=
  if w.teleporters.known_teleporters.isEmpty then
    add_msg .m_bad "No translocator target known." w
  else
    match w.teleporters.choose_teleport_location ui with
    | none => add_msg .m_neutral "Teleport canceled." w
    | some omt_dest =>
      let st := targets.foldl (translocate_step env omt_dest) (w, false)
      if !st.2 then add_msg .m_neutral "No valid targets to teleport." st.1 else st.1

/-- The target cells at which the loop of `translocate` finds an avatar for whom
`place_avatar_overmap` finds no landing cell, traced along the loop from the
game `g` (each successful placement changes the game). Used to state what
`translocate` does on failures. -/
def teleport_failures {G : Type} (env : game_env G) (omt_dest : tripoint) :
    G → List tripoint → List tripoint
  | _, [] => []
  | g, pt :: rest =>
    if env.critter_at_avatar g pt then
      if (place_avatar_overmap env g omt_dest).1 then
        teleport_failures env omt_dest (place_avatar_overmap env g omt_dest).2 rest
      else pt :: teleport_failures env omt_dest (place_avatar_overmap env g omt_dest).2 rest
    else teleport_failures env omt_dest g rest

end teleporter_list

/-! ## Activation sequences and the order of the menu -/

namespace teleporter_list

/-- The registry after activating, from the empty registry, the coordinates of
`acts` in order; the prompt answers the paired name each time. -/
def activate_all (less : tripoint → tripoint → Bool) (acts : List (tripoint × String)) :
    teleporter_list :=
  acts.foldl (fun tl a => (tl.activate_teleporter less (fun _ => ⟨false, a.2⟩) a.1 a.1).1) ⟨[]⟩

/-- The gates in the order `choose_teleport_location` offers them: for each
menu entry, the coordinate `index_pairs` holds for its index, and its label. -/
def offered (tl : teleporter_list) : List (tripoint × String) :=
  tl.menu_loop_result.entries.map fun e =>
    (index_pairs_at tl.menu_loop_result.index_pairs e.retval, e.txt)

end teleporter_list

/-- The menu entries the loop of `choose_teleport_location` adds for the gates
`m` when it starts at index `i`. -/
def menu_entries (i : Int) : gate_map → List uilist_entry
  | [] => []
  | gate :: rest => ⟨i, true, 0, gate.2⟩ :: menu_entries (i + 1) rest

/-- The entries the same loop adds to `index_pairs`. -/
def menu_pairs (i : Int) : gate_map → List (Int × tripoint)
  | [] => []
  | gate :: rest => (i, gate.1) :: menu_pairs (i + 1) rest

/-! ## A small game for evaluating the definitions -/

/-- A game with one avatar, whose state is the cell the avatar stands on. The
overmap terrain (1, 0, 0) holds a translocator at its cell (1, 1); no other
terrain holds one. -/
def sample_env : game_env tripoint where
  SEEX := 12
  SEEY := 12
  omt_to_sm_copy := fun p => ⟨p.x * 2, p.y * 2, p.z⟩
  has_flag_furn := fun _ sm flag p =>
    decide (flag = "TRANSLOCATOR" ∧ sm = ⟨2, 0, 0⟩ ∧ p = ⟨1, 1, 0⟩)
  getabs := fun sm x y => ⟨sm.x * 12 + x, sm.y * 12 + y⟩
  getlocal := fun sm p => ⟨p.x - sm.x * 12, p.y - sm.y * 12, p.z⟩
  critter_at_avatar := fun g pt => decide (g = pt)
  place_player_overmap := fun g _ => g
  place_player := fun _ p => p

/-- A selector that always answers `answer`, on a terminal of 80 by 24. -/
def sample_ui (answer : Int) : ui_env := ⟨80, 24, fun _ => answer⟩

/-- A selector that picks the first entry offered, or none when there is no
entry. -/
def first_entry_ui : ui_env :=
  ⟨80, 24, fun m => match m.entries with
    | [] => -1
    | e :: _ => e.retval⟩

/-! ## Reading the registry back -/

/-- Modelled from the spec: reading the grid-coord of a `position` member, the
inverse of `tripoint.to_json`. The code that reads a `tripoint` from JSON is
elsewhere in the game. `none` stands for a value that is not a coordinate. -/
def tripoint.of_json : json_value → Option tripoint
  | .array [.number x, .number y, .number z] => some ⟨x, y, z⟩
  | _ => none

/-- The member `name` of a JSON object, the first when the name repeats. -/
def json_member (name : String) : List (String × json_value) → Option json_value
  | [] => none
  | (n, v) :: rest => if n = name then some v else json_member name rest

/-- The body of the loop of `teleporter_list::deserialize` for one element of
the array: `next_object()` raises an error (`none`) on an element that is not
an object; `jo.read` leaves the variable as it was when the member is absent or
of another kind. -/
def teleporter_list.deserialize_entry (less : tripoint → tripoint → Bool)
    (known : Option gate_map) (element : json_value) : Option gate_map :=
  match known, element with
  | some m, .object jo =>
    let temp_pos : tripoint :=
      match (json_member "position" jo).bind tripoint.of_json with
      | some p => p
      | none => tripoint.zero
    let name : String :=
      match json_member "name" jo with
      | some (.string s) => s
      | _ => ""
    some (gate_map.emplace less m temp_pos name).1
  | _, _ => none

/-- The method `teleporter_list::deserialize`, reading the JSON value `jsin`
into the registry `tl`; `none` stands for a raised `JsonError`. The object and
array accessors of the JSON reader are modelled on a parsed value:
`get_object()` raises an error on a value that is not an object, and
`get_array( name )` gives the empty array for an absent member and raises an
error for a member that is not an array. -/
def teleporter_list.deserialize (less : tripoint → tripoint → Bool) (tl : teleporter_list)
    (jsin : json_value) : Option teleporter_list :=
  match jsin with
  | .object data =>
    let parray : Option (List json_value) :=
      match json_member "known_teleporters" data with
      | none => some []
      | some (.array elements) => some elements
      | some _ => none
    match parray with
    | none => none
    | some elements =>
      (elements.foldl (teleporter_list.deserialize_entry less) (some tl.known_teleporters)).map
        fun m => ⟨m⟩
  | _ => none

/-! ## Version headers of save files (savegame.cpp)

A stream is the list of the characters still to be read. The extraction
operators of the C++ stream library are modelled as far as the header line
needs them. -/

/-- The test `std::isspace` in the C locale. -/
def is_space (c : Char) : Bool :=
  c = ' ' || c = '\t' || c = '\n' || c = '\r' || c = Char.ofNat 11 || c = Char.ofNat 12

/-- The call `getline( fin, vline )`: the line up to the first newline, which is
consumed and not stored, and the rest of the stream. -/
def getline : List Char → List Char × List Char
  | [] => ([], [])
  | c :: rest =>
    if c = '\n' then ([], rest)
    else ((getline rest).1.cons c, (getline rest).2)

/-- The extraction `stream >> word` of a `std::string`: leading whitespace is
skipped and the characters up to the next whitespace are taken; `none` when
nothing is left (the stream then fails). -/
def extract_word (input : List Char) : Option (List Char) × List Char :=
  let s := input.dropWhile is_space
  match s.takeWhile (fun c => !is_space c) with
  | [] => (none, s)
  | w => (some w, s.dropWhile (fun c => !is_space c))

/-- The value of a run of decimal digits. -/
def digits_value (ds : List Char) : Nat :=
  ds.foldl (fun acc d => acc * 10 + (d.toNat - 48)) 0

/-- What follows the leading whitespace and an optional sign of `input`. -/
def after_sign (input : List Char) : List Char :=
  let s := input.dropWhile is_space
  if s.head? = some '-' ∨ s.head? = some '+' then s.tail else s

/-- The extraction `stream >> number` of an `int` from a stream that holds more
than whitespace: leading whitespace is skipped, then an optional sign and a run
of digits are read. Without a digit the extraction fails and stores 0; a value
out of the range of `int` is replaced by the nearest bound. -/
def extract_int (input : List Char) : Int :=
  let negative := (input.dropWhile is_space).head? = some '-'
  match (after_sign input).takeWhile Char.isDigit with
  | [] => 0
  | ds =>
    let v : Int := if negative then -(digits_value ds : Int) else (digits_value ds : Int)
    if v > 2147483647 then 2147483647
    else if v < -2147483648 then -2147483648
    else v

/-- The three variables after
`vliness >> tmphash >> tmpver >> savedver`, with `savedver` starting at -1: once
an extraction has failed the later ones do nothing, and an extraction that
finds nothing but whitespace leaves its variable as it was. -/
structure version_line where
  tmphash : List Char
  tmpver : List Char
  savedver : Int
deriving DecidableEq, Repr

/-- The extraction of the three header fields from the line `vline`. -/
def read_version_line (vline : List Char) : version_line :=
  match extract_word vline with
  | (none, _) => ⟨[], [], -1⟩
  | (some tmphash, rest) =>
    match extract_word rest with
    | (none, _) => ⟨tmphash, [], -1⟩
    | (some tmpver, rest2) =>
      ⟨tmphash, tmpver, if rest2.dropWhile is_space = [] then -1 else extract_int rest2⟩

/-- The decimal text `fout << number` writes for an `int`. -/
def write_int (n : Int) : List Char := (toString n).toList

/-- The loader that reads the rest of an overmap file. -/
inductive overmap_loader where
  | legacy (fin : List Char)
  | json (fin : List Char)
deriving DecidableEq, Repr

/-- The constant `overmap_legacy_save_version`: the last savegame version that
produced the old format. -/
def overmap_legacy_save_version : Int := 24

/-- The head of `overmap::unserialize`: a stream that starts with `#` has its
first line read as a version header and goes to `unserialize_legacy` when the
version is at most `overmap_legacy_save_version`; otherwise the stream goes on
to the JSON reader. -/
def overmap.unserialize_loader (fin : List Char) : overmap_loader :=
  if fin.head? = some '#' then
    let vline := (getline fin).1
    let savedver := (read_version_line vline).savedver
    if savedver ≤ overmap_legacy_save_version then .legacy (getline fin).2
    else .json (getline fin).2
  else .json fin

/-- The head of `overmap::unserialize_view`, which routes to
`unserialize_view_legacy` in the same way. -/
def overmap.unserialize_view_loader (fin : List Char) : overmap_loader :=
  if fin.head? = some '#' then
    let vline := (getline fin).1
    let savedver := (read_version_line vline).savedver
    if savedver ≤ overmap_legacy_save_version then .legacy (getline fin).2
    else .json (getline fin).2
  else .json fin

/-- The constant `first_overmap_json_version` of `overmap::serialize`. -/
def first_overmap_json_version : Int := 26

/-- The constant `first_overmap_view_json_version` of
`overmap::serialize_view`. -/
def first_overmap_view_json_version : Int := 25

/-- The header line `"# version " << version << std::endl`. -/
def version_header (version : Int) : List Char :=
  ['#', ' ', 'v', 'e', 'r', 's', 'i', 'o', 'n', ' '] ++ write_int version ++ ['\n']

/-- The file `overmap::serialize` writes: the version header, then the text
`json` that the JSON writer and the line breaks produce. -/
def overmap.serialize_file (json : List Char) : List Char :=
  version_header first_overmap_json_version ++ json

/-- The file `overmap::serialize_view` writes. -/
def overmap.serialize_view_file (json : List Char) : List Char :=
  version_header first_overmap_view_json_version ++ json

/-- Whether the header line `vline` holds a number to read as the version: two
fields, then (after whitespace and an optional sign) a digit. -/
def has_version_number (vline : List Char) : Bool :=
  match extract_word vline with
  | (none, _) => false
  | (some _, rest) =>
    match extract_word rest with
    | (none, _) => false
    | (some _, rest2) =>
      match after_sign rest2 with
      | [] => false
      | c :: _ => c.isDigit

/-! ## Monster groups (savegame.cpp) -/

/-- The fields of a `mongroup` that `mongroup::io` archives, over an abstract
type of monsters. `radius` and `population` are `unsigned int`. -/
structure mongroup (Monster : Type) where
  type : String
  pos : tripoint
  radius : Nat
  population : Nat
  target : tripoint
  interest : Int
  dying : Bool
  horde : Bool
  monsters : List Monster
  horde_behaviour : String
  diffuse : Bool

/-- The constant `tripoint_zero`. -/
def tripoint_zero : tripoint := ⟨0, 0, 0⟩

/-- The comparison `mongroup_bin_eq::operator()`. -/
def mongroup_bin_eq {Monster : Type} (a b : mongroup Monster) : Bool :=
  a.monsters.isEmpty &&
  b.monsters.isEmpty &&
  decide (a.type = b.type) &&
  decide (a.radius = b.radius) &&
  decide (a.population = b.population) &&
  decide (a.target = b.target) &&
  decide (a.interest = b.interest) &&
  decide (a.dying = b.dying) &&
  decide (a.horde = b.horde) &&
  decide (a.horde_behaviour = b.horde_behaviour) &&
  decide (a.diffuse = b.diffuse)

/-- The bins of `binned_groups`, a
`std::unordered_map<mongroup, std::list<tripoint>, mongroup_hash, mongroup_bin_eq>`:
each key with its list of positions. The order of the bins is not fixed by the
container; they are kept in the order of their creation. -/
abbrev mongroup_bins (Monster : Type) := List (mongroup Monster × List tripoint)

/-- The two statements of the first loop of `save_monster_groups`:
`binned_groups[ group ]` finds the bin whose key compares equal to `group` under
`mongroup_bin_eq`, or makes a new bin with `group` as its key, and
`emplace_back` adds the position to that bin. -/
def bin_group {Monster : Type} (bins : mongroup_bins Monster)
    (pos_group : tripoint × mongroup Monster) : mongroup_bins Monster :=
  match bins with
  | [] => [(pos_group.2, [pos_group.1])]
  | (key, positions) :: rest =>
    if mongroup_bin_eq key pos_group.2 then (key, positions ++ [pos_group.1]) :: rest
    else (key, positions) :: bin_group rest pos_group

/-- What `save_monster_groups` writes into the array `monster_groups`, for the
groups `zg` in the order the multimap yields them: for each bin the pair of
`saved_group` (the key with its position set to `tripoint_zero`) and the list
of positions, as handed to `jout.write`. -/
def save_monster_groups {Monster : Type} (zg : List (tripoint × mongroup Monster)) :
    List (mongroup Monster × List tripoint) :=
  (zg.foldl bin_group []).map fun group_bin =>
    ({ group_bin.1 with pos := tripoint_zero }, group_bin.2)

/-- A group with one monster, monsters being numbered. -/
def sample_group_with_monster : mongroup Nat :=
  ⟨"GROUP_ZOMBIE", ⟨1, 2, 0⟩, 1, 5, ⟨0, 0, 0⟩, 0, false, false, [7], "", false⟩

/-- A group without monsters at the position `pos`. -/
def sample_group_at (pos : tripoint) : mongroup Nat :=
  ⟨"GROUP_ZOMBIE", pos, 1, 5, ⟨0, 0, 0⟩, 0, false, false, [], "", false⟩

/-- Another group without monsters, of another type, at the position `pos`. -/
def sample_ant_group_at (pos : tripoint) : mongroup Nat :=
  ⟨"GROUP_ANT", pos, 1, 5, ⟨0, 0, 0⟩, 0, false, false, [], "", false⟩

/-- Three groups on an overmap: two alike but for their positions, and one of
another type between them. -/
def sample_zg : List (tripoint × mongroup Nat) :=
  [(⟨1, 0, 0⟩, sample_group_at ⟨1, 0, 0⟩), (⟨2, 0, 0⟩, sample_ant_group_at ⟨2, 0, 0⟩),
    (⟨3, 0, 0⟩, sample_group_at ⟨3, 0, 0⟩)]

/-! ## Conversion of outdated overmap terrain ids (savegame.cpp) -/

/-- The comparison `old.compare( 0, n, lit ) == 0`: the first `n` characters of
`old` (all of them when `old` is shorter) are exactly the characters of
`lit`. Terrain ids are ASCII, so characters and bytes coincide. -/
def compare_at_start (old : String) (n : Nat) (lit : String) : Bool :=
  decide (old.data.take n = lit.data)

/-- The call `s.rfind( pat )`: where the last occurrence of `pat` in `s` starts,
`none` for `npos`. -/
def rfind (s pat : String) : Option Nat :=
  (List.range (s.data.length + 1)).reverse.find? fun i => pat.data.isPrefixOf (s.data.drop i)

/-- The call `s.substr( 0, n )`, where `none` stands for `npos` (the whole
string). -/
def substr_to (s : String) (n : Option Nat) : String :=
  match n with
  | some k => ⟨s.data.take k⟩
  | none => s

/-- The local struct `convert_nearby` of `convert_terrain`. -/
structure convert_nearby where
  xoffset : Int
  x_id : String
  yoffset : Int
  y_id : String
  new_id : String
deriving DecidableEq, Repr

/-- The kinds of match of `is_ot_match`; only the kind used here is listed. -/
inductive ot_match_type where
  | TYPE
deriving DecidableEq, Repr

/-- Functions on terrain ids that `convert_terrain` calls and that are defined
elsewhere in the game, over an abstract type `O` of `oter_id`: the construction
of an id from its name, and `is_ot_match`. -/
structure overmap_env (O : Type) where
  oter_id : String → O
  is_ot_match : String → O → ot_match_type → Bool

/-- What the chain of tests in the loop body of `convert_terrain` does for one
cell: the name of the id it assigns to `new_id`, if it assigns one, and the
list `nearby` it builds. -/
structure conversion where
  assigned : Option String
  nearby : List convert_nearby
deriving DecidableEq, Repr

/-- The chain of tests on the old name in the loop body of
`overmap::convert_terrain`, for the cell at `pos` whose old name is `old`;
`get_ter` reads the terrain of the overmap. The branches are in the order of
the source. -/
def overmap.convert_chain {O : Type} (env : overmap_env O) (get_ter : tripoint → O)
    (pos : tripoint) (old : String) : conversion :=
  if old = "apartments_con_tower_1_entrance" ∨
      old = "apartments_mod_tower_1_entrance" then
    let base := (substr_to old (rfind old "1_entrance"))
    let other := base ++ "1"
    ⟨none, [⟨1, other, -1, other, base ++ "SW_north"⟩,
      ⟨-1, other, 1, other, base ++ "SW_south"⟩,
      ⟨1, other, 1, other, base ++ "SW_east"⟩,
      ⟨-1, other, -1, other, base ++ "SW_west"⟩]⟩
  else if old = "apartments_con_tower_1" ∨
      old = "apartments_mod_tower_1" then
    let base := (substr_to old (rfind old "1"))
    let entr := base ++ "1_entrance"
    ⟨none, [⟨1, old, 1, entr, base ++ "NW_north"⟩,
      ⟨-1, old, -1, entr, base ++ "NW_south"⟩,
      ⟨-1, entr, 1, old, base ++ "NW_east"⟩,
      ⟨1, entr, -1, old, base ++ "NW_west"⟩,
      ⟨-1, old, 1, old, base ++ "NE_north"⟩,
      ⟨1, old, -1, old, base ++ "NE_south"⟩,
      ⟨-1, old, -1, old, base ++ "NE_east"⟩,
      ⟨1, old, 1, old, base ++ "NE_west"⟩,
      ⟨-1, entr, -1, old, base ++ "SE_north"⟩,
      ⟨1, entr, 1, old, base ++ "SE_south"⟩,
      ⟨1, old, -1, entr, base ++ "SE_east"⟩,
      ⟨-1, old, 1, entr, base ++ "SE_west"⟩]⟩
  else if old = "subway_station" then
    ⟨some ("underground_sub_station"), []⟩
  else if old = "bridge_ew" then
    ⟨some ("bridge_east"), []⟩
  else if old = "bridge_ns" then
    ⟨some ("bridge_north"), []⟩
  else if old = "public_works_entrance" then
    let base := "public_works_"
    let other := "public_works"
    ⟨none, [⟨1, other, -1, other, base ++ "SW_north"⟩,
      ⟨-1, other, 1, other, base ++ "SW_south"⟩,
      ⟨1, other, 1, other, base ++ "SW_east"⟩,
      ⟨-1, other, -1, other, base ++ "SW_west"⟩]⟩
  else if old = "public_works" then
    let base := "public_works_"
    let entr := "public_works_entrance"
    ⟨none, [⟨1, old, 1, entr, base ++ "NW_north"⟩,
      ⟨-1, old, -1, entr, base ++ "NW_south"⟩,
      ⟨-1, entr, 1, old, base ++ "NW_east"⟩,
      ⟨1, entr, -1, old, base ++ "NW_west"⟩,
      ⟨-1, old, 1, old, base ++ "NE_north"⟩,
      ⟨1, old, -1, old, base ++ "NE_south"⟩,
      ⟨-1, old, -1, old, base ++ "NE_east"⟩,
      ⟨1, old, 1, old, base ++ "NE_west"⟩,
      ⟨-1, entr, -1, old, base ++ "SE_north"⟩,
      ⟨1, entr, 1, old, base ++ "SE_south"⟩,
      ⟨1, old, -1, entr, base ++ "SE_east"⟩,
      ⟨-1, old, 1, entr, base ++ "SE_west"⟩]⟩
  else if compare_at_start old 7 "school_" = true then
    let school := "school_"
    let school_1 := school ++ "1_"
    if old = school ++ "1" then
      ⟨none, [⟨-1, school ++ "2", 1, school ++ "4", school_1 ++ "1_north"⟩,
        ⟨-1, school ++ "4", -1, school ++ "2", school_1 ++ "1_east"⟩,
        ⟨1, school ++ "2", -1, school ++ "4", school_1 ++ "1_south"⟩,
        ⟨1, school ++ "4", 1, school ++ "2", school_1 ++ "1_west"⟩]⟩
    else if old = school ++ "2" then
      ⟨none, [⟨-1, school ++ "3", 1, school ++ "5", school_1 ++ "2_north"⟩,
        ⟨-1, school ++ "5", -1, school ++ "3", school_1 ++ "2_east"⟩,
        ⟨1, school ++ "3", -1, school ++ "5", school_1 ++ "2_south"⟩,
        ⟨1, school ++ "5", 1, school ++ "3", school_1 ++ "2_west"⟩]⟩
    else if old = school ++ "3" then
      ⟨none, [⟨1, school ++ "2", 1, school ++ "6", school_1 ++ "3_north"⟩,
        ⟨-1, school ++ "6", 1, school ++ "2", school_1 ++ "3_east"⟩,
        ⟨-1, school ++ "2", -1, school ++ "6", school_1 ++ "3_south"⟩,
        ⟨1, school ++ "6", -1, school ++ "2", school_1 ++ "3_west"⟩]⟩
    else if old = school ++ "4" then
      ⟨none, [⟨-1, school ++ "5", 1, school ++ "7", school_1 ++ "4_north"⟩,
        ⟨-1, school ++ "7", -1, school ++ "5", school_1 ++ "4_east"⟩,
        ⟨1, school ++ "5", -1, school ++ "7", school_1 ++ "4_south"⟩,
        ⟨1, school ++ "7", 1, school ++ "5", school_1 ++ "4_west"⟩]⟩
    else if old = school ++ "5" then
      ⟨none, [⟨-1, school ++ "6", 1, school ++ "8", school_1 ++ "5_north"⟩,
        ⟨-1, school ++ "8", -1, school ++ "6", school_1 ++ "5_east"⟩,
        ⟨1, school ++ "6", -1, school ++ "8", school_1 ++ "5_south"⟩,
        ⟨1, school ++ "8", 1, school ++ "6", school_1 ++ "5_west"⟩]⟩
    else if old = school ++ "6" then
      ⟨none, [⟨1, school ++ "5", 1, school ++ "9", school_1 ++ "6_north"⟩,
        ⟨-1, school ++ "9", 1, school ++ "5", school_1 ++ "6_east"⟩,
        ⟨-1, school ++ "5", -1, school ++ "9", school_1 ++ "6_south"⟩,
        ⟨1, school ++ "9", -1, school ++ "5", school_1 ++ "6_west"⟩]⟩
    else if old = school ++ "7" then
      ⟨none, [⟨-1, school ++ "8", -1, school ++ "4", school_1 ++ "7_north"⟩,
        ⟨1, school ++ "4", -1, school ++ "8", school_1 ++ "7_east"⟩,
        ⟨1, school ++ "8", 1, school ++ "4", school_1 ++ "7_south"⟩,
        ⟨-1, school ++ "4", 1, school ++ "8", school_1 ++ "7_west"⟩]⟩
    else if old = school ++ "8" then
      ⟨none, [⟨-1, school ++ "9", -1, school ++ "5", school_1 ++ "8_north"⟩,
        ⟨1, school ++ "5", -1, school ++ "9", school_1 ++ "8_east"⟩,
        ⟨1, school ++ "9", 1, school ++ "5", school_1 ++ "8_south"⟩,
        ⟨-1, school ++ "5", 1, school ++ "9", school_1 ++ "8_west"⟩]⟩
    else if old = school ++ "9" then
      ⟨none, [⟨1, school ++ "8", -1, school ++ "6", school_1 ++ "9_north"⟩,
        ⟨1, school ++ "6", 1, school ++ "8", school_1 ++ "9_east"⟩,
        ⟨-1, school ++ "8", 1, school ++ "6", school_1 ++ "9_south"⟩,
        ⟨-1, school ++ "6", -1, school ++ "8", school_1 ++ "9_west"⟩]⟩
    else ⟨none, []⟩
  else if compare_at_start old 7 "prison_" = true then
    let prison := "prison_"
    let prison_1 := prison ++ "1_"
    if old = "prison_b_entrance" then
      ⟨some ("prison_1_b_2_north"), []⟩
    else if old = "prison_b" then
      if pos.z < 0 then
        ⟨none, [⟨-1, "prison_b_entrance", 1, "prison_b", "prison_1_b_1_north"⟩,
          ⟨1, "prison_b_entrance", 1, "prison_b", "prison_1_b_3_north"⟩,
          ⟨-2, "prison_b", 1, "prison_b", "prison_1_b_4_north"⟩,
          ⟨0, "prison_b", -1, "prison_b_entrance", "prison_1_b_5_north"⟩,
          ⟨2, "prison_b", 1, "prison_b", "prison_1_b_6_north"⟩,
          ⟨-2, "prison_b", -2, "prison_b", "prison_1_b_7_north"⟩,
          ⟨0, "prison_b", -2, "prison_b_entrance", "prison_1_b_8_north"⟩,
          ⟨2, "prison_b", -2, "prison_b", "prison_1_b_9_north"⟩]⟩
      else ⟨none, []⟩
    else if old = prison ++ "1" then
      ⟨none, [⟨-1, prison ++ "2", 1, prison ++ "4", prison_1 ++ "1_north"⟩,
        ⟨-1, prison ++ "4", -1, prison ++ "2", prison_1 ++ "1_east"⟩,
        ⟨1, prison ++ "2", -1, prison ++ "4", prison_1 ++ "1_south"⟩,
        ⟨1, prison ++ "4", 1, prison ++ "2", prison_1 ++ "1_west"⟩]⟩
    else if old = prison ++ "2" then
      ⟨none, [⟨-1, prison ++ "3", 1, prison ++ "5", prison_1 ++ "2_north"⟩,
        ⟨-1, prison ++ "5", -1, prison ++ "3", prison_1 ++ "2_east"⟩,
        ⟨1, prison ++ "3", -1, prison ++ "5", prison_1 ++ "2_south"⟩,
        ⟨1, prison ++ "5", 1, prison ++ "3", prison_1 ++ "2_west"⟩]⟩
    else if old = prison ++ "3" then
      ⟨none, [⟨1, prison ++ "2", 1, prison ++ "6", prison_1 ++ "3_north"⟩,
        ⟨-1, prison ++ "6", 1, prison ++ "2", prison_1 ++ "3_east"⟩,
        ⟨-1, prison ++ "2", -1, prison ++ "6", prison_1 ++ "3_south"⟩,
        ⟨1, prison ++ "6", -1, prison ++ "2", prison_1 ++ "3_west"⟩]⟩
    else if old = prison ++ "4" then
      ⟨none, [⟨-1, prison ++ "5", 1, prison ++ "7", prison_1 ++ "4_north"⟩,
        ⟨-1, prison ++ "7", -1, prison ++ "5", prison_1 ++ "4_east"⟩,
        ⟨1, prison ++ "5", -1, prison ++ "7", prison_1 ++ "4_south"⟩,
        ⟨1, prison ++ "7", 1, prison ++ "5", prison_1 ++ "4_west"⟩]⟩
    else if old = prison ++ "5" then
      ⟨none, [⟨-1, prison ++ "6", 1, prison ++ "8", prison_1 ++ "5_north"⟩,
        ⟨-1, prison ++ "8", -1, prison ++ "6", prison_1 ++ "5_east"⟩,
        ⟨1, prison ++ "6", -1, prison ++ "8", prison_1 ++ "5_south"⟩,
        ⟨1, prison ++ "8", 1, prison ++ "6", prison_1 ++ "5_west"⟩]⟩
    else if old = prison ++ "6" then
      ⟨none, [⟨1, prison ++ "5", 1, prison ++ "9", prison_1 ++ "6_north"⟩,
        ⟨-1, prison ++ "9", 1, prison ++ "5", prison_1 ++ "6_east"⟩,
        ⟨-1, prison ++ "5", -1, prison ++ "9", prison_1 ++ "6_south"⟩,
        ⟨1, prison ++ "9", -1, prison ++ "5", prison_1 ++ "6_west"⟩]⟩
    else if old = prison ++ "7" then
      ⟨none, [⟨-1, prison ++ "8", -1, prison ++ "4", prison_1 ++ "7_north"⟩,
        ⟨1, prison ++ "4", -1, prison ++ "8", prison_1 ++ "7_east"⟩,
        ⟨1, prison ++ "8", 1, prison ++ "4", prison_1 ++ "7_south"⟩,
        ⟨-1, prison ++ "4", 1, prison ++ "8", prison_1 ++ "7_west"⟩]⟩
    else if old = prison ++ "8" then
      ⟨none, [⟨-1, prison ++ "9", -1, prison ++ "5", prison_1 ++ "8_north"⟩,
        ⟨1, prison ++ "5", -1, prison ++ "9", prison_1 ++ "8_east"⟩,
        ⟨1, prison ++ "9", 1, prison ++ "5", prison_1 ++ "8_south"⟩,
        ⟨-1, prison ++ "5", 1, prison ++ "9", prison_1 ++ "8_west"⟩]⟩
    else if old = prison ++ "9" then
      ⟨none, [⟨1, prison ++ "8", -1, prison ++ "6", prison_1 ++ "9_north"⟩,
        ⟨1, prison ++ "6", 1, prison ++ "8", prison_1 ++ "9_east"⟩,
        ⟨-1, prison ++ "8", 1, prison ++ "6", prison_1 ++ "9_south"⟩,
        ⟨-1, prison ++ "6", -1, prison ++ "8", prison_1 ++ "9_west"⟩]⟩
    else ⟨none, []⟩
  else if compare_at_start old 8 "hospital" = true then
    let hospital := "hospital"
    let hospital_entrance := "hospital_entrance"
    if old = hospital_entrance then
      ⟨some (hospital ++ "_2_north"), []⟩
    else if old = hospital then
      ⟨none, [⟨-1, hospital_entrance, 1, hospital, hospital ++ "_1_north"⟩,
        ⟨1, hospital_entrance, 1, hospital, hospital ++ "_3_north"⟩,
        ⟨-2, hospital, 1, hospital, hospital ++ "_4_north"⟩,
        ⟨0, hospital, -1, hospital_entrance, hospital ++ "_5_north"⟩,
        ⟨2, hospital, 1, hospital, hospital ++ "_6_north"⟩,
        ⟨-2, hospital, -2, hospital, hospital ++ "_7_north"⟩,
        ⟨0, hospital, -2, hospital_entrance, hospital ++ "_8_north"⟩,
        ⟨2, hospital, -2, hospital, hospital ++ "_9_north"⟩]⟩
    else ⟨none, []⟩
  else if old = "cathedral_1_entrance" then
    let base := "cathedral_1_"
    let other := "cathedral_1"
    ⟨none, [⟨1, other, -1, other, base ++ "SW_north"⟩,
      ⟨-1, other, 1, other, base ++ "SW_south"⟩,
      ⟨1, other, 1, other, base ++ "SW_east"⟩,
      ⟨-1, other, -1, other, base ++ "SW_west"⟩]⟩
  else if old = "cathedral_1" then
    let base := "cathedral_1_"
    let entr := "cathedral_1_entrance"
    ⟨none, [⟨1, old, 1, entr, base ++ "NW_north"⟩,
      ⟨-1, old, -1, entr, base ++ "NW_south"⟩,
      ⟨-1, entr, 1, old, base ++ "NW_east"⟩,
      ⟨1, entr, -1, old, base ++ "NW_west"⟩,
      ⟨-1, old, 1, old, base ++ "NE_north"⟩,
      ⟨1, old, -1, old, base ++ "NE_south"⟩,
      ⟨-1, old, -1, old, base ++ "NE_east"⟩,
      ⟨1, old, 1, old, base ++ "NE_west"⟩,
      ⟨-1, entr, -1, old, base ++ "SE_north"⟩,
      ⟨1, entr, 1, old, base ++ "SE_south"⟩,
      ⟨1, old, -1, entr, base ++ "SE_east"⟩,
      ⟨-1, old, 1, entr, base ++ "SE_west"⟩]⟩
  else if old = "cathedral_b_entrance" then
    let base := "cathedral_b_"
    let other := "cathedral_b"
    ⟨none, [⟨1, other, -1, other, base ++ "SW_north"⟩,
      ⟨-1, other, 1, other, base ++ "SW_south"⟩,
      ⟨1, other, 1, other, base ++ "SW_east"⟩,
      ⟨-1, other, -1, other, base ++ "SW_west"⟩]⟩
  else if old = "cathedral_b" then
    let base := "cathedral_b_"
    let entr := "cathedral_b_entrance"
    ⟨none, [⟨1, old, 1, entr, base ++ "NW_north"⟩,
      ⟨-1, old, -1, entr, base ++ "NW_south"⟩,
      ⟨-1, entr, 1, old, base ++ "NW_east"⟩,
      ⟨1, entr, -1, old, base ++ "NW_west"⟩,
      ⟨-1, old, 1, old, base ++ "NE_north"⟩,
      ⟨1, old, -1, old, base ++ "NE_south"⟩,
      ⟨-1, old, -1, old, base ++ "NE_east"⟩,
      ⟨1, old, 1, old, base ++ "NE_west"⟩,
      ⟨-1, entr, -1, old, base ++ "SE_north"⟩,
      ⟨1, entr, 1, old, base ++ "SE_south"⟩,
      ⟨1, old, -1, entr, base ++ "SE_east"⟩,
      ⟨-1, old, 1, entr, base ++ "SE_west"⟩]⟩
  else if compare_at_start old 14 "hotel_tower_1_" = true then
    let hotel := "hotel_tower_1_"
    if old = hotel ++ "1" then
      ⟨none, [⟨-1, hotel ++ "2", 1, hotel ++ "4", hotel ++ "1_north"⟩,
        ⟨-1, hotel ++ "4", -1, hotel ++ "2", hotel ++ "1_east"⟩,
        ⟨1, hotel ++ "2", -1, hotel ++ "4", hotel ++ "1_south"⟩,
        ⟨1, hotel ++ "4", 1, hotel ++ "2", hotel ++ "1_west"⟩]⟩
    else if old = hotel ++ "2" then
      ⟨none, [⟨-1, hotel ++ "3", 1, hotel ++ "5", hotel ++ "2_north"⟩,
        ⟨-1, hotel ++ "5", -1, hotel ++ "3", hotel ++ "2_east"⟩,
        ⟨1, hotel ++ "3", -1, hotel ++ "5", hotel ++ "2_south"⟩,
        ⟨1, hotel ++ "5", 1, hotel ++ "3", hotel ++ "2_west"⟩]⟩
    else if old = hotel ++ "3" then
      ⟨none, [⟨1, hotel ++ "2", 1, hotel ++ "6", hotel ++ "3_north"⟩,
        ⟨-1, hotel ++ "6", 1, hotel ++ "2", hotel ++ "3_east"⟩,
        ⟨-1, hotel ++ "2", -1, hotel ++ "6", hotel ++ "3_south"⟩,
        ⟨1, hotel ++ "6", -1, hotel ++ "2", hotel ++ "3_west"⟩]⟩
    else if old = hotel ++ "4" then
      ⟨none, [⟨-1, hotel ++ "5", 1, hotel ++ "7", hotel ++ "4_north"⟩,
        ⟨-1, hotel ++ "7", -1, hotel ++ "5", hotel ++ "4_east"⟩,
        ⟨1, hotel ++ "5", -1, hotel ++ "7", hotel ++ "4_south"⟩,
        ⟨1, hotel ++ "7", 1, hotel ++ "5", hotel ++ "4_west"⟩]⟩
    else if old = hotel ++ "5" then
      ⟨none, [⟨-1, hotel ++ "6", 1, hotel ++ "8", hotel ++ "5_north"⟩,
        ⟨-1, hotel ++ "8", -1, hotel ++ "6", hotel ++ "5_east"⟩,
        ⟨1, hotel ++ "6", -1, hotel ++ "8", hotel ++ "5_south"⟩,
        ⟨1, hotel ++ "8", 1, hotel ++ "6", hotel ++ "5_west"⟩]⟩
    else if old = hotel ++ "6" then
      ⟨none, [⟨1, hotel ++ "5", 1, hotel ++ "9", hotel ++ "6_north"⟩,
        ⟨-1, hotel ++ "9", 1, hotel ++ "5", hotel ++ "6_east"⟩,
        ⟨-1, hotel ++ "5", -1, hotel ++ "9", hotel ++ "6_south"⟩,
        ⟨1, hotel ++ "9", -1, hotel ++ "5", hotel ++ "6_west"⟩]⟩
    else if old = hotel ++ "7" then
      ⟨none, [⟨-1, hotel ++ "8", -1, hotel ++ "4", hotel ++ "7_north"⟩,
        ⟨1, hotel ++ "4", -1, hotel ++ "8", hotel ++ "7_east"⟩,
        ⟨1, hotel ++ "8", 1, hotel ++ "4", hotel ++ "7_south"⟩,
        ⟨-1, hotel ++ "4", 1, hotel ++ "8", hotel ++ "7_west"⟩]⟩
    else if old = hotel ++ "8" then
      ⟨none, [⟨-1, hotel ++ "9", -1, hotel ++ "5", hotel ++ "8_north"⟩,
        ⟨1, hotel ++ "5", -1, hotel ++ "9", hotel ++ "8_east"⟩,
        ⟨1, hotel ++ "9", 1, hotel ++ "5", hotel ++ "8_south"⟩,
        ⟨-1, hotel ++ "5", 1, hotel ++ "9", hotel ++ "8_west"⟩]⟩
    else if old = hotel ++ "9" then
      ⟨none, [⟨1, hotel ++ "8", -1, hotel ++ "6", hotel ++ "9_north"⟩,
        ⟨1, hotel ++ "6", 1, hotel ++ "8", hotel ++ "9_east"⟩,
        ⟨-1, hotel ++ "8", 1, hotel ++ "6", hotel ++ "9_south"⟩,
        ⟨-1, hotel ++ "6", -1, hotel ++ "8", hotel ++ "9_west"⟩]⟩
    else ⟨none, []⟩
  else if compare_at_start old 14 "hotel_tower_b_" = true then
    let hotelb := "hotel_tower_b_"
    if old = hotelb ++ "1" then
      ⟨none, [⟨-1, hotelb ++ "2", 0, hotelb ++ "1", hotelb ++ "1_north"⟩,
        ⟨0, hotelb ++ "1", -1, hotelb ++ "2", hotelb ++ "1_east"⟩,
        ⟨1, hotelb ++ "2", 0, hotelb ++ "1", hotelb ++ "1_south"⟩,
        ⟨0, hotelb ++ "1", 1, hotelb ++ "2", hotelb ++ "1_west"⟩]⟩
    else if old = hotelb ++ "2" then
      ⟨none, [⟨-1, hotelb ++ "3", 0, hotelb ++ "2", hotelb ++ "2_north"⟩,
        ⟨0, hotelb ++ "2", -1, hotelb ++ "3", hotelb ++ "2_east"⟩,
        ⟨1, hotelb ++ "3", 0, hotelb ++ "2", hotelb ++ "2_south"⟩,
        ⟨0, hotelb ++ "2", 1, hotelb ++ "3", hotelb ++ "2_west"⟩]⟩
    else if old = hotelb ++ "3" then
      ⟨none, [⟨1, hotelb ++ "2", 0, hotelb ++ "3", hotelb ++ "3_north"⟩,
        ⟨0, hotelb ++ "3", 1, hotelb ++ "2", hotelb ++ "3_east"⟩,
        ⟨-1, hotelb ++ "2", 0, hotelb ++ "3", hotelb ++ "3_south"⟩,
        ⟨0, hotelb ++ "3", -1, hotelb ++ "2", hotelb ++ "3_west"⟩]⟩
    else ⟨none, []⟩
  else if old = "bunker" then
    if pos.z < 0 then
      ⟨some ("bunker_basement"), []⟩
    else if env.is_ot_match "road" (get_ter ⟨pos.x + 1, pos.y, pos.z⟩) .TYPE = true then
      ⟨some ("bunker_west"), []⟩
    else if env.is_ot_match "road" (get_ter ⟨pos.x - 1, pos.y, pos.z⟩) .TYPE = true then
      ⟨some ("bunker_east"), []⟩
    else if env.is_ot_match "road" (get_ter ⟨pos.x, pos.y + 1, pos.z⟩) .TYPE = true then
      ⟨some ("bunker_north"), []⟩
    else
      ⟨some ("bunker_south"), []⟩
  else if old = "farm" then
    ⟨some ("farm_2_north"), []⟩
  else if old = "farm_field" then
    ⟨none, [⟨-1, "farm", 1, "farm_field", "farm_1_north"⟩,
      ⟨1, "farm", 1, "farm_field", "farm_3_north"⟩,
      ⟨-2, "farm_field", 1, "farm_field", "farm_4_north"⟩,
      ⟨0, "farm_field", -1, "farm", "farm_5_north"⟩,
      ⟨2, "farm_field", 1, "farm_field", "farm_6_north"⟩,
      ⟨-2, "farm_field", -2, "farm_field", "farm_7_north"⟩,
      ⟨0, "farm_field", -2, "farm", "farm_8_north"⟩,
      ⟨2, "farm_field", -2, "farm_field", "farm_9_north"⟩]⟩
  else if compare_at_start old 7 "mansion" = true then
    if old = "mansion_entrance" then
      ⟨some ("mansion_e1_north"), []⟩
    else if old = "mansion" then
      ⟨none, [⟨-1, "mansion_entrance", 1, "mansion", "mansion_c1_east"⟩,
        ⟨1, "mansion_entrance", 1, "mansion", "mansion_c3_north"⟩,
        ⟨-2, "mansion", 1, "mansion", "mansion_t2_west"⟩,
        ⟨0, "mansion", -1, "mansion_entrance", "mansion_+4_north"⟩,
        ⟨2, "mansion", 1, "mansion", "mansion_t4_east"⟩,
        ⟨-2, "mansion", -2, "mansion", "mansion_c4_south"⟩,
        ⟨0, "mansion", -2, "mansion_entrance", "mansion_t2_north"⟩,
        ⟨2, "mansion", -2, "mansion", "mansion_c2_west"⟩]⟩
    else ⟨none, []⟩
  else if compare_at_start old 4 "lmoe" = true ∨
      compare_at_start old 5 "cabin" = true ∨
      compare_at_start old 5 "pond_" = true ∨
      compare_at_start old 6 "bandit" = true ∨
      compare_at_start old 7 "haz_sar" = true ∨
      compare_at_start old 7 "shelter" = true ∨
      compare_at_start old 8 "campsite" = true ∨
      compare_at_start old 9 "pwr_large" = true ∨
      compare_at_start old 9 "shipwreck" = true ∨
      compare_at_start old 9 "robofachq" = true ∨
      compare_at_start old 10 "ranch_camp" = true ∨
      compare_at_start old 11 "hdwr_large_" = true ∨
      compare_at_start old 14 "loffice_tower_" = true ∨
      compare_at_start old 17 "cemetery_4square_" = true then
    ⟨some (old ++ "_north"), []⟩
  else if old = "hunter_shack" ∨
      old = "outpost" ∨
      old = "park" ∨
      old = "pool" ∨
      old = "pwr_sub_s" ∨
      old = "radio_tower" ∨
      old = "sai" ∨
      old = "toxic_dump" then
    ⟨some (old ++ "_north"), []⟩
  else ⟨none, []⟩

/-- The lookup `needs_conversion.find( p )` in the
`std::unordered_map<tripoint, std::string>`: the name stored for `p`, `none` for
`end()`. -/
def needs_conversion_find (needs_conversion : List (tripoint × String)) (p : tripoint) :
    Option String :=
  match needs_conversion with
  | [] => none
  | (q, name) :: rest => if q = p then some name else needs_conversion_find rest p

/-- The assignment through the reference `ter( pos.x, pos.y, pos.z )`: the
terrain with the id at `pos` replaced. -/
def set_ter {O : Type} (terrain : tripoint → O) (pos : tripoint) (id : O) : tripoint → O :=
  fun p => if p = pos then id else terrain p

/-- The body of the outer loop of `overmap::convert_terrain` for one entry of
`needs_conversion`: the chain of tests, then the loop over `nearby`, which
assigns the id of the first entry whose two neighbours are recorded under the
expected old names. -/
def overmap.convert_cell {O : Type} (env : overmap_env O)
    (needs_conversion : List (tripoint × String)) (terrain : tripoint → O)
    (convert : tripoint × String) : tripoint → O :=
  let pos := convert.1
  let old := convert.2
  let c := overmap.convert_chain env terrain pos old
  let terrain1 :=
    match c.assigned with
    | some name => set_ter terrain pos (env.oter_id name)
    | none => terrain
  match c.nearby.find? (fun conv =>
      decide (needs_conversion_find needs_conversion ⟨pos.x + conv.xoffset, pos.y, pos.z⟩ =
        some conv.x_id) &&
      decide (needs_conversion_find needs_conversion ⟨pos.x, pos.y + conv.yoffset, pos.z⟩ =
        some conv.y_id)) with
  | some conv => set_ter terrain1 pos (env.oter_id conv.new_id)
  | none => terrain1

/-- The method `overmap::convert_terrain( needs_conversion )`; the entries are
listed in the order the unordered map yields them, and the terrain of the
overmap is a function of the position. -/
def overmap.convert_terrain {O : Type} (env : overmap_env O)
    (needs_conversion : List (tripoint × String)) (terrain : tripoint → O) : tripoint → O :=
  needs_conversion.foldl (overmap.convert_cell env needs_conversion) terrain

/-- The beginnings of the names of the terrains that lost the NO_ROTATE flag. -/
def no_rotate_starts : List String :=
  ["lmoe", "cabin", "pond_", "bandit", "haz_sar", "shelter", "campsite", "pwr_large",
    "shipwreck", "robofachq", "ranch_camp", "hdwr_large_", "loffice_tower_",
    "cemetery_4square_"]

/-- The whole names of the terrains that lost the NO_ROTATE flag. -/
def no_rotate_names : List String :=
  ["hunter_shack", "outpost", "park", "pool", "pwr_sub_s", "radio_tower", "sai", "toxic_dump"]

/-- The names the chain tests for equality before it reaches the branch of the
NO_ROTATE migration. -/
def earlier_names : List String :=
  ["apartments_con_tower_1_entrance", "apartments_mod_tower_1_entrance",
    "apartments_con_tower_1", "apartments_mod_tower_1", "subway_station", "bridge_ew",
    "bridge_ns", "public_works_entrance", "public_works", "cathedral_1_entrance", "cathedral_1",
    "cathedral_b_entrance", "cathedral_b", "bunker", "farm", "farm_field"]

/-- The beginnings the chain tests before it reaches that branch. -/
def earlier_starts : List String :=
  ["school_", "prison_", "hospital", "hotel_tower_1_", "hotel_tower_b_", "mansion"]

/-- A terrain id is its name here, and no terrain is a road. -/
def sample_overmap_env : overmap_env String := ⟨fun name => name, fun _ _ _ => false⟩

/-- Two cells to convert: a cabin by a lake, and a farm next to it. -/
def sample_needs_conversion : List (tripoint × String) :=
  [(⟨3, 4, 0⟩, "cabin_lake"), (⟨4, 4, 0⟩, "farm")]

/-! ## Loading a saved game (savegame.cpp)

The JSON reader and the parts of the game that the loaders call are defined
elsewhere in the game; they are parameters (`save_env`). Every call of the
reader may raise a `JsonError`, whose text is a `String`. -/

/-- The constant `savegame_version`. -/
def savegame_version : Int := 25

/-- A statement of a `try` block over the state `σ`: the state it leaves, and
the text of the `JsonError` it raised, if it raised one. -/
abbrev try_step (σ : Type) := σ → σ × Option String

/-- The statements of a `try` block run in order; the first that raises ends
the block, with the state it left. -/
def run_try {σ : Type} : List (try_step σ) → σ → σ × Option String
  | [], s => (s, none)
  | step :: rest, s =>
    match step s with
    | (s1, none) => run_try rest s1
    | (s1, some e) => (s1, some e)

/-- A statement that takes the result `r` of a call of the reader and, when the
call did not raise, changes the state with `set`. -/
def on_read {σ α : Type} (r : Except String α) (set : α → σ → σ) : try_step σ :=
  fun s =>
    match r with
    | .ok a => (set a s, none)
    | .error e => (s, some e)

/-- A statement that changes the state and cannot raise. -/
def plain {σ : Type} (f : σ → σ) : try_step σ := fun s => (f s, none)

/-- The function `chkversion( fin )`, which `game::unserialize` repeats in its
own text: a stream that starts with `#` has its first line read as a version
header, and `savegame_loading_version` takes the version when the second field
is the word version and the number is not -1. Returns the new
`savegame_loading_version` and the rest of the stream. -/
def chkversion (fin : List Char) (savegame_loading_version : Int) : Int × List Char :=
  if fin.head? = some '#' then
    let header := read_version_line (getline fin).1
    if header.tmpver = ['v', 'e', 'r', 's', 'i', 'o', 'n'] ∧ header.savedver ≠ -1 then
      (header.savedver, (getline fin).2)
    else (savegame_loading_version, (getline fin).2)
  else (savegame_loading_version, fin)

/-- The types of the parts of the game that are defined elsewhere. -/
structure game_types where
  Map : Type
  Scent : Type
  Tracker : Type
  Monster : Type
  Player : Type
  Messages : Type
  Mission : Type
  Missions : Type
  Factions : Type

/-- The state `game::unserialize` and `game::unserialize_master` write to:
members of `game`, the calendar, the global `savegame_loading_version`, the
missions and factions, and the popups and debug messages shown. -/
structure game_state (T : game_types) where
  savegame_loading_version : Int
  calendar_turn : Int
  calendar_start : Int
  initial_season : Int
  auto_travel_mode : Bool
  safe_mode : Int
  mostseen : Int
  m : T.Map
  scent : T.Scent
  critter_tracker : T.Tracker
  coming_to_stairs : List T.Monster
  kills : List (String × Int)
  npc_kills : List String
  u : T.Player
  messages : T.Messages
  next_mission_id : Int
  next_npc_id : Int
  missions : T.Missions
  factions : T.Factions
  popups : List String
  debug_log : List String

/-- The call `debugmsg( text )`: the text is added to the debug messages. -/
def debugmsg {T : game_types} (text : String) (g : game_state T) : game_state T :=
  { g with debug_log := g.debug_log ++ [text] }

/-- What a streaming `JsonIn` yields for a top-level object: the error
`start_object()` raises, if the text does not open an object; the members in
order; and the error raised after the last of them, if the text is malformed
there instead of closing the object. -/
structure json_object_stream (V : Type) where
  start_error : Option String
  members : List (String × V)
  end_error : Option String

/-- The JSON reader over parsed objects `D` and values `V`, and the functions
and constants of the game that the two loaders use. A result in `Except` is an
error when the call raises a `JsonError`; a pair with an `Option String` gives
the state the call leaves and the error it raised, if any. The `read` calls
give `none` when they return false and leave the variable as it was. -/
structure save_env (T : game_types) (D V : Type) where
  OMAPX : Int
  OMAPY : Int
  SPRING : Int
  SAFE_MODE_OFF : Int
  SAFE_MODE_ON : Int
  get_option_SAFEMODE : Bool
  load_map : tripoint → T.Map → T.Map
  scent_deserialize : String → T.Scent → T.Scent
  scent_reset : T.Scent → T.Scent
  default_monster : T.Monster
  get_object : List Char → Except String D
  read_int : D → String → Except String (Option Int)
  read_bool : D → String → Except String (Option Bool)
  read_string : D → String → Except String (Option String)
  get_int_or : D → String → Int → Except String Int
  get_int : D → String → Except String Int
  get_array : D → String → Except String (List V)
  get_object_in : D → String → Except String D
  get_member_names : D → List String
  read_tracker : D → String → T.Tracker → T.Tracker × Option String
  read_next_monster : V → Except String (Option T.Monster)
  read_next_string : V → Except String (Option String)
  read_player : D → String → T.Player → T.Player × Option String
  messages_deserialize : D → T.Messages → T.Messages × Option String
  json_in : List Char → json_object_stream V
  stream_get_int : V → Except String Int
  array_elements : V → List V × Option String
  mission_deserialize : V → Except String T.Mission
  add_existing : T.Missions → T.Mission → T.Missions
  read_factions : V → T.Factions → T.Factions × Option String
  skip_value : V → Option String

/-- The local variables of `game::unserialize`, with the game. -/
structure unserialize_state (T : game_types) where
  tmpturn : Int
  tmpcalstart : Int
  tmprun : Int
  levx : Int
  levy : Int
  levz : Int
  comx : Int
  comy : Int
  linebuf : String
  g : game_state T

/-- The assignment `kills[ id ] = count` into the `std::map`. -/
def kills_set (kills : List (String × Int)) (id : String) (count : Int) : List (String × Int) :=
  match kills with
  | [] => [(id, count)]
  | (k, c) :: rest => if k = id then (k, count) :: rest else (k, c) :: kills_set rest id count

/-- The index operator `kills[ id ]` of the `std::map` on its own: a key that
is not in the map is put in with the count 0. -/
def kills_index (kills : List (String × Int)) (id : String) : List (String × Int) :=
  match kills with
  | [] => [(id, 0)]
  | (k, c) :: rest => if k = id then (k, c) :: rest else (k, c) :: kills_index rest id

/-- The body of the loop over the members of `kills`:
`kills[ mtype_id( member ) ] = odata.get_int( member )`. The index operator on
the left is evaluated before the call on the right, so when `get_int` raises
the key is already in the map. -/
def game.unserialize_kill {T : game_types} {D V : Type} (env : save_env T D V) (odata : D)
    (member : String) : try_step (unserialize_state T) :=
  fun s =>
    match env.get_int odata member with
    | .ok count =>
      ({ s with g := { s.g with
          kills := kills_set (kills_index s.g.kills member) member count } }, none)
    | .error e => ({ s with g := { s.g with kills := kills_index s.g.kills member } }, some e)

/-- The value of an `int` sum or product: the result in the range of `int`,
an overflow wrapping around. -/
def wrap_int (n : Int) : Int := (n + 2147483648) % 4294967296 - 2147483648

/-- The statements of the `try` block of `game::unserialize` that follow
`JsonObject data = jsin.get_object()`, for the object `data`, in the order of
the source. -/
def game.unserialize_steps {T : game_types} {D V : Type} (env : save_env T D V) (data : D) :
    List (try_step (unserialize_state T)) :=
  [ on_read (env.read_int data "turn") fun v s => { s with tmpturn := v.getD s.tmpturn },
    on_read (env.read_int data "calendar_start") fun v s =>
      { s with tmpcalstart := v.getD s.tmpcalstart },
    on_read (env.get_int_or data "initial_season" env.SPRING) fun v s =>
      { s with g := { s.g with initial_season := v } },
    on_read (env.read_bool data "auto_travel_mode") fun v s =>
      { s with g := { s.g with auto_travel_mode := v.getD s.g.auto_travel_mode } },
    on_read (env.read_int data "run_mode") fun v s => { s with tmprun := v.getD s.tmprun },
    on_read (env.read_int data "mostseen") fun v s =>
      { s with g := { s.g with mostseen := v.getD s.g.mostseen } },
    on_read (env.read_int data "levx") fun v s => { s with levx := v.getD s.levx },
    on_read (env.read_int data "levy") fun v s => { s with levy := v.getD s.levy },
    on_read (env.read_int data "levz") fun v s => { s with levz := v.getD s.levz },
    on_read (env.read_int data "om_x") fun v s => { s with comx := v.getD s.comx },
    on_read (env.read_int data "om_y") fun v s => { s with comy := v.getD s.comy },
    plain fun s =>
      { s with g := { s.g with calendar_turn := s.tmpturn, calendar_start := s.tmpcalstart } },
    plain fun s =>
      { s with g := { s.g with
          m := env.load_map
            ⟨wrap_int (s.levx + s.comx * env.OMAPX * 2),
              wrap_int (s.levy + s.comy * env.OMAPY * 2), s.levz⟩ s.g.m } },
    plain fun s =>
      { s with g := { s.g with
          safe_mode :=
            if env.get_option_SAFEMODE = true ∧ s.tmprun = env.SAFE_MODE_OFF
            then env.SAFE_MODE_ON else s.tmprun } },
    on_read (env.read_string data "grscent") fun v s =>
      match v with
      | some text =>
        { s with linebuf := text, g := { s.g with scent := env.scent_deserialize text s.g.scent } }
      | none => { s with linebuf := "", g := { s.g with scent := env.scent_reset s.g.scent } },
    fun s =>
      ({ s with g := { s.g with
          critter_tracker := (env.read_tracker data "active_monsters" s.g.critter_tracker).1 } },
        (env.read_tracker data "active_monsters" s.g.critter_tracker).2),
    fun s =>
      match env.get_array data "stair_monsters" with
      | .error e => (s, some e)
      | .ok vdata =>
        run_try (vdata.map fun v =>
          on_read (env.read_next_monster v) fun stairtmp s =>
            { s with g := { s.g with
                coming_to_stairs := s.g.coming_to_stairs ++ [stairtmp.getD env.default_monster] } })
          { s with g := { s.g with coming_to_stairs := [] } },
    fun s =>
      match env.get_object_in data "kills" with
      | .error e => (s, some e)
      | .ok odata =>
        run_try ((env.get_member_names odata).map (game.unserialize_kill env odata)) s,
    fun s =>
      match env.get_array data "npc_kills" with
      | .error e => (s, some e)
      | .ok vdata =>
        run_try (vdata.map fun v =>
          on_read (env.read_next_string v) fun npc_name s =>
            { s with g := { s.g with npc_kills := s.g.npc_kills ++ [npc_name.getD ""] } }) s,
    fun s =>
      ({ s with g := { s.g with u := (env.read_player data "player" s.g.u).1 } },
        (env.read_player data "player" s.g.u).2),
    fun s =>
      ({ s with g := { s.g with messages := (env.messages_deserialize data s.g.messages).1 } },
        (env.messages_deserialize data s.g.messages).2) ]

/-- The state in which the `try` block of `game::unserialize` starts: the
header has been read and the local variables are zero. -/
def game.unserialize_start {T : game_types} (fin : List Char) (g : game_state T) :
    unserialize_state T :=
  { tmpturn := 0, tmpcalstart := 0, tmprun := 0, levx := 0, levy := 0, levz := 0, comx := 0,
    comy := 0, linebuf := "",
    g := { g with
      savegame_loading_version := (chkversion fin g.savegame_loading_version).1 } }

/-- The `try` block of `game::unserialize`: the state it leaves and the error
it raised, if any. -/
def game.unserialize_try {T : game_types} {D V : Type} (env : save_env T D V)
    (fin : List Char) (g : game_state T) : unserialize_state T × Option String :=
  match env.get_object (chkversion fin g.savegame_loading_version).2 with
  | .error e => (game.unserialize_start fin g, some e)
  | .ok data => run_try (game.unserialize_steps env data) (game.unserialize_start fin g)

/-- The method `game::unserialize( fin )`: a `JsonError` raised in the `try`
block is caught and reported with `debugmsg`. -/
def game.unserialize {T : game_types} {D V : Type} (env : save_env T D V)
    (fin : List Char) (g : game_state T) : game_state T :=
  match game.unserialize_try env fin g with
  | (s, none) => s.g
  | (s, some e) => debugmsg ("Bad save json\n" ++ e) s.g

/-- The function `mission::unserialize_all( jsin )` on the value `v`: each
element of the array is deserialized and added with `add_existing`. -/
def mission.unserialize_all {T : game_types} {D V : Type} (env : save_env T D V) (v : V) :
    try_step (game_state T) :=
  fun g =>
    match run_try ((env.array_elements v).1.map fun element =>
        on_read (env.mission_deserialize element) fun mis (g : game_state T) =>
          { g with missions := env.add_existing g.missions mis }) g with
    | (g1, some e) => (g1, some e)
    | (g1, none) => (g1, (env.array_elements v).2)

/-- The body of the loop of `game::unserialize_master` for the member `name`
with the value `v`. -/
def game.unserialize_master_member {T : game_types} {D V : Type} (env : save_env T D V)
    (member : String × V) : try_step (game_state T) :=
  if member.1 = "next_mission_id" then
    on_read (env.stream_get_int member.2) fun n g => { g with next_mission_id := n }
  else if member.1 = "next_npc_id" then
    on_read (env.stream_get_int member.2) fun n g => { g with next_npc_id := n }
  else if member.1 = "active_missions" then
    mission.unserialize_all env member.2
  else if member.1 = "factions" then
    fun g =>
      ({ g with factions := (env.read_factions member.2 g.factions).1 },
        (env.read_factions member.2 g.factions).2)
  else
    fun g => (g, env.skip_value member.2)

/-- The statements of the `try` block of `game::unserialize_master` for the
object stream `js`: `start_object()`, the body of the loop for each member, and
the last `end_object()`. -/
def game.unserialize_master_steps {T : game_types} {D V : Type} (env : save_env T D V)
    (js : json_object_stream V) : List (try_step (game_state T)) :=
  [fun g => (g, js.start_error)] ++ js.members.map (game.unserialize_master_member env) ++
    [fun g => (g, js.end_error)]

/-- The state in which the `try` block of `game::unserialize_master` starts:
`savegame_loading_version` is set to 0 and then by `chkversion`, and the popup
is shown when no loader exists for the version. -/
def game.unserialize_master_start {T : game_types} (fin : List Char) (g : game_state T) :
    game_state T :=
  let version := (chkversion fin 0).1
  let g1 := { g with savegame_loading_version := version }
  if version ≠ savegame_version ∧ version < 11 then
    { g1 with popups := g1.popups ++
        ["Cannot find loader for save data in old version " ++ toString version ++
          ", attempting to load as current version " ++ toString savegame_version ++ "."] }
  else g1

/-- The method `game::unserialize_master( fin )`. -/
def game.unserialize_master {T : game_types} {D V : Type} (env : save_env T D V)
    (fin : List Char) (g : game_state T) : game_state T :=
  match run_try (game.unserialize_master_steps env (env.json_in (chkversion fin 0).2))
      (game.unserialize_master_start fin g) with
  | (g1, none) => g1
  | (g1, some e) => debugmsg ("error loading master.gsav: " ++ e) g1

/-- Sample types of the parts of the game: each has one value. -/
def sample_types : game_types := ⟨Unit, Unit, Unit, Unit, Unit, Unit, Unit, Unit, Unit⟩

/-- A sample reader over the JSON values of this development: the text of a
save parses to the object `data`, and the text of master.gsav to the stream
`stream`. A member of the wrong kind makes a `read` return false and makes a
`get` raise an error. -/
def sample_save_env (data : List (String × json_value)) (stream : json_object_stream json_value) :
    save_env sample_types (List (String × json_value)) json_value where
  OMAPX := 180
  OMAPY := 180
  SPRING := 0
  SAFE_MODE_OFF := 0
  SAFE_MODE_ON := 1
  get_option_SAFEMODE := false
  load_map := fun _ m => m
  scent_deserialize := fun _ s => s
  scent_reset := fun s => s
  default_monster := ()
  get_object := fun _ => .ok data
  read_int := fun d name =>
    match json_member name d with
    | some (.number n) => .ok (some n)
    | _ => .ok none
  read_bool := fun _ _ => .ok none
  read_string := fun d name =>
    match json_member name d with
    | some (.string s) => .ok (some s)
    | _ => .ok none
  get_int_or := fun d name default =>
    match json_member name d with
    | none => .ok default
    | some (.number n) => .ok n
    | some _ => .error "expected number"
  get_int := fun d name =>
    match json_member name d with
    | some (.number n) => .ok n
    | _ => .error "expected number"
  get_array := fun d name =>
    match json_member name d with
    | none => .ok []
    | some (.array elements) => .ok elements
    | some _ => .error "expected array"
  get_object_in := fun d name =>
    match json_member name d with
    | none => .ok []
    | some (.object members) => .ok members
    | some _ => .error "expected object"
  get_member_names := fun d => d.map Prod.fst
  read_tracker := fun _ _ t => (t, none)
  read_next_monster := fun _ => .ok none
  read_next_string := fun v =>
    match v with
    | .string s => .ok (some s)
    | _ => .ok none
  read_player := fun _ _ p => (p, none)
  messages_deserialize := fun _ m => (m, none)
  json_in := fun _ => stream
  stream_get_int := fun v =>
    match v with
    | .number n => .ok n
    | _ => .error "expected number"
  array_elements := fun v =>
    match v with
    | .array elements => (elements, none)
    | _ => ([], some "expected array")
  mission_deserialize := fun _ => .ok ()
  add_existing := fun m _ => m
  read_factions := fun _ f => (f, none)
  skip_value := fun _ => none

/-- A new game: every number is zero and every list is empty. -/
def sample_game : game_state sample_types where
  savegame_loading_version := savegame_version
  calendar_turn := 0
  calendar_start := 0
  initial_season := 0
  auto_travel_mode := false
  safe_mode := 0
  mostseen := 0
  m := ()
  scent := ()
  critter_tracker := ()
  coming_to_stairs := []
  kills := []
  npc_kills := []
  u := ()
  messages := ()
  next_mission_id := 0
  next_npc_id := 0
  missions := ()
  factions := ()
  popups := []
  debug_log := []

/-- A save whose member `kills` is a number instead of an object. -/
def sample_bad_save : List (String × json_value) :=
  [("turn", .number 100), ("mostseen", .number 5), ("kills", .number 3)]

/-- A master.gsav whose member `next_npc_id` is a string instead of a number. -/
def sample_bad_master : json_object_stream json_value :=
  ⟨none, [("next_mission_id", .number 7), ("next_npc_id", .string "x")], none⟩

/-! ## Spells and mana (magic.h)

The header declares the spell template and the accessors of a spell and of a
caster; their bodies are not part of this development and are modelled from
the spec. The `float` increments are rational numbers here. -/

/-- The enumeration `energy_type`. -/
inductive energy_type where
  | hp_energy
  | mana_energy
  | stamina_energy
  | bionic_energy
  | fatigue_energy
  | none_energy
deriving DecidableEq, Repr

/-- The numeric members of `spell_type` and its energy source, as declared in
magic.h; the names, the ids and the bitsets are left out. -/
structure spell_type where
  min_damage : Int
  damage_increment : ℚ
  max_damage : Int
  min_range : Int
  range_increment : ℚ
  max_range : Int
  min_aoe : Int
  aoe_increment : ℚ
  max_aoe : Int
  min_dot : Int
  dot_increment : ℚ
  max_dot : Int
  min_duration : Int
  duration_increment : Int
  max_duration : Int
  min_pierce : Int
  pierce_increment : ℚ
  max_pierce : Int
  base_energy_cost : Int
  energy_increment : ℚ
  final_energy_cost : Int
  difficulty : Int
  max_level : Int
  base_casting_time : Int
  casting_time_increment : ℚ
  final_casting_time : Int
  energy_source : energy_type

/-- Modelled from the spec: the value of a scaling axis at a level. The bodies
of the accessors of `spell` are missing; the spec gives the realized value at
level L as `clamp(min + increment*L, min, max)` when the increment is not
negative, and the symmetric clamp toward `max` when it is negative. `to_int`
converts the scaled number to the `int` the accessors return; the spec does not
fix the rounding. -/
def scaled_value (to_int : ℚ → Int) (min : Int) (increment : ℚ) (max : Int) (level : Int) :
    Int :=
  if 0 ≤ increment then Max.max min (Min.min (to_int (min + increment * level)) max)
  else Min.min min (Max.max (to_int (min + increment * level)) max)

/-- Modelled from the spec: `spell::damage()` at a level. -/
def spell.damage (to_int : ℚ → Int) (type : spell_type) (level : Int) : Int :=
  scaled_value to_int type.min_damage type.damage_increment type.max_damage level

/-- Modelled from the spec: `spell::aoe()` at a level. -/
def spell.aoe (to_int : ℚ → Int) (type : spell_type) (level : Int) : Int :=
  scaled_value to_int type.min_aoe type.aoe_increment type.max_aoe level

/-- Modelled from the spec: `spell::range()` at a level. -/
def spell.range (to_int : ℚ → Int) (type : spell_type) (level : Int) : Int :=
  scaled_value to_int type.min_range type.range_increment type.max_range level

/-- Modelled from the spec: `spell::duration()` at a level. -/
def spell.duration (to_int : ℚ → Int) (type : spell_type) (level : Int) : Int :=
  scaled_value to_int type.min_duration type.duration_increment type.max_duration level

/-- Modelled from the spec: the piercing damage of a spell at a level. -/
def spell.pierce (to_int : ℚ → Int) (type : spell_type) (level : Int) : Int :=
  scaled_value to_int type.min_pierce type.pierce_increment type.max_pierce level

/-- Modelled from the spec: `spell::energy_cost( p )` at a level. The body is
missing; the spec gives the cost as the base cost plus the increment per level,
up to the final bound, which magic.h calls the "max or min energy cost, based
on sign of energy_increment", followed by modifiers that depend on the actor
(`modifier`). -/
def spell.energy_cost (to_int : ℚ → Int) (modifier : Int → Int) (type : spell_type)
    (level : Int) : Int :=
  modifier
    (if 0 ≤ type.energy_increment then
      Min.min (to_int (type.base_energy_cost + type.energy_increment * level))
        type.final_energy_cost
    else
      Max.max (to_int (type.base_energy_cost + type.energy_increment * level))
        type.final_energy_cost)

/-- The bounds of an axis are in the order of its increment: `min ≤ max` for an
increment that is not negative, `max ≤ min` for a negative one. -/
def axis_ordered (min : Int) (increment : ℚ) (max : Int) : Prop :=
  (0 ≤ increment → min ≤ max) ∧ (increment < 0 → max ≤ min)

/-- The mana members of `known_magic`, as declared in magic.h. -/
structure known_magic where
  mana_base : Int
  mana : Int
deriving DecidableEq, Repr

/-- Modelled from the spec: `known_magic::available_mana()`, the current
mana. -/
def known_magic.available_mana (km : known_magic) : Int := km.mana

/-- Modelled from the spec: `known_magic::mod_mana( p, add_mana )`. The body is
missing; the spec clamps the current mana to [0, max_mana] on every mutation.
`max_mana` is `max_mana( p )` for the actor, a capacity and so never
negative. -/
def known_magic.mod_mana (max_mana : Nat) (km : known_magic) (add_mana : Int) : known_magic :=
  { km with mana := Max.max 0 (Min.min (km.mana + add_mana) max_mana) }

/-- A template whose cost falls from 10 by 1 a level down to 2, paid in mana;
its damage bounds are in the wrong order for its increment. -/
def sample_spell_type : spell_type where
  min_damage := 5
  damage_increment := 1
  max_damage := 3
  min_range := 1
  range_increment := 1
  max_range := 10
  min_aoe := 0
  aoe_increment := 0
  max_aoe := 0
  min_dot := 0
  dot_increment := 0
  max_dot := 0
  min_duration := 100
  duration_increment := -10
  max_duration := 50
  min_pierce := 0
  pierce_increment := 0
  max_pierce := 0
  base_energy_cost := 10
  energy_increment := -1
  final_energy_cost := 2
  difficulty := 5
  max_level := 10
  base_casting_time := 100
  casting_time_increment := 0
  final_casting_time := 100
  energy_source := .mana_energy

/-- What the spec asks of the value `f` of an axis as a function of the level:
it moves in the direction of the sign of the increment and stays between the
two bounds. -/
def axis_behaves (f : Int → Int) (min : Int) (increment : ℚ) (max : Int) : Prop :=
  (0 ≤ increment →
    (∀ l1 l2 : Int, l1 ≤ l2 → f l1 ≤ f l2) ∧ ∀ l : Int, min ≤ f l ∧ f l ≤ max) ∧
  (increment < 0 →
    (∀ l1 l2 : Int, l1 ≤ l2 → f l2 ≤ f l1) ∧ ∀ l : Int, max ≤ f l ∧ f l ≤ min)

/-! ## The hash of a monster group (savegame.cpp) -/

/-- The hash functions `mongroup_hash` calls, whose code is elsewhere in the
game: `std::hash<mongroup_id>`, and for each type of field the step
`std::hash_combine( ret, field )`, which gives the new value of `ret` from the
old one and the field. The result type `size_t` is taken as a natural number. -/
structure hash_env where
  hash_mongroup_id : String → Nat
  hash_combine_unsigned : Nat → Nat → Nat
  hash_combine_tripoint : Nat → tripoint → Nat
  hash_combine_int : Nat → Int → Nat
  hash_combine_bool : Nat → Bool → Nat
  hash_combine_string : Nat → String → Nat

/-- The function `mongroup_hash::operator()`. -/
def mongroup_hash {Monster : Type} (env : hash_env) (mg : mongroup Monster) : Nat :=
  let ret := env.hash_mongroup_id mg.type
  let ret := env.hash_combine_unsigned ret mg.radius
  let ret := env.hash_combine_unsigned ret mg.population
  let ret := env.hash_combine_tripoint ret mg.target
  let ret := env.hash_combine_int ret mg.interest
  let ret := env.hash_combine_bool ret mg.dying
  let ret := env.hash_combine_bool ret mg.horde
  let ret := env.hash_combine_string ret mg.horde_behaviour
  let ret := env.hash_combine_bool ret mg.diffuse
  ret

/-- A hash environment to evaluate with: the length of a name, and a combining
step that mixes the seed with a number taken from the field. -/
def sample_hash_env : hash_env where
  hash_mongroup_id := fun id => id.length
  hash_combine_unsigned := fun seed v => (seed * 64 + v + 2654435769) % 18446744073709551616
  hash_combine_tripoint := fun seed p =>
    (seed * 64 + (p.x + p.y + p.z).toNat + 2654435769) % 18446744073709551616
  hash_combine_int := fun seed v => (seed * 64 + v.toNat + 2654435769) % 18446744073709551616
  hash_combine_bool := fun seed b =>
    (seed * 64 + (if b then 1 else 0) + 2654435769) % 18446744073709551616
  hash_combine_string := fun seed s =>
    (seed * 64 + s.length + 2654435769) % 18446744073709551616

/-! ## JSON streams (savegame.cpp)

The streaming writer `JsonOut` and reader `JsonIn` belong to json.h, which is
not among the sources. A JSON text is taken as the list of its tokens: the
writer appends tokens, the reader consumes them from the front. Separators and
whitespace are left out. -/

/-- Modelled from the spec: the tokens of a JSON text, as far as the overmap
writers produce them. The JSON library is missing from the sources. -/
inductive json_token where
  | start_array
  | end_array
  | start_object
  | end_object
  | member (name : String)
  | bool (b : Bool)
  | int (n : Int)
  | string (s : String)
deriving DecidableEq, Repr

/-- Modelled from the spec: the call `jsin.start_array()` of the missing JSON
reader, which consumes an opening bracket and raises an error (`none`) on
anything else. -/
def JsonIn.start_array : List json_token → Option (List json_token)
  | .start_array :: rest => some rest
  | _ => none

/-- Modelled from the spec: the call `jsin.end_array()` of the missing JSON
reader, which consumes a closing bracket and answers true, and answers false
without consuming on anything else. -/
def JsonIn.end_array : List json_token → Bool × List json_token
  | .end_array :: rest => (true, rest)
  | jsin => (false, jsin)

/-- Modelled from the spec: the call `jsin.read( value )` of the missing JSON
reader for a `bool`: a boolean token is consumed and stored; on anything else
the variable keeps its content and nothing is consumed. -/
def JsonIn.read_bool (value : Bool) : List json_token → Bool × List json_token
  | .bool b :: rest => (b, rest)
  | jsin => (value, jsin)

/-- Modelled from the spec: the call `jsin.read( count )` of the missing JSON
reader for an `int`: a number token is consumed and stored; on anything else
the variable keeps its content and nothing is consumed. -/
def JsonIn.read_int (count : Int) : List json_token → Int × List json_token
  | .int n :: rest => (n, rest)
  | jsin => (count, jsin)

/-! ## Compacted boolean arrays (savegame.cpp) -/

/-- The cells `( i, j )` of a `bool array[OMAPX][OMAPY]` in the order of the two
loops `for( j < OMAPY ) for( i < OMAPX )`. The constants OMAPX and OMAPY belong
to a header that is not among the sources and are parameters. -/
def compacted_cells (omapx omapy : Nat) : List (Nat × Nat) :=
  (List.range omapy).flatMap fun j => (List.range omapx).map fun i => (i, j)

/-- The variables of `serialize_array_to_compacted_sequence`: the tokens
written to `json`, `count` and `lastval`. -/
structure compacted_writer where
  json : List json_token
  count : Int
  lastval : Int

/-- The body of the inner loop of `serialize_array_to_compacted_sequence` for
the cell `( i, j )`. -/
def serialize_array_step (array : Nat → Nat → Bool) (st : compacted_writer)
    (cell : Nat × Nat) : compacted_writer :=
  let value : Int := if array cell.1 cell.2 then 1 else 0
  if value ≠ st.lastval then
    let json := if st.count ≠ 0 then st.json ++ [.int st.count, .end_array] else st.json
    ⟨json ++ [.start_array, .bool (decide (value ≠ 0))], 1, value⟩
  else ⟨st.json, st.count + 1, st.lastval⟩

/-- The function `serialize_array_to_compacted_sequence`: the tokens in `json`
after the call, from the tokens before it. -/
def serialize_array_to_compacted_sequence (omapx omapy : Nat) (json : List json_token)
    (array : Nat → Nat → Bool) : List json_token :=
  let st := (compacted_cells omapx omapy).foldl (serialize_array_step array) ⟨json, 0, -1⟩
  st.json ++ [.int st.count, .end_array]

/-- The variables of `unserialize_array_from_compacted_sequence`: the tokens
left in `jsin`, `count`, `value` and the array. -/
structure compacted_reader where
  jsin : List json_token
  count : Int
  value : Bool
  array : Nat → Nat → Bool

/-- The body of the inner loop of `unserialize_array_from_compacted_sequence`
for the cell `( i, j )`; `none` stands for the error `start_array` raises. -/
def unserialize_array_step (st : compacted_reader) (cell : Nat × Nat) :
    Option compacted_reader :=
  let next : Option compacted_reader :=
    if st.count = 0 then
      match JsonIn.start_array st.jsin with
      | none => none
      | some opened =>
        let value := JsonIn.read_bool st.value opened
        let count := JsonIn.read_int st.count value.2
        some ⟨(JsonIn.end_array count.2).2, count.1, value.1, st.array⟩
    else some st
  next.map fun st =>
    ⟨st.jsin, st.count - 1, st.value,
      fun i j => if i = cell.1 ∧ j = cell.2 then st.value else st.array i j⟩

/-- The function `unserialize_array_from_compacted_sequence`: the tokens left
in `jsin` and the array after the call. -/
def unserialize_array_from_compacted_sequence (omapx omapy : Nat) (jsin : List json_token)
    (array : Nat → Nat → Bool) : Option (List json_token × (Nat → Nat → Bool)) :=
  ((compacted_cells omapx omapy).foldlM unserialize_array_step ⟨jsin, 0, false, array⟩).map
    fun st => (st.jsin, st.array)

/-- The runs of equal values that continue a run of `count` cells of value
`last` over the values `values`. -/
def rle_runs {α : Type} [DecidableEq α] (last : α) (count : Nat) : List α → List (α × Nat)
  | [] => [(last, count)]
  | v :: vs => if v = last then rle_runs last (count + 1) vs else (last, count) :: rle_runs v 1 vs

/-- The values a list of runs stands for. -/
def rle_expand {α : Type} (runs : List (α × Nat)) : List α :=
  runs.flatMap fun r => List.replicate r.2 r.1

/-- The tokens of one `[value, count]` run. -/
def run_tokens (r : Bool × Nat) : List json_token :=
  [.start_array, .bool r.1, .int r.2, .end_array]

/-- The tokens that close an open run and write the runs after it. -/
def close_tokens : List (Bool × Nat) → List json_token
  | [] => []
  | r :: rest => [.int r.2, .end_array] ++ rest.flatMap run_tokens

/-- A two by two array with one cell unset. -/
def sample_array (i j : Nat) : Bool := !(i = 1 && j = 1)

/-! ## The scent map (savegame.cpp) -/

/-- A `std::istringstream`: the characters still to be read, and whether an
extraction has failed. -/
structure istringstream where
  buffer : List Char
  fail : Bool

/-- The extraction `buffer >> value` of an `int` into a variable with the
content `value`. On a failed stream, or when only whitespace is left, the
variable keeps its content; without a digit the extraction fails and stores 0;
a value out of the range of `int` is replaced by the nearest bound and the
extraction fails. -/
def istringstream.extract_int (s : istringstream) (value : Int) : Int × istringstream :=
  if s.fail then (value, s)
  else
    match s.buffer.dropWhile is_space with
    | [] => (value, ⟨[], true⟩)
    | c :: rest =>
      let body := if c = '-' ∨ c = '+' then rest else c :: rest
      match body.takeWhile Char.isDigit with
      | [] => (0, ⟨body, true⟩)
      | ds =>
        let v : Int := if c = '-' then -(digits_value ds : Int) else (digits_value ds : Int)
        if v > 2147483647 then (2147483647, ⟨body.dropWhile Char.isDigit, true⟩)
        else if v < -2147483648 then (-2147483648, ⟨body.dropWhile Char.isDigit, true⟩)
        else (v, ⟨body.dropWhile Char.isDigit, false⟩)

/-- The variables of `scent_map::serialize`. -/
structure scent_writer where
  rle_out : List Char
  rle_lastval : Int
  rle_count : Int

/-- The body of the inner loop of `scent_map::serialize` for the cell `val`. -/
def scent_map.serialize_val (st : scent_writer) (val : Int) : scent_writer :=
  if val = st.rle_lastval then ⟨st.rle_out, st.rle_lastval, st.rle_count + 1⟩
  else
    let rle_out :=
      if st.rle_count ≠ 0 then st.rle_out ++ write_int st.rle_count ++ [' '] else st.rle_out
    ⟨rle_out ++ write_int val ++ [' '], val, 1⟩

/-- The method `scent_map::serialize` on the grid `grscent`, an array of arrays
of `int`: the string it returns. -/
def scent_map.serialize (grscent : List (List Int)) : List Char :=
  let st := grscent.foldl (fun st elem => elem.foldl scent_map.serialize_val st) ⟨[], -1, 0⟩
  st.rle_out ++ write_int st.rle_count

/-- The variables of `scent_map::deserialize`. -/
structure scent_reader where
  buffer : istringstream
  stmp : Int
  count : Int

/-- The body of the inner loop of `scent_map::deserialize`: the variables after
it and the value given to the cell. -/
def scent_map.deserialize_val (r : scent_reader) : scent_reader × Int :=
  let next : scent_reader :=
    if r.count = 0 then
      let stmp := r.buffer.extract_int r.stmp
      let count := stmp.2.extract_int r.count
      ⟨count.2, stmp.1, count.1⟩
    else r
  (⟨next.buffer, next.stmp, next.count - 1⟩, next.stmp)

/-- The inner loop of `scent_map::deserialize` over the cells of the array
`elem`: the variables after it and the new content of the array. -/
def scent_map.deserialize_elem : scent_reader → List Int → scent_reader × List Int
  | r, [] => (r, [])
  | r, _ :: elem =>
    let cell := scent_map.deserialize_val r
    let cells := scent_map.deserialize_elem cell.1 elem
    (cells.1, cell.2 :: cells.2)

/-- The outer loop of `scent_map::deserialize` over the arrays of the grid. -/
def scent_map.deserialize_grid : scent_reader → List (List Int) → List (List Int)
  | _, [] => []
  | r, elem :: grscent =>
    let cells := scent_map.deserialize_elem r elem
    cells.2 :: scent_map.deserialize_grid cells.1 grscent

/-- The method `scent_map::deserialize` on the grid `grscent`: the grid after
reading the string `data`. -/
def scent_map.deserialize (grscent : List (List Int)) (data : List Char) : List (List Int) :=
  scent_map.deserialize_grid ⟨⟨data, false⟩, 0, 0⟩ grscent

/-- The text of one run after an earlier one: the value and the count, each
after a blank. -/
def scent_run_text (r : Int × Nat) : List Char :=
  ' ' :: write_int r.1 ++ ' ' :: write_int r.2

/-- The text that closes an open run and writes the runs after it. -/
def scent_close_text : List (Int × Nat) → List Char
  | [] => []
  | r :: rest => write_int r.2 ++ rest.flatMap scent_run_text

/-- A small scent grid. -/
def sample_grscent : List (List Int) := [[0, 0, 7], [7, -3, 0]]

/-- The state of the reader of `scent_map::deserialize` from which the cells
still to be filled receive the values `vs`: nothing is left to fill, or the
stream has not failed and holds the text of the runs that, after `count` more
cells of value `stmp`, spell out `vs`. -/
def scent_reader.encodes (r : scent_reader) (vs : List Int) : Prop :=
  vs = [] ∨
  (r.buffer.fail = false ∧
    ∃ (k : Nat) (runs : List (Int × Nat)),
      r.count = k ∧
      (∀ x ∈ runs, 0 < x.2 ∧ (x.2 : Int) ≤ 2147483647 ∧
        -2147483648 ≤ x.1 ∧ x.1 ≤ 2147483647) ∧
      (' ' :: r.buffer.buffer = runs.flatMap scent_run_text ∨
        r.buffer.buffer = runs.flatMap scent_run_text) ∧
      List.replicate k r.stmp ++ rle_expand runs = vs)

/-! ## Placements of overmap specials (savegame.cpp) -/

/-- Modelled from the spec: the call `jsin.start_object()` of the missing JSON
reader, which consumes an opening brace and raises an error (`none`) on
anything else. -/
def JsonIn.start_object : List json_token → Option (List json_token)
  | .start_object :: rest => some rest
  | _ => none

/-- Modelled from the spec: the call `jsin.end_object()` of the missing JSON
reader, which consumes a closing brace and answers true, and answers false
without consuming on anything else. -/
def JsonIn.end_object : List json_token → Bool × List json_token
  | .end_object :: rest => (true, rest)
  | jsin => (false, jsin)

/-- Modelled from the spec: the call `jsin.get_member_name()` of the missing
JSON reader, which consumes the name of a member and raises an error (`none`)
on anything else. -/
def JsonIn.get_member_name : List json_token → Option (String × List json_token)
  | .member name :: rest => some (name, rest)
  | _ => none

/-- Modelled from the spec: the call `jsin.read( s )` of the missing JSON
reader for an id that is written as a string: a string token is consumed and
stored; on anything else the variable keeps its content and nothing is
consumed. -/
def JsonIn.read_string (s : String) : List json_token → String × List json_token
  | .string t :: rest => (t, rest)
  | jsin => (s, jsin)

/-- Modelled from the spec: the tokens `tripoint::serialize` writes, the array
of the three coordinates. The code that writes a `tripoint` is missing from the
sources. -/
def tripoint.tokens (p : tripoint) : List json_token :=
  [.start_array, .int p.x, .int p.y, .int p.z, .end_array]

/-- Modelled from the spec: the call `jsin.read( p )` of the missing JSON
reader for a `tripoint`, which opens an array, reads three numbers into the
coordinates and closes the array; it stops at the first token that does not
fit, keeping the coordinates read so far. -/
def JsonIn.read_tripoint (p : tripoint) : List json_token → tripoint × List json_token
  | .start_array :: .int x :: .int y :: .int z :: .end_array :: rest => (⟨x, y, z⟩, rest)
  | .start_array :: .int x :: .int y :: .int z :: rest => (⟨x, y, z⟩, rest)
  | .start_array :: .int x :: .int y :: rest => (⟨x, y, p.z⟩, rest)
  | .start_array :: .int x :: rest => (⟨x, p.y, p.z⟩, rest)
  | .start_array :: rest => (p, rest)
  | jsin => (p, jsin)

/-- The entries of `overmap_special_placements`, a map from positions to the
ids of overmap specials, in the order the container yields them. -/
abbrev special_placements := List (tripoint × String)

/-- The assignment `overmap_special_placements[ p ] = s`: the entry with the key
`p` gets the value `s`; without such an entry a new one is made. -/
def special_placements.assign (m : special_placements) (p : tripoint) (s : String) :
    special_placements :=
  match m with
  | [] => [(p, s)]
  | (key, value) :: rest =>
    if key = p then (key, s) :: rest else (key, value) :: special_placements.assign rest p s

/-- The entries of `condensed_overmap_special_placements`, a
`std::map<overmap_special_id, std::vector<tripoint>>`, in iteration order. -/
abbrev condensed_placements := List (String × List tripoint)

namespace condensed_placements

/-- Whether the map has an entry with the key `special`. -/
def has (m : condensed_placements) (special : String) : Bool :=
  m.any fun entry => entry.1 = special

/-- The call `emplace_back( pos )` on the vector of the entry with the key
`special`. -/
def push (m : condensed_placements) (special : String) (pos : tripoint) :
    condensed_placements :=
  match m with
  | [] => []
  | (key, points) :: rest =>
    if key = special then (key, points ++ [pos]) :: rest
    else (key, points) :: push rest special pos

/-- Where `std::map` puts a new entry: before the first entry with a greater
key, under the comparison `less` of the ids. -/
def insert_sorted (less : String → String → Bool) (special : String) (points : List tripoint) :
    condensed_placements → condensed_placements
  | [] => [(special, points)]
  | (key, value) :: rest =>
    if less special key then (special, points) :: (key, value) :: rest
    else (key, value) :: insert_sorted less special points rest

/-- The statement `condensed[ placement.second ].emplace_back( placement.first )`:
the index operator finds the entry of the special or makes one with an empty
vector, and the position is added at the end of the vector. -/
def emplace_back (less : String → String → Bool) (m : condensed_placements)
    (placement : tripoint × String) : condensed_placements :=
  if m.has placement.2 then m.push placement.2 placement.1
  else insert_sorted less placement.2 [placement.1] m

/-- The pairs of a position and its special that the entries hold. -/
def pairs (m : condensed_placements) : List (tripoint × String) :=
  m.flatMap fun entry => entry.2.map fun p => (p, entry.1)

end condensed_placements

/-- The first loop of the last part of `overmap::serialize`: the placements
condensed under one key for each special. The comparison `less` of the ids is a
parameter. -/
def overmap.condense_special_placements (less : String → String → Bool)
    (overmap_special_placements : special_placements) : condensed_placements :=
  overmap_special_placements.foldl (condensed_placements.emplace_back less) []

/-- The tokens written for one position of a special: an object with the
member `p`. -/
def overmap.point_tokens (pos : tripoint) : List json_token :=
  [.start_object, .member "p"] ++ pos.tokens ++ [.end_object]

/-- The tokens written by the body of the second loop for one entry of the
condensed map. -/
def overmap.placement_tokens (placement : String × List tripoint) : List json_token :=
  [.start_object, .member "special", .string placement.1, .member "placements", .start_array,
    .start_object, .member "points", .start_array] ++
  placement.2.flatMap overmap.point_tokens ++
  [.end_array, .end_object, .end_array, .end_object]

/-- The last part of `overmap::serialize`, which condenses the placements and
writes the member `overmap_special_placements`: the tokens in `json` after it,
from the tokens before it. -/
def overmap.serialize_special_placements (less : String → String → Bool)
    (json : List json_token) (overmap_special_placements : special_placements) :
    List json_token :=
  json ++ [.member "overmap_special_placements", .start_array] ++
    (overmap.condense_special_placements less overmap_special_placements).flatMap
      overmap.placement_tokens ++
    [.end_array]

/-- The variables of the reading loops: the tokens left in `jsin` and the map
`overmap_special_placements`. -/
structure placements_reader where
  jsin : List json_token
  overmap_special_placements : special_placements

/-- The innermost loop of the branch `overmap_special_placements` of
`overmap::unserialize`, over the members of the object of one point, with the
special `s` and the variable `p`. A loop of the reader is given as many rounds
(`fuel`) as tokens are left, each round consuming one; `none` stands for an
error the reader raises. -/
def overmap.unserialize_point_members (s : String) :
    Nat → tripoint → placements_reader → Option placements_reader
  | 0, _, _ => none
  | fuel + 1, p, r =>
    match JsonIn.end_object r.jsin with
    | (true, jsin) => some ⟨jsin, r.overmap_special_placements⟩
    | (false, _) =>
      match JsonIn.get_member_name r.jsin with
      | none => none
      | some (name, jsin) =>
        if name = "p" then
          let read := JsonIn.read_tripoint p jsin
          overmap.unserialize_point_members s fuel read.1
            ⟨read.2, r.overmap_special_placements.assign read.1 s⟩
        else overmap.unserialize_point_members s fuel p ⟨jsin, r.overmap_special_placements⟩

/-- The loop over the array `points`: each element is an object, read with a
fresh `tripoint p`. -/
def overmap.unserialize_points (s : String) : Nat → placements_reader → Option placements_reader
  | 0, _ => none
  | fuel + 1, r =>
    match JsonIn.end_array r.jsin with
    | (true, jsin) => some ⟨jsin, r.overmap_special_placements⟩
    | (false, _) =>
      match JsonIn.start_object r.jsin with
      | none => none
      | some jsin =>
        match overmap.unserialize_point_members s (jsin.length + 1) tripoint_zero
          ⟨jsin, r.overmap_special_placements⟩ with
        | none => none
        | some next => overmap.unserialize_points s fuel next

/-- The loop over the members of one object of the array `placements`. -/
def overmap.unserialize_placement_members (s : String) :
    Nat → placements_reader → Option placements_reader
  | 0, _ => none
  | fuel + 1, r =>
    match JsonIn.end_object r.jsin with
    | (true, jsin) => some ⟨jsin, r.overmap_special_placements⟩
    | (false, _) =>
      match JsonIn.get_member_name r.jsin with
      | none => none
      | some (name, jsin) =>
        if name = "points" then
          match JsonIn.start_array jsin with
          | none => none
          | some opened =>
            match overmap.unserialize_points s (opened.length + 1)
              ⟨opened, r.overmap_special_placements⟩ with
            | none => none
            | some next => overmap.unserialize_placement_members s fuel next
        else overmap.unserialize_placement_members s fuel ⟨jsin, r.overmap_special_placements⟩

/-- The loop over the array `placements`. -/
def overmap.unserialize_placements (s : String) :
    Nat → placements_reader → Option placements_reader
  | 0, _ => none
  | fuel + 1, r =>
    match JsonIn.end_array r.jsin with
    | (true, jsin) => some ⟨jsin, r.overmap_special_placements⟩
    | (false, _) =>
      match JsonIn.start_object r.jsin with
      | none => none
      | some jsin =>
        match overmap.unserialize_placement_members s (jsin.length + 1)
          ⟨jsin, r.overmap_special_placements⟩ with
        | none => none
        | some next => overmap.unserialize_placements s fuel next

/-- The loop over the members of the object of one special, with the variable
`s`. -/
def overmap.unserialize_special_members :
    Nat → String → placements_reader → Option placements_reader
  | 0, _, _ => none
  | fuel + 1, s, r =>
    match JsonIn.end_object r.jsin with
    | (true, jsin) => some ⟨jsin, r.overmap_special_placements⟩
    | (false, _) =>
      match JsonIn.get_member_name r.jsin with
      | none => none
      | some (name, jsin) =>
        if name = "special" then
          let read := JsonIn.read_string s jsin
          overmap.unserialize_special_members fuel read.1 ⟨read.2, r.overmap_special_placements⟩
        else if name = "placements" then
          match JsonIn.start_array jsin with
          | none => none
          | some opened =>
            match overmap.unserialize_placements s (opened.length + 1)
              ⟨opened, r.overmap_special_placements⟩ with
            | none => none
            | some next => overmap.unserialize_special_members fuel s next
        else overmap.unserialize_special_members fuel s ⟨jsin, r.overmap_special_placements⟩

/-- The loop over the array `overmap_special_placements`: each element is an
object, read with a fresh id `s`. -/
def overmap.unserialize_specials : Nat → placements_reader → Option placements_reader
  | 0, _ => none
  | fuel + 1, r =>
    match JsonIn.end_array r.jsin with
    | (true, jsin) => some ⟨jsin, r.overmap_special_placements⟩
    | (false, _) =>
      match JsonIn.start_object r.jsin with
      | none => none
      | some jsin =>
        match overmap.unserialize_special_members (jsin.length + 1) ""
          ⟨jsin, r.overmap_special_placements⟩ with
        | none => none
        | some next => overmap.unserialize_specials fuel next

/-- The branch `name == "overmap_special_placements"` of `overmap::unserialize`,
entered after the name of the member has been read: the tokens left and the map
after it. -/
def overmap.unserialize_special_placements (jsin : List json_token)
    (overmap_special_placements : special_placements) :
    Option (List json_token × special_placements) :=
  match JsonIn.start_array jsin with
  | none => none
  | some opened =>
    (overmap.unserialize_specials (opened.length + 1) ⟨opened, overmap_special_placements⟩).map
      fun r => (r.jsin, r.overmap_special_placements)

/-- Four placements of two specials. -/
def sample_placements : special_placements :=
  [(⟨1, 1, 0⟩, "Cabin"), (⟨5, 2, 0⟩, "Farm"), (⟨2, 1, 0⟩, "Cabin"), (⟨5, 3, 0⟩, "Farm")]

/-- A comparison of ids to evaluate with: the shorter text first. -/
def sample_id_less (a b : String) : Bool := decide (a.length < b.length)

/-! ## Reading monster groups back (savegame.cpp)

The archives of io.h and the class `JsonObject` are not among the sources; they
are taken as they work on a list of tokens. -/

/-- Modelled from the spec: the JSON form of a `monster`, whose `serialize` and
`deserialize` are missing from the sources: the tokens written for a monster,
and the reader, which gives the monster and the tokens left, or `none` when the
tokens are not a monster. -/
structure monster_json (Monster : Type) where
  write : Monster → List json_token
  read : List json_token → Option (Monster × List json_token)

/-- Modelled from the spec: the tokens left once `depth` more brackets than
were opened have been closed; `none` when the text ends before. -/
def JsonIn.skip_to_depth : Nat → List json_token → Option (List json_token)
  | 0, jsin => some jsin
  | _ + 1, [] => none
  | depth + 1, .start_array :: rest => JsonIn.skip_to_depth (depth + 2) rest
  | depth + 1, .start_object :: rest => JsonIn.skip_to_depth (depth + 2) rest
  | depth + 1, .end_array :: rest => JsonIn.skip_to_depth depth rest
  | depth + 1, .end_object :: rest => JsonIn.skip_to_depth depth rest
  | depth + 1, _ :: rest => JsonIn.skip_to_depth (depth + 1) rest

/-- Modelled from the spec: the call `jsin.skip_value()` of the missing JSON
reader, which passes over one value, with all that is nested in it. -/
def JsonIn.skip_value : List json_token → Option (List json_token)
  | .start_array :: rest => JsonIn.skip_to_depth 1 rest
  | .start_object :: rest => JsonIn.skip_to_depth 1 rest
  | .bool _ :: rest => some rest
  | .int _ :: rest => some rest
  | .string _ :: rest => some rest
  | _ => none

/-- Modelled from the spec: the member positions a `JsonObject` keeps: for each
name the tokens of the text from the value of the member on. -/
abbrev JsonObject := List (String × List json_token)

/-- The assignment `positions[ name ] = p` of the constructor of `JsonObject`. -/
def JsonObject.set (positions : JsonObject) (name : String) (p : List json_token) :
    JsonObject :=
  match positions with
  | [] => [(name, p)]
  | (key, value) :: rest =>
    if key = name then (key, p) :: rest else (key, value) :: JsonObject.set rest name p

/-- The position kept for the member `name`, `none` without such a member. -/
def JsonObject.position (positions : JsonObject) (name : String) : Option (List json_token) :=
  match positions with
  | [] => none
  | (key, value) :: rest => if key = name then some value else JsonObject.position rest name

/-- Modelled from the spec: the loop of the constructor of `JsonObject`, which
notes the position of each member and skips its value, up to the closing
brace. -/
def JsonIn.members : Nat → List json_token → JsonObject → Option (JsonObject × List json_token)
  | 0, _, _ => none
  | fuel + 1, jsin, positions =>
    match JsonIn.end_object jsin with
    | (true, rest) => some (positions, rest)
    | (false, _) =>
      match JsonIn.get_member_name jsin with
      | none => none
      | some (name, value) =>
        match JsonIn.skip_value value with
        | none => none
        | some rest => JsonIn.members fuel rest (positions.set name value)

/-- Modelled from the spec: the call `jsin.get_object()`: the object read and
the tokens after its closing brace. -/
def JsonIn.get_object (jsin : List json_token) : Option (JsonObject × List json_token) :=
  match JsonIn.start_object jsin with
  | none => none
  | some opened => JsonIn.members (opened.length + 1) opened []

/-- Modelled from the spec: reading a string at a position, `none` when the
text there is not a string. -/
def JsonIn.as_string : List json_token → Option String
  | .string s :: _ => some s
  | _ => none

/-- Modelled from the spec: reading an `int` at a position. -/
def JsonIn.as_int : List json_token → Option Int
  | .int n :: _ => some n
  | _ => none

/-- Modelled from the spec: reading an `unsigned int` at a position: the number
is read as an `int` and converted. -/
def JsonIn.as_unsigned : List json_token → Option Nat
  | .int n :: _ => some (n % 4294967296).toNat
  | _ => none

/-- Modelled from the spec: reading a `bool` at a position. -/
def JsonIn.as_bool : List json_token → Option Bool
  | .bool b :: _ => some b
  | _ => none

/-- Modelled from the spec: the method `tripoint::deserialize`, which opens an
array, reads three numbers and closes the array; `none` stands for the error
raised when the array or a number is missing. -/
def tripoint.deserialize : List json_token → Option (tripoint × List json_token)
  | .start_array :: .int x :: .int y :: .int z :: .end_array :: rest => some (⟨x, y, z⟩, rest)
  | .start_array :: .int x :: .int y :: .int z :: rest => some (⟨x, y, z⟩, rest)
  | _ => none

/-- Modelled from the spec: reading a `tripoint` at a position. -/
def JsonIn.as_tripoint (jsin : List json_token) : Option tripoint :=
  (tripoint.deserialize jsin).map Prod.fst

/-- Modelled from the spec: the loop that reads the elements of an array of
monsters: an element that is not a monster is skipped. -/
def JsonIn.read_monsters {Monster : Type} (codec : monster_json Monster) :
    Nat → List json_token → List Monster → Option (List Monster)
  | 0, _, _ => none
  | fuel + 1, jsin, v =>
    match JsonIn.end_array jsin with
    | (true, _) => some v
    | (false, _) =>
      match codec.read jsin with
      | some (element, rest) => JsonIn.read_monsters codec fuel rest (v ++ [element])
      | none =>
        match JsonIn.skip_value jsin with
        | none => none
        | some rest => JsonIn.read_monsters codec fuel rest v

/-- Modelled from the spec: reading a vector of monsters at a position. -/
def JsonIn.as_monsters {Monster : Type} (codec : monster_json Monster) :
    List json_token → Option (List Monster)
  | .start_array :: rest => JsonIn.read_monsters codec (rest.length + 1) rest []
  | _ => none

/-- Modelled from the spec: what a call `archive.io( name, value, default )` of
the writing archive adds to the object: the member, unless the value is the
default. -/
def archive_member (name : String) (value : List json_token) (is_default : Bool) :
    List (String × List json_token) :=
  if is_default then [] else [(name, value)]

/-- Modelled from the spec: what a call `archive.io( name, value, default )` of
the reading archive stores: the value read at the position of the member, or
the default when the member is absent or does not read. -/
def JsonObject.archive_read {α : Type} (jo : JsonObject) (name : String)
    (read : List json_token → Option α) (default : α) : α :=
  match (jo.position name).bind read with
  | some value => value
  | none => default

/-- The tokens of an array of monsters. -/
def monster_json.write_all {Monster : Type} (codec : monster_json Monster)
    (monsters : List Monster) : List json_token :=
  .start_array :: (monsters.flatMap codec.write ++ [.end_array])

/-- The method `mongroup::io` on the writing archive: the members written, in
the order of the calls. -/
def mongroup.io_members {Monster : Type} (codec : monster_json Monster) (g : mongroup Monster) :
    List (String × List json_token) :=
  archive_member "type" [.string g.type] false ++
  archive_member "pos" g.pos.tokens (decide (g.pos = tripoint_zero)) ++
  archive_member "radius" [.int g.radius] (decide (g.radius = 1)) ++
  archive_member "population" [.int g.population] (decide (g.population = 1)) ++
  archive_member "diffuse" [.bool g.diffuse] (decide (g.diffuse = false)) ++
  archive_member "dying" [.bool g.dying] (decide (g.dying = false)) ++
  archive_member "horde" [.bool g.horde] (decide (g.horde = false)) ++
  archive_member "target" g.target.tokens (decide (g.target = tripoint_zero)) ++
  archive_member "interest" [.int g.interest] (decide (g.interest = 0)) ++
  archive_member "horde_behaviour" [.string g.horde_behaviour] g.horde_behaviour.isEmpty ++
  archive_member "monsters" (codec.write_all g.monsters) g.monsters.isEmpty

/-- The tokens of a member: its name and its value. -/
def member_tokens (m : String × List json_token) : List json_token :=
  .member m.1 :: m.2

/-- The method `mongroup::serialize`: the tokens of the object the writing
archive produces. -/
def mongroup.serialize {Monster : Type} (codec : monster_json Monster) (g : mongroup Monster) :
    List json_token :=
  .start_object :: ((mongroup.io_members codec g).flatMap member_tokens ++ [.end_object])

/-- The method `mongroup::io` on the reading archive over the object `jo`, for
the group `g`: the member `type` has no default and keeps its content when it is
absent. -/
def mongroup.io_read {Monster : Type} (codec : monster_json Monster) (jo : JsonObject)
    (g : mongroup Monster) : mongroup Monster where
  type := jo.archive_read "type" JsonIn.as_string g.type
  pos := jo.archive_read "pos" JsonIn.as_tripoint tripoint_zero
  radius := jo.archive_read "radius" JsonIn.as_unsigned 1
  population := jo.archive_read "population" JsonIn.as_unsigned 1
  diffuse := jo.archive_read "diffuse" JsonIn.as_bool false
  dying := jo.archive_read "dying" JsonIn.as_bool false
  horde := jo.archive_read "horde" JsonIn.as_bool false
  target := jo.archive_read "target" JsonIn.as_tripoint tripoint_zero
  interest := jo.archive_read "interest" JsonIn.as_int 0
  horde_behaviour := jo.archive_read "horde_behaviour" JsonIn.as_string ""
  monsters := jo.archive_read "monsters" (JsonIn.as_monsters codec) []

/-- The method `mongroup::deserialize` on the group `g`: the group after it and
the tokens left, `none` when the text is not an object. -/
def mongroup.deserialize {Monster : Type} (codec : monster_json Monster) (g : mongroup Monster)
    (data : List json_token) : Option (mongroup Monster × List json_token) :=
  match JsonIn.get_object data with
  | none => none
  | some (jo, rest) => some (mongroup.io_read codec jo g, rest)

/-- The tokens written by the body of the second loop of
`overmap::save_monster_groups` for one bin: an array of the saved group and the
list of its positions. -/
def overmap.group_bin_tokens {Monster : Type} (codec : monster_json Monster)
    (saved : mongroup Monster × List tripoint) : List json_token :=
  .start_array :: (mongroup.serialize codec saved.1 ++
    .start_array :: (saved.2.flatMap tripoint.tokens ++ [.end_array, .end_array]))

/-- The method `overmap::save_monster_groups`: the tokens in `jout` after it,
from the tokens before it; `save_monster_groups` gives the saved group and the
positions of each bin. -/
def overmap.save_monster_groups_tokens {Monster : Type} (codec : monster_json Monster)
    (jout : List json_token) (zg : List (tripoint × mongroup Monster)) : List json_token :=
  jout ++ [.member "monster_groups", .start_array] ++
    (save_monster_groups zg).flatMap (overmap.group_bin_tokens codec) ++ [.end_array]

/-- The variables of `overmap::load_monster_groups`: the tokens left in `jsin`,
and the groups handed to `add_mon_group`, whose code is elsewhere, in the order
of the calls. -/
structure monster_groups_loader (Monster : Type) where
  jsin : List json_token
  added : List (mongroup Monster)

/-- The inner loop of `overmap::load_monster_groups` over the array of
positions, for the group `new_group`: each position read is stored in the
group, which is handed to `add_mon_group`. -/
def overmap.load_group_positions {Monster : Type} :
    Nat → mongroup Monster → monster_groups_loader Monster →
      Option (monster_groups_loader Monster)
  | 0, _, _ => none
  | fuel + 1, new_group, r =>
    match JsonIn.end_array r.jsin with
    | (true, jsin) => some ⟨jsin, r.added⟩
    | (false, _) =>
      match tripoint.deserialize r.jsin with
      | none => none
      | some (temp, jsin) =>
        overmap.load_group_positions fuel { new_group with pos := temp }
          ⟨jsin, r.added ++ [{ new_group with pos := temp }]⟩

/-- The outer loop of `overmap::load_monster_groups` over the array of bins;
`new_group` is a `mongroup` as its default constructor, whose code is elsewhere,
makes it. -/
def overmap.load_group_bins {Monster : Type} (codec : monster_json Monster)
    (new_group : mongroup Monster) :
    Nat → monster_groups_loader Monster → Option (monster_groups_loader Monster)
  | 0, _ => none
  | fuel + 1, r =>
    match JsonIn.end_array r.jsin with
    | (true, jsin) => some ⟨jsin, r.added⟩
    | (false, _) =>
      match JsonIn.start_array r.jsin with
      | none => none
      | some opened =>
        match mongroup.deserialize codec new_group opened with
        | none => none
        | some (group, after_group) =>
          match JsonIn.start_array after_group with
          | none => none
          | some positions =>
            match overmap.load_group_positions (positions.length + 1) group
              ⟨positions, r.added⟩ with
            | none => none
            | some next =>
              overmap.load_group_bins codec new_group fuel
                ⟨(JsonIn.end_array next.jsin).2, next.added⟩

/-- The method `overmap::load_monster_groups`: the tokens left and the groups
handed to `add_mon_group`; `none` stands for an error the reader raises. -/
def overmap.load_monster_groups {Monster : Type} (codec : monster_json Monster)
    (new_group : mongroup Monster) (jsin : List json_token) :
    Option (List json_token × List (mongroup Monster)) :=
  match JsonIn.start_array jsin with
  | none => none
  | some opened =>
    (overmap.load_group_bins codec new_group (opened.length + 1) ⟨opened, []⟩).map
      fun r => (r.jsin, r.added)

/-- Monsters that are numbers, written as one number each. -/
def sample_monster_json : monster_json Nat where
  write := fun m => [.int m]
  read := fun jsin =>
    match jsin with
    | .int n :: rest => some (n.toNat, rest)
    | _ => none

/-- A group made by the default constructor. -/
def sample_new_group : mongroup Nat :=
  ⟨"", ⟨0, 0, 0⟩, 1, 1, ⟨0, 0, 0⟩, 0, false, false, [], "", false⟩

/-- Four groups on an overmap: two alike but for their positions, one of
another type, and one with a monster. -/
def sample_zg_monsters : List (tripoint × mongroup Nat) :=
  [(⟨1, 0, 0⟩, sample_group_at ⟨1, 0, 0⟩), (⟨2, 0, 0⟩, sample_ant_group_at ⟨2, 0, 0⟩),
    (⟨1, 2, 0⟩, sample_group_with_monster), (⟨3, 0, 0⟩, sample_group_at ⟨3, 0, 0⟩)]

/-- The positions the constructor of `JsonObject` notes for the members
`fields` written before the tokens `tail`: each value with all the text after
it. -/
def object_positions (tail : List json_token) : List (String × List json_token) → JsonObject
  | [] => []
  | f :: fs => (f.1, f.2 ++ (fs.flatMap member_tokens ++ tail)) :: object_positions tail fs

/-- The groups `overmap::load_monster_groups` hands to `add_mon_group` for a
list of bins: the group of each bin once for each of its positions. -/
def added_groups {Monster : Type} (bins : List (mongroup Monster × List tripoint)) :
    List (mongroup Monster) :=
  bins.flatMap fun bin => bin.2.map fun p => { bin.1 with pos := p }

/-! ## Lemmas on the map of known gates -/

theorem gate_map.find_insert_sorted_self (less : tripoint → tripoint → Bool) (k : tripoint)
    (v : String) (m : gate_map) (h : gate_map.find m k = none) :
    gate_map.find (gate_map.insert_sorted less k v m) k = some v := by
  induction m with
  | nil => simp [gate_map.insert_sorted, gate_map.find]
  | cons e rest ih =>
    obtain ⟨k', v'⟩ := e
    by_cases hk : k' = k
    · simp [gate_map.find, hk] at h
    · simp only [gate_map.find, hk, if_false] at h
      by_cases hl : less k k' = true
      · simp [gate_map.insert_sorted, hl, gate_map.find]
      · simp [gate_map.insert_sorted, hl, gate_map.find, hk, ih h]

theorem gate_map.find_insert_sorted_ne (less : tripoint → tripoint → Bool) (k c : tripoint)
    (v : String) (m : gate_map) (h : c ≠ k) :
    gate_map.find (gate_map.insert_sorted less k v m) c = gate_map.find m c := by
  induction m with
  | nil => simp [gate_map.insert_sorted, gate_map.find, Ne.symm h]
  | cons e rest ih =>
    obtain ⟨k', v'⟩ := e
    by_cases hl : less k k' = true
    · simp [gate_map.insert_sorted, hl, gate_map.find, Ne.symm h]
    · simp [gate_map.insert_sorted, hl, gate_map.find, ih]

theorem gate_map.erase_of_find_none (m : gate_map) (k : tripoint)
    (h : gate_map.find m k = none) : gate_map.erase m k = m := by
  induction m with
  | nil => simp [gate_map.erase]
  | cons e rest ih =>
    obtain ⟨k', v'⟩ := e
    by_cases hk : k' = k
    · simp [gate_map.find, hk] at h
    · simp only [gate_map.find, hk, if_false] at h
      simp [gate_map.erase, hk, ih h]

theorem gate_map.erase_insert_sorted (less : tripoint → tripoint → Bool) (k : tripoint)
    (v : String) (m : gate_map) (h : gate_map.find m k = none) :
    gate_map.erase (gate_map.insert_sorted less k v m) k = m := by
  induction m with
  | nil => simp [gate_map.insert_sorted, gate_map.erase]
  | cons e rest ih =>
    obtain ⟨k', v'⟩ := e
    by_cases hk : k' = k
    · simp [gate_map.find, hk] at h
    · have h0 := h
      simp only [gate_map.find, hk, if_false] at h
      by_cases hl : less k k' = true
      · simp only [gate_map.insert_sorted, hl, if_true]
        rw [gate_map.erase]
        simp only [if_true]
        exact gate_map.erase_of_find_none _ _ h0
      · simp [gate_map.insert_sorted, hl, gate_map.erase, hk, ih h]

theorem gate_map.length_insert_sorted (less : tripoint → tripoint → Bool) (k : tripoint)
    (v : String) (m : gate_map) :
    (gate_map.insert_sorted less k v m).length = m.length + 1 := by
  induction m with
  | nil => simp [gate_map.insert_sorted]
  | cons e rest ih =>
    obtain ⟨k', v'⟩ := e
    by_cases hl : less k k' = true
    · simp [gate_map.insert_sorted, hl]
    · simp [gate_map.insert_sorted, hl, ih]

theorem gate_map.find_erase_self (m : gate_map) (k : tripoint) :
    gate_map.find (gate_map.erase m k) k = none := by
  induction m with
  | nil => simp [gate_map.erase, gate_map.find]
  | cons e rest ih =>
    obtain ⟨k', v'⟩ := e
    by_cases hk : k' = k
    · simp [gate_map.erase, hk, ih]
    · simp [gate_map.erase, hk, ih, gate_map.find]

theorem gate_map.find_erase_ne (m : gate_map) (k c : tripoint) (h : c ≠ k) :
    gate_map.find (gate_map.erase m k) c = gate_map.find m c := by
  induction m with
  | nil => simp [gate_map.erase, gate_map.find]
  | cons e rest ih =>
    obtain ⟨k', v'⟩ := e
    by_cases hk : k' = k
    · have hc : ¬ k = c := fun e => h e.symm
      simp [gate_map.erase, hk, ih, gate_map.find, hc]
    · simp [gate_map.erase, hk, ih, gate_map.find]

theorem gate_map.erase_erase (m : gate_map) (k : tripoint) :
    gate_map.erase (gate_map.erase m k) k = gate_map.erase m k :=
  gate_map.erase_of_find_none _ _ (gate_map.find_erase_self m k)

theorem teleporter_list.serialized_gates_eq (tl : teleporter_list) :
    tl.serialized_gates = tl.known_teleporters.map fun pair =>
      json_value.object [("position", pair.1.to_json), ("name", .string pair.2)] := rfl

/-! ## Activation and deactivation -/

/-- C1: activating a coordinate that is already registered returns false and
leaves the registry exactly as it was, whatever the naming prompt returns: the
stored label is kept and no second entry for the coordinate appears. -/
theorem teleporter_list.activate_teleporter_registered (less : tripoint → tripoint → Bool)
    (prompt : String → string_input_popup) (tl : teleporter_list) (c unused : tripoint)
    (h : tl.knows_translocator c = true) :
    tl.activate_teleporter less prompt c unused = (tl, false) := by
  obtain ⟨m⟩ := tl
  simp only [teleporter_list.knows_translocator, Option.isSome_iff_exists] at h
  obtain ⟨v, hv⟩ := h
  simp [teleporter_list.activate_teleporter, gate_map.emplace, hv]

theorem teleporter_list.activate_teleporter_registered_witness :
    teleporter_list.knows_translocator ⟨[(⟨0, 0, 0⟩, "home")]⟩ ⟨0, 0, 0⟩ = true ∧
    teleporter_list.activate_teleporter tripoint.lex_less (fun _ => ⟨false, "other"⟩)
      ⟨[(⟨0, 0, 0⟩, "home")]⟩ ⟨0, 0, 0⟩ ⟨5, 5, 0⟩ = (⟨[(⟨0, 0, 0⟩, "home")]⟩, false) :=
  ⟨by decide, teleporter_list.activate_teleporter_registered _ _ _ _ _ (by decide)⟩

/-- C2: activating a coordinate that is not registered returns true; afterwards
the coordinate is known and stored under the text the prompt returned (the
empty label when the prompt was canceled), every other coordinate has the label
it had, and removing the new entry gives back the original registry. -/
theorem teleporter_list.activate_teleporter_fresh (less : tripoint → tripoint → Bool)
    (prompt : String → string_input_popup) (tl : teleporter_list) (c unused : tripoint)
    (h : tl.knows_translocator c = false) :
    (tl.activate_teleporter less prompt c unused).2 = true ∧
    (tl.activate_teleporter less prompt c unused).1.knows_translocator c = true ∧
    gate_map.find (tl.activate_teleporter less prompt c unused).1.known_teleporters c =
      some (if (prompt "Name this gate.").canceled then "" else (prompt "Name this gate.").text) ∧
    (∀ c2, c2 ≠ c →
      gate_map.find (tl.activate_teleporter less prompt c unused).1.known_teleporters c2 =
        gate_map.find tl.known_teleporters c2) ∧
    gate_map.erase (tl.activate_teleporter less prompt c unused).1.known_teleporters c =
      tl.known_teleporters ∧
    (tl.activate_teleporter less prompt c unused).1.known_teleporters.length =
      tl.known_teleporters.length + 1 := by
  obtain ⟨m⟩ := tl
  have hv : gate_map.find m c = none := by
    simpa [teleporter_list.knows_translocator] using h
  have hname : (popup_string prompt "" "Name this gate.").1 =
      (if (prompt "Name this gate.").canceled then "" else (prompt "Name this gate.").text) := by
    unfold popup_string
    by_cases hc : (prompt "Name this gate.").canceled = true <;> simp [hc]
  have hr : teleporter_list.activate_teleporter less prompt ⟨m⟩ c unused =
      (⟨gate_map.insert_sorted less c
        (if (prompt "Name this gate.").canceled then "" else (prompt "Name this gate.").text) m⟩,
        true) := by
    simp only [teleporter_list.activate_teleporter, gate_map.emplace, hv, hname]
  rw [hr]
  refine ⟨rfl, ?_, ?_, ?_, ?_, ?_⟩
  · simp [teleporter_list.knows_translocator, gate_map.find_insert_sorted_self less c _ m hv]
  · exact gate_map.find_insert_sorted_self less c _ m hv
  · intro c2 hc2
    exact gate_map.find_insert_sorted_ne less c c2 _ m hc2
  · exact gate_map.erase_insert_sorted less c _ m hv
  · exact gate_map.length_insert_sorted less c _ m

theorem teleporter_list.activate_teleporter_fresh_witness :
    teleporter_list.knows_translocator ⟨[(⟨0, 0, 0⟩, "home")]⟩ ⟨3, 1, 0⟩ = false ∧
    gate_map.find (teleporter_list.activate_teleporter tripoint.lex_less
      (fun _ => ⟨false, "lab"⟩) ⟨[(⟨0, 0, 0⟩, "home")]⟩ ⟨3, 1, 0⟩
      ⟨5, 5, 0⟩).1.known_teleporters ⟨3, 1, 0⟩ = some "lab" :=
  ⟨by decide, (teleporter_list.activate_teleporter_fresh tripoint.lex_less
    (fun _ => ⟨false, "lab"⟩) ⟨[(⟨0, 0, 0⟩, "home")]⟩ ⟨3, 1, 0⟩ ⟨5, 5, 0⟩ (by decide)).2.2.1⟩

/-- C3: after deactivating a coordinate it is no longer known, and for every
other coordinate both the membership test and the stored label are the same as
before. This holds for every coordinate, so in particular for a registered
one. -/
theorem teleporter_list.deactivate_teleporter_forgets (tl : teleporter_list)
    (c unused : tripoint) :
    (tl.deactivate_teleporter c unused).knows_translocator c = false ∧
    ∀ c2, c2 ≠ c →
      (tl.deactivate_teleporter c unused).knows_translocator c2 = tl.knows_translocator c2 ∧
      gate_map.find (tl.deactivate_teleporter c unused).known_teleporters c2 =
        gate_map.find tl.known_teleporters c2 := by
  obtain ⟨m⟩ := tl
  refine ⟨?_, ?_⟩
  · simp [teleporter_list.deactivate_teleporter, teleporter_list.knows_translocator,
      gate_map.find_erase_self]
  · intro c2 hc2
    simp [teleporter_list.deactivate_teleporter, teleporter_list.knows_translocator,
      gate_map.find_erase_ne m c c2 hc2]

/-- C4: deactivating a coordinate that is not registered leaves the registry
unchanged, so `serialize` writes the same value, and the array under
`known_teleporters` has the same entries and the same length (one record per
gate) before and after. -/
theorem teleporter_list.deactivate_teleporter_absent (tl : teleporter_list)
    (c unused : tripoint) (h : tl.knows_translocator c = false) :
    tl.deactivate_teleporter c unused = tl ∧
    (tl.deactivate_teleporter c unused).serialize = tl.serialize ∧
    (tl.deactivate_teleporter c unused).serialized_gates = tl.serialized_gates ∧
    (tl.deactivate_teleporter c unused).serialized_gates.length = tl.known_teleporters.length := by
  obtain ⟨m⟩ := tl
  have hv : gate_map.find m c = none := by
    simpa [teleporter_list.knows_translocator] using h
  have he : teleporter_list.deactivate_teleporter ⟨m⟩ c unused = ⟨m⟩ := by
    simp [teleporter_list.deactivate_teleporter, gate_map.erase_of_find_none m c hv]
  rw [he]
  simp [teleporter_list.serialized_gates_eq]

theorem teleporter_list.deactivate_teleporter_absent_witness :
    teleporter_list.knows_translocator ⟨[(⟨0, 0, 0⟩, "home")]⟩ ⟨3, 1, 0⟩ = false ∧
    teleporter_list.deactivate_teleporter ⟨[(⟨0, 0, 0⟩, "home")]⟩ ⟨3, 1, 0⟩ ⟨5, 5, 0⟩ =
      ⟨[(⟨0, 0, 0⟩, "home")]⟩ :=
  ⟨by decide, (teleporter_list.deactivate_teleporter_absent _ _ _ (by decide)).1⟩

/-! ## The loop of `translocate` -/

theorem teleporter_list.place_avatar_overmap_failed {G : Type} (env : game_env G) (g : G)
    (omt_pt : tripoint) (h : (teleporter_list.place_avatar_overmap env g omt_pt).1 = false) :
    (teleporter_list.place_avatar_overmap env g omt_pt).2 = g := by
  unfold teleporter_list.place_avatar_overmap at h ⊢
  cases hf : find_valid_teleporters_omt env g omt_pt with
  | none => simp
  | some p => simp [hf] at h

theorem teleporter_list.place_avatar_overmap_fails_iff {G : Type} (env : game_env G) (g : G)
    (omt_pt : tripoint) :
    (teleporter_list.place_avatar_overmap env g omt_pt).1 = false ↔
      find_valid_teleporters_omt env g omt_pt = none := by
  unfold teleporter_list.place_avatar_overmap
  cases hf : find_valid_teleporters_omt env g omt_pt <;> simp

theorem teleporter_list.translocate_loop {G : Type} (env : game_env G) (d : tripoint) :
    ∀ (targets : List tripoint) (w : world G) (v : Bool),
      (targets.foldl (teleporter_list.translocate_step env d) (w, v)).1.teleporters.known_teleporters =
        (if teleporter_list.teleport_failures env d w.g targets = []
          then w.teleporters.known_teleporters
          else gate_map.erase w.teleporters.known_teleporters d) ∧
      (targets.foldl (teleporter_list.translocate_step env d) (w, v)).1.messages =
        w.messages ++ (teleporter_list.teleport_failures env d w.g targets).map
          (fun _ => (game_message_type.m_neutral,
            "Failed to teleport.  Teleporter obstructed or destroyed.")) ∧
      (targets.foldl (teleporter_list.translocate_step env d) (w, v)).2 =
        (v || targets.any (fun pt => env.critter_at_avatar w.g pt)) ∧
      ((∀ pt ∈ targets, env.critter_at_avatar w.g pt = false) →
        (targets.foldl (teleporter_list.translocate_step env d) (w, v)).1 = w) := by
  intro targets
  induction targets with
  | nil => intro w v; simp [teleporter_list.teleport_failures]
  | cons pt rest ih =>
    intro w v
    rw [List.foldl_cons]
    by_cases hc : env.critter_at_avatar w.g pt = true
    · by_cases hp : (teleporter_list.place_avatar_overmap env w.g d).1 = true
      · have hstep : teleporter_list.translocate_step env d (w, v) pt =
            ({ w with g := (teleporter_list.place_avatar_overmap env w.g d).2 }, true) := by
          simp [teleporter_list.translocate_step, hc, hp]
        rw [hstep]
        obtain ⟨h1, h2, h3, _⟩ :=
          ih { w with g := (teleporter_list.place_avatar_overmap env w.g d).2 } true
        refine ⟨?_, ?_, ?_, ?_⟩
        · rw [h1]; simp [teleporter_list.teleport_failures, hc, hp]
        · rw [h2]; simp [teleporter_list.teleport_failures, hc, hp]
        · rw [h3]; simp [hc]
        · intro hall
          have := hall pt (List.mem_cons_self _ _)
          simp [hc] at this
      · have hp2 : (teleporter_list.place_avatar_overmap env w.g d).1 = false := by
          simpa using hp
        have hg := teleporter_list.place_avatar_overmap_failed env w.g d hp2
        have hstep : teleporter_list.translocate_step env d (w, v) pt =
            ({ teleporters := w.teleporters.deactivate_teleporter d pt
               g := w.g
               messages := w.messages ++ [(game_message_type.m_neutral,
                 "Failed to teleport.  Teleporter obstructed or destroyed.")] }, true) := by
          simp [teleporter_list.translocate_step, hc, hp2, hg, add_msg]
        rw [hstep]
        obtain ⟨h1, h2, h3, _⟩ := ih
          { teleporters := w.teleporters.deactivate_teleporter d pt
            g := w.g
            messages := w.messages ++ [(game_message_type.m_neutral,
              "Failed to teleport.  Teleporter obstructed or destroyed.")] } true
        refine ⟨?_, ?_, ?_, ?_⟩
        · rw [h1]
          simp [teleporter_list.teleport_failures, hc, hp2, hg,
            teleporter_list.deactivate_teleporter, gate_map.erase_erase]
        · rw [h2]; simp [teleporter_list.teleport_failures, hc, hp2, hg]
        · rw [h3]; simp [hc]
        · intro hall
          have := hall pt (List.mem_cons_self _ _)
          simp [hc] at this
    · have hc2 : env.critter_at_avatar w.g pt = false := by simpa using hc
      have hstep : teleporter_list.translocate_step env d (w, v) pt = (w, v) := by
        simp [teleporter_list.translocate_step, hc2]
      rw [hstep]
      obtain ⟨h1, h2, h3, h4⟩ := ih w v
      refine ⟨?_, ?_, ?_, ?_⟩
      · rw [h1]; simp [teleporter_list.teleport_failures, hc2]
      · rw [h2]; simp [teleporter_list.teleport_failures, hc2]
      · rw [h3]; simp [hc2]
      · intro hall
        exact h4 (fun q hq => hall q (List.mem_cons_of_mem _ hq))

theorem teleporter_list.translocate_chosen {G : Type} (env : game_env G) (ui : ui_env)
    (w : world G) (targets : List tripoint) (d : tripoint)
    (hne : w.teleporters.known_teleporters ≠ [])
    (hd : w.teleporters.choose_teleport_location ui = some d) :
    teleporter_list.translocate env ui w targets =
      (if (targets.foldl (teleporter_list.translocate_step env d) (w, false)).2 = true
        then (targets.foldl (teleporter_list.translocate_step env d) (w, false)).1
        else add_msg .m_neutral "No valid targets to teleport."
          (targets.foldl (teleporter_list.translocate_step env d) (w, false)).1) := by
  have he : w.teleporters.known_teleporters.isEmpty = false := by
    cases hk : w.teleporters.known_teleporters with
    | nil => exact absurd hk hne
    | cons a l => rfl
  unfold teleporter_list.translocate
  rw [he, hd]
  cases hv : (targets.foldl (teleporter_list.translocate_step env d) (w, false)).2 <;> simp [hv]

/-! ## The long-range teleport -/

/-- C5: with an empty registry `translocate` reports "No translocator target
known." and does nothing else, for every set of target cells: the registry and
the game are unchanged (nobody is relocated), and the outcome is the same
whatever the selector would answer (it is not asked). -/
theorem teleporter_list.translocate_no_gate_known {G : Type} (env : game_env G) (ui : ui_env)
    (w : world G) (targets : List tripoint) (h : w.teleporters.known_teleporters = []) :
    teleporter_list.translocate env ui w targets =
      { w with messages := w.messages ++ [(.m_bad, "No translocator target known.")] } ∧
    (teleporter_list.translocate env ui w targets).teleporters = w.teleporters ∧
    (teleporter_list.translocate env ui w targets).g = w.g ∧
    ∀ ui2 : ui_env,
      teleporter_list.translocate env ui2 w targets = teleporter_list.translocate env ui w targets := by
  have key : ∀ u : ui_env, teleporter_list.translocate env u w targets =
      { w with messages := w.messages ++ [(.m_bad, "No translocator target known.")] } := by
    intro u
    simp [teleporter_list.translocate, h, add_msg]
  refine ⟨key ui, ?_, ?_, ?_⟩
  · rw [key ui]
  · rw [key ui]
  · intro ui2
    rw [key ui, key ui2]

/-- C6: with a non-empty registry, when the destination selection returns none
`translocate` reports "Teleport canceled." and does nothing else, for every set
of target cells: the registry and the game are unchanged. -/
theorem teleporter_list.translocate_canceled {G : Type} (env : game_env G) (ui : ui_env)
    (w : world G) (targets : List tripoint)
    (hne : w.teleporters.known_teleporters ≠ [])
    (hnone : w.teleporters.choose_teleport_location ui = none) :
    teleporter_list.translocate env ui w targets =
      { w with messages := w.messages ++ [(.m_neutral, "Teleport canceled.")] } ∧
    (teleporter_list.translocate env ui w targets).teleporters = w.teleporters ∧
    (teleporter_list.translocate env ui w targets).g = w.g := by
  have he : w.teleporters.known_teleporters.isEmpty = false := by
    cases hk : w.teleporters.known_teleporters with
    | nil => exact absurd hk hne
    | cons a l => rfl
  have key : teleporter_list.translocate env ui w targets =
      { w with messages := w.messages ++ [(.m_neutral, "Teleport canceled.")] } := by
    unfold teleporter_list.translocate
    rw [he, hnone]
    simp [add_msg]
  refine ⟨key, ?_, ?_⟩ <;> rw [key]

/-- C7: with a non-empty registry and a chosen destination `d`, the registry
after `translocate` is the original with `d` removed when finding a landing
cell failed for at least one avatar found in the targets, and the original
otherwise; every other coordinate keeps its entry; and the log gains one
"Failed to teleport" message per failure (followed by the "No valid targets"
message exactly when no target cell held an avatar). -/
theorem teleporter_list.translocate_failures_deactivate {G : Type} (env : game_env G)
    (ui : ui_env) (w : world G) (targets : List tripoint) (d : tripoint)
    (hne : w.teleporters.known_teleporters ≠ [])
    (hd : w.teleporters.choose_teleport_location ui = some d) :
    (teleporter_list.translocate env ui w targets).teleporters.known_teleporters =
      (if teleporter_list.teleport_failures env d w.g targets = []
        then w.teleporters.known_teleporters
        else gate_map.erase w.teleporters.known_teleporters d) ∧
    (∀ c, c ≠ d →
      gate_map.find (teleporter_list.translocate env ui w targets).teleporters.known_teleporters c =
        gate_map.find w.teleporters.known_teleporters c) ∧
    (teleporter_list.translocate env ui w targets).messages =
      w.messages ++
        (teleporter_list.teleport_failures env d w.g targets).map
          (fun _ => (game_message_type.m_neutral,
            "Failed to teleport.  Teleporter obstructed or destroyed.")) ++
        (if targets.any (fun pt => env.critter_at_avatar w.g pt) then []
          else [(game_message_type.m_neutral, "No valid targets to teleport.")]) := by
  obtain ⟨h1, h2, h3, _⟩ := teleporter_list.translocate_loop env d targets w false
  have hreg : (teleporter_list.translocate env ui w targets).teleporters.known_teleporters =
      (if teleporter_list.teleport_failures env d w.g targets = []
        then w.teleporters.known_teleporters
        else gate_map.erase w.teleporters.known_teleporters d) := by
    rw [teleporter_list.translocate_chosen env ui w targets d hne hd]
    split <;> simp [add_msg, h1]
  refine ⟨hreg, ?_, ?_⟩
  · intro c hc
    rw [hreg]
    split
    · rfl
    · exact gate_map.find_erase_ne _ d c hc
  · rw [teleporter_list.translocate_chosen env ui w targets d hne hd]
    rw [h3]
    cases hany : targets.any (fun pt => env.critter_at_avatar w.g pt) <;>
      simp [add_msg, h2]

/-- C8: once a destination has been chosen, `translocate` reports "No valid
targets to teleport." if and only if no cell of the targets holds an avatar;
in that case nothing else changes: the registry and the game are as before
(nobody is relocated). -/
theorem teleporter_list.translocate_no_valid_targets {G : Type} (env : game_env G)
    (ui : ui_env) (w : world G) (targets : List tripoint) (d : tripoint)
    (hne : w.teleporters.known_teleporters ≠ [])
    (hd : w.teleporters.choose_teleport_location ui = some d) :
    ((game_message_type.m_neutral, "No valid targets to teleport.") ∈
        (teleporter_list.translocate env ui w targets).messages.drop w.messages.length ↔
      ∀ pt ∈ targets, env.critter_at_avatar w.g pt = false) ∧
    ((∀ pt ∈ targets, env.critter_at_avatar w.g pt = false) →
      teleporter_list.translocate env ui w targets =
        { w with messages := w.messages ++ [(.m_neutral, "No valid targets to teleport.")] }) := by
  obtain ⟨_, h2, h3, h4⟩ := teleporter_list.translocate_loop env d targets w false
  have hchosen := teleporter_list.translocate_chosen env ui w targets d hne hd
  have hany : targets.any (fun pt => env.critter_at_avatar w.g pt) = false ↔
      ∀ pt ∈ targets, env.critter_at_avatar w.g pt = false := by
    simp [List.any_eq_false]
  refine ⟨?_, ?_⟩
  · rw [hchosen, h3]
    cases hv : targets.any (fun pt => env.critter_at_avatar w.g pt)
    · have hall := hany.mp hv
      simp [add_msg, h2, hall]
      intro pt hpt
      exact hall pt hpt
    · have hne2 : ¬ ∀ pt ∈ targets, env.critter_at_avatar w.g pt = false := by
        intro hall
        rw [hany.mpr hall] at hv
        exact Bool.noConfusion hv
      simp only [Bool.false_or, if_true, h2, List.drop_left, hne2, iff_false]
      simp
  · intro hall
    rw [hchosen, h3, hany.mpr hall, h4 hall]
    simp [add_msg]

/-! ## The destination menu -/

theorem menu_loop_foldl (m : gate_map) :
    ∀ st : menu_loop,
      (m.foldl menu_loop.step st).entries = st.entries ++ menu_entries st.index m ∧
      (m.foldl menu_loop.step st).index_pairs = st.index_pairs ++ menu_pairs st.index m := by
  induction m with
  | nil => intro st; simp [menu_entries, menu_pairs]
  | cons gate rest ih =>
    intro st
    rw [List.foldl_cons]
    obtain ⟨h1, h2⟩ := ih (st.step gate)
    rw [h1, h2]
    simp [menu_loop.step, menu_entries, menu_pairs]

theorem teleporter_list.menu_loop_result_entries (tl : teleporter_list) :
    tl.menu_loop_result.entries = menu_entries 0 tl.known_teleporters := by
  simpa [teleporter_list.menu_loop_result] using
    (menu_loop_foldl tl.known_teleporters ⟨0, 0, [], []⟩).1

theorem teleporter_list.menu_loop_result_index_pairs (tl : teleporter_list) :
    tl.menu_loop_result.index_pairs = menu_pairs 0 tl.known_teleporters := by
  simpa [teleporter_list.menu_loop_result] using
    (menu_loop_foldl tl.known_teleporters ⟨0, 0, [], []⟩).2

theorem index_pairs_at_append_skip (front back : List (Int × tripoint)) (i : Int)
    (h : ∀ q ∈ front, q.1 ≠ i) :
    index_pairs_at (front ++ back) i = index_pairs_at back i := by
  induction front with
  | nil => rfl
  | cons q rest ih =>
    obtain ⟨j, p⟩ := q
    have hj : j ≠ i := h (j, p) (List.mem_cons_self _ _)
    have hrest : ∀ q ∈ rest, q.1 ≠ i := fun q hq => h q (List.mem_cons_of_mem _ hq)
    simp [index_pairs_at, hj, ih hrest]

theorem menu_offers_gates (m : gate_map) :
    ∀ (i : Int) (front : List (Int × tripoint)), (∀ q ∈ front, q.1 < i) →
      (menu_entries i m).map (fun e => (index_pairs_at (front ++ menu_pairs i m) e.retval, e.txt))
        = m := by
  induction m with
  | nil => intro i front _; rfl
  | cons gate rest ih =>
    intro i front hfront
    have hskip : ∀ q ∈ front, q.1 ≠ i := fun q hq => ne_of_lt (hfront q hq)
    have hnext : ∀ q ∈ front ++ [(i, gate.1)], q.1 < i + 1 := by
      intro q hq
      rcases List.mem_append.mp hq with hq | hq
      · have := hfront q hq
        omega
      · simp at hq
        rw [hq]
        simp
    have ih2 := ih (i + 1) (front ++ [(i, gate.1)]) hnext
    simp only [List.append_assoc, List.singleton_append] at ih2
    simp only [menu_entries, menu_pairs, List.map_cons, ih2]
    rw [index_pairs_at_append_skip front _ i hskip]
    simp [index_pairs_at]

theorem teleporter_list.offered_eq (tl : teleporter_list) :
    tl.offered = tl.known_teleporters := by
  unfold teleporter_list.offered
  rw [teleporter_list.menu_loop_result_entries, teleporter_list.menu_loop_result_index_pairs]
  simpa using menu_offers_gates tl.known_teleporters 0 [] (by simp)

/-- C9: `choose_teleport_location` returns none when the registry is empty
(the selector, offered no entry, can only answer none) and whenever the
selector answers a negative number (the selection was canceled). -/
theorem teleporter_list.choose_teleport_location_none (ui : ui_env) (tl : teleporter_list) :
    (tl.known_teleporters = [] → ui.picks_offered_or_none →
      tl.choose_teleport_location ui = none) ∧
    (ui.query (tl.teleport_selector ui) < 0 → tl.choose_teleport_location ui = none) := by
  have hneg : ui.query (tl.teleport_selector ui) < 0 → tl.choose_teleport_location ui = none := by
    intro h
    have h2 : ¬ ui.query (tl.teleport_selector ui) ≥ 0 := not_le.mpr h
    simp [teleporter_list.choose_teleport_location, h2]
  refine ⟨?_, hneg⟩
  intro hempty hpick
  apply hneg
  rcases hpick (tl.teleport_selector ui) with h | ⟨e, he, _⟩
  · exact h
  · have : (tl.teleport_selector ui).entries = [] := by
      simp [teleporter_list.teleport_selector, teleporter_list.menu_loop_result_entries, hempty,
        menu_entries]
    rw [this] at he
    cases he

theorem first_entry_ui_picks_offered_or_none : first_entry_ui.picks_offered_or_none := by
  intro m
  cases h : m.entries with
  | nil => left; simp [first_entry_ui, h]
  | cons e rest => right; exact ⟨e, by simp, by simp [first_entry_ui, h]⟩

theorem teleporter_list.choose_teleport_location_none_witness :
    teleporter_list.choose_teleport_location first_entry_ui ⟨[]⟩ = none ∧
    (sample_ui (-1)).query (teleporter_list.teleport_selector (sample_ui (-1))
      ⟨[(⟨1, 0, 0⟩, "lab")]⟩) < 0 ∧
    teleporter_list.choose_teleport_location (sample_ui (-1)) ⟨[(⟨1, 0, 0⟩, "lab")]⟩ = none :=
  ⟨(teleporter_list.choose_teleport_location_none first_entry_ui ⟨[]⟩).1 rfl
      first_entry_ui_picks_offered_or_none,
    by decide,
    (teleporter_list.choose_teleport_location_none (sample_ui (-1))
      ⟨[(⟨1, 0, 0⟩, "lab")]⟩).2 (by decide)⟩

/-! ## The order in which gates are offered -/

theorem tripoint.lex_less_strict_total_order : strict_total_order tripoint.lex_less := by
  constructor
  · intro a
    simp [tripoint.lex_less]
  · rintro ⟨ax, ay, az⟩ ⟨bx, b2, bz⟩ ⟨cx, cy, cz⟩ h1 h2
    simp only [tripoint.lex_less] at h1 h2 ⊢
    split_ifs at h1 h2 ⊢ <;> simp at h1 h2 ⊢ <;> omega
  · rintro ⟨ax, ay, az⟩ ⟨bx, b2, bz⟩ hne
    have hcomp : ax ≠ bx ∨ ay ≠ b2 ∨ az ≠ bz := by
      by_contra hcon
      push_neg at hcon
      obtain ⟨hx, hy, hz⟩ := hcon
      exact hne (by rw [hx, hy, hz])
    simp only [tripoint.lex_less]
    split_ifs <;> simp <;> omega

theorem gate_map.find_eq_none_iff (m : gate_map) (k : tripoint) :
    gate_map.find m k = none ↔ ∀ e ∈ m, e.1 ≠ k := by
  induction m with
  | nil => simp [gate_map.find]
  | cons e rest ih =>
    obtain ⟨k2, v2⟩ := e
    by_cases hk : k2 = k
    · simp [gate_map.find, hk]
    · simp [gate_map.find, hk, ih]

theorem gate_map.insert_sorted_perm (less : tripoint → tripoint → Bool) (k : tripoint)
    (v : String) (m : gate_map) :
    (gate_map.insert_sorted less k v m).Perm ((k, v) :: m) := by
  induction m with
  | nil => simp [gate_map.insert_sorted]
  | cons e rest ih =>
    obtain ⟨k2, v2⟩ := e
    by_cases hl : less k k2 = true
    · simp [gate_map.insert_sorted, hl]
    · simp only [gate_map.insert_sorted, hl]
      exact (List.Perm.cons _ ih).trans (List.Perm.swap _ _ _)

theorem gate_map.insert_sorted_well_formed (less : tripoint → tripoint → Bool)
    (hless : strict_total_order less) (k : tripoint) (v : String) (m : gate_map)
    (hm : gate_map.well_formed less m) (hk : gate_map.find m k = none) :
    gate_map.well_formed less (gate_map.insert_sorted less k v m) := by
  induction m with
  | nil => simp [gate_map.insert_sorted, gate_map.well_formed]
  | cons e rest ih =>
    obtain ⟨k2, v2⟩ := e
    unfold gate_map.well_formed at hm ih ⊢
    rw [List.pairwise_cons] at hm
    obtain ⟨hhead, htail⟩ := hm
    have hne : k2 ≠ k := by
      intro heq
      simp [gate_map.find, heq] at hk
    have hk2 : gate_map.find rest k = none := by
      simpa [gate_map.find, hne] using hk
    by_cases hl : less k k2 = true
    · simp only [gate_map.insert_sorted, hl, if_true]
      rw [List.pairwise_cons]
      refine ⟨?_, List.pairwise_cons.mpr ⟨hhead, htail⟩⟩
      intro e he
      rcases List.mem_cons.mp he with he | he
      · rw [he]; exact hl
      · exact hless.trans _ _ _ hl (hhead e he)
    · have hl2 : less k k2 = false := by simpa using hl
      simp only [gate_map.insert_sorted, hl2, Bool.false_eq_true, if_false]
      rw [List.pairwise_cons]
      refine ⟨?_, ih htail hk2⟩
      intro e he
      have he2 := (gate_map.insert_sorted_perm less k v rest).mem_iff.mp he
      rcases List.mem_cons.mp he2 with he3 | he3
      · rw [he3]
        rcases hless.total k2 k hne with h | h
        · exact h
        · exact absurd h hl
      · exact hhead e he3

theorem teleporter_list.activate_all_from (less : tripoint → tripoint → Bool)
    (hless : strict_total_order less) (acts : List (tripoint × String)) :
    ∀ m : gate_map, (acts.map Prod.fst).Nodup → (∀ a ∈ acts, gate_map.find m a.1 = none) →
      gate_map.well_formed less m →
      (acts.foldl (fun tl a =>
        (teleporter_list.activate_teleporter less (fun _ => ⟨false, a.2⟩) tl a.1 a.1).1)
        ⟨m⟩).known_teleporters.Perm (m ++ acts) ∧
      gate_map.well_formed less (acts.foldl (fun tl a =>
        (teleporter_list.activate_teleporter less (fun _ => ⟨false, a.2⟩) tl a.1 a.1).1)
        ⟨m⟩).known_teleporters := by
  induction acts with
  | nil => intro m _ _ hm; simpa using hm
  | cons a rest ih =>
    intro m hnodup hfresh hm
    obtain ⟨k, v⟩ := a
    have hk : gate_map.find m k = none := hfresh (k, v) (List.mem_cons_self _ _)
    have hstep : (teleporter_list.activate_teleporter less (fun _ => ⟨false, v⟩) ⟨m⟩ k k).1 =
        ⟨gate_map.insert_sorted less k v m⟩ := by
      simp [teleporter_list.activate_teleporter, gate_map.emplace, hk, popup_string]
    rw [List.foldl_cons]
    simp only [hstep]
    simp only [List.map_cons, List.nodup_cons] at hnodup
    obtain ⟨hknew, hnodup2⟩ := hnodup
    have hfresh2 : ∀ a ∈ rest, gate_map.find (gate_map.insert_sorted less k v m) a.1 = none := by
      intro a ha
      have hak : a.1 ≠ k := by
        intro heq
        exact hknew (heq ▸ List.mem_map_of_mem Prod.fst ha)
      rw [gate_map.find_insert_sorted_ne less k a.1 v m hak]
      exact hfresh a (List.mem_cons_of_mem _ ha)
    obtain ⟨hperm, hwf⟩ := ih (gate_map.insert_sorted less k v m) hnodup2 hfresh2
      (gate_map.insert_sorted_well_formed less hless k v m hm hk)
    refine ⟨?_, hwf⟩
    refine hperm.trans ?_
    refine ((gate_map.insert_sorted_perm less k v m).append_right rest).trans ?_
    exact (List.perm_middle).symm

theorem gate_map.well_formed_unique (less : tripoint → tripoint → Bool)
    (hless : strict_total_order less) (m1 m2 : gate_map) (hperm : m1.Perm m2)
    (h1 : gate_map.well_formed less m1) (h2 : gate_map.well_formed less m2) : m1 = m2 := by
  have hanti : IsAntisymm (tripoint × String) (fun a b => less a.1 b.1 = true) :=
    ⟨fun a b hab hba => by
      have := hless.trans _ _ _ hab hba
      rw [hless.irrefl] at this
      exact Bool.noConfusion this⟩
  exact List.eq_of_perm_of_sorted hperm h1 h2

/-- C10 (counterexample): the menu does not follow the order of activation.
With the lexicographic key comparison, activating (1, 0, 0) and then (0, 0, 0)
offers (0, 0, 0), the second gate activated, at index 0. And whatever strict
total order compares the keys, the two orders of activating these two
coordinates cannot both be offered in their order of activation. -/
theorem teleporter_list.offered_not_in_activation_order :
    teleporter_list.offered (teleporter_list.activate_all tripoint.lex_less
      [(⟨1, 0, 0⟩, "B"), (⟨0, 0, 0⟩, "A")]) = [(⟨0, 0, 0⟩, "A"), (⟨1, 0, 0⟩, "B")] ∧
    ¬ ∃ less : tripoint → tripoint → Bool, strict_total_order less ∧
      teleporter_list.offered (teleporter_list.activate_all less
        [(⟨0, 0, 0⟩, "A"), (⟨1, 0, 0⟩, "B")]) = [(⟨0, 0, 0⟩, "A"), (⟨1, 0, 0⟩, "B")] ∧
      teleporter_list.offered (teleporter_list.activate_all less
        [(⟨1, 0, 0⟩, "B"), (⟨0, 0, 0⟩, "A")]) = [(⟨1, 0, 0⟩, "B"), (⟨0, 0, 0⟩, "A")] := by
  refine ⟨by decide, ?_⟩
  rintro ⟨less, hless, h1, h2⟩
  rw [teleporter_list.offered_eq] at h1 h2
  have hne : (⟨0, 0, 0⟩ : tripoint) ≠ ⟨1, 0, 0⟩ := by decide
  have hne2 : (⟨1, 0, 0⟩ : tripoint) ≠ ⟨0, 0, 0⟩ := by decide
  rcases hless.total ⟨0, 0, 0⟩ ⟨1, 0, 0⟩ hne with h | h
  · simp [teleporter_list.activate_all, teleporter_list.activate_teleporter, gate_map.emplace,
      gate_map.find, gate_map.insert_sorted, popup_string, hne, hne2, h] at h2
  · simp [teleporter_list.activate_all, teleporter_list.activate_teleporter, gate_map.emplace,
      gate_map.find, gate_map.insert_sorted, popup_string, hne, hne2, h] at h1

/-- C10 (amended): for every strict total order on coordinates used as the key
comparison and every sequence of activations of distinct coordinates, the menu
offers exactly the activated gates, each once, in ascending order of their
coordinates; the entry offered at index i is the i-th gate activated when the
coordinates were activated in ascending order. -/
theorem teleporter_list.offered_in_coordinate_order (less : tripoint → tripoint → Bool)
    (hless : strict_total_order less) (acts : List (tripoint × String))
    (hdistinct : (acts.map Prod.fst).Nodup) :
    (teleporter_list.offered (teleporter_list.activate_all less acts)).Perm acts ∧
    gate_map.well_formed less (teleporter_list.offered (teleporter_list.activate_all less acts)) ∧
    (gate_map.well_formed less acts →
      teleporter_list.offered (teleporter_list.activate_all less acts) = acts) := by
  rw [teleporter_list.offered_eq]
  obtain ⟨hperm, hwf⟩ := teleporter_list.activate_all_from less hless acts [] hdistinct
    (fun a _ => rfl) List.Pairwise.nil
  have hperm2 : (teleporter_list.activate_all less acts).known_teleporters.Perm acts := by
    simpa [teleporter_list.activate_all] using hperm
  have hwf2 : gate_map.well_formed less (teleporter_list.activate_all less acts).known_teleporters :=
    hwf
  exact ⟨hperm2, hwf2, fun hacts => gate_map.well_formed_unique less hless _ _ hperm2 hwf2 hacts⟩

theorem teleporter_list.offered_in_coordinate_order_witness :
    (([(⟨1, 0, 0⟩, "B"), (⟨0, 0, 0⟩, "A")] : List (tripoint × String)).map Prod.fst).Nodup ∧
    gate_map.well_formed tripoint.lex_less (teleporter_list.offered
      (teleporter_list.activate_all tripoint.lex_less [(⟨1, 0, 0⟩, "B"), (⟨0, 0, 0⟩, "A")])) :=
  ⟨by decide, (teleporter_list.offered_in_coordinate_order tripoint.lex_less
    tripoint.lex_less_strict_total_order [(⟨1, 0, 0⟩, "B"), (⟨0, 0, 0⟩, "A")] (by decide)).2.1⟩

/-! ## The long-range teleport on the small game -/

theorem teleporter_list.translocate_no_gate_known_witness :
    (⟨⟨[]⟩, ⟨0, 0, 0⟩, []⟩ : world tripoint).teleporters.known_teleporters = [] ∧
    (teleporter_list.translocate sample_env (sample_ui 0) ⟨⟨[]⟩, ⟨0, 0, 0⟩, []⟩
      [⟨0, 0, 0⟩]).messages = [(.m_bad, "No translocator target known.")] :=
  ⟨rfl, congrArg world.messages (teleporter_list.translocate_no_gate_known sample_env
    (sample_ui 0) ⟨⟨[]⟩, ⟨0, 0, 0⟩, []⟩ [⟨0, 0, 0⟩] rfl).1⟩

theorem teleporter_list.translocate_canceled_witness :
    (⟨⟨[(⟨1, 0, 0⟩, "lab")]⟩, ⟨0, 0, 0⟩, []⟩ : world tripoint).teleporters.known_teleporters ≠ [] ∧
    teleporter_list.choose_teleport_location (sample_ui (-1)) ⟨[(⟨1, 0, 0⟩, "lab")]⟩ = none ∧
    (teleporter_list.translocate sample_env (sample_ui (-1))
      ⟨⟨[(⟨1, 0, 0⟩, "lab")]⟩, ⟨0, 0, 0⟩, []⟩ [⟨0, 0, 0⟩]).messages =
        [(.m_neutral, "Teleport canceled.")] :=
  ⟨by decide, by decide, congrArg world.messages (teleporter_list.translocate_canceled sample_env
    (sample_ui (-1)) ⟨⟨[(⟨1, 0, 0⟩, "lab")]⟩, ⟨0, 0, 0⟩, []⟩ [⟨0, 0, 0⟩] (by decide)
    (by decide)).1⟩

set_option maxRecDepth 20000 in
theorem teleporter_list.translocate_failures_deactivate_witness :
    (⟨⟨[(⟨1, 0, 0⟩, "lab"), (⟨4, 4, 0⟩, "ruin")]⟩, ⟨0, 0, 0⟩, []⟩ :
      world tripoint).teleporters.known_teleporters ≠ [] ∧
    teleporter_list.choose_teleport_location (sample_ui 1)
      ⟨[(⟨1, 0, 0⟩, "lab"), (⟨4, 4, 0⟩, "ruin")]⟩ = some ⟨4, 4, 0⟩ ∧
    (teleporter_list.translocate sample_env (sample_ui 1)
      ⟨⟨[(⟨1, 0, 0⟩, "lab"), (⟨4, 4, 0⟩, "ruin")]⟩, ⟨0, 0, 0⟩, []⟩
      [⟨0, 0, 0⟩]).teleporters.known_teleporters = [(⟨1, 0, 0⟩, "lab")] :=
  ⟨by decide, by decide, (teleporter_list.translocate_failures_deactivate sample_env
    (sample_ui 1) ⟨⟨[(⟨1, 0, 0⟩, "lab"), (⟨4, 4, 0⟩, "ruin")]⟩, ⟨0, 0, 0⟩, []⟩ [⟨0, 0, 0⟩]
    ⟨4, 4, 0⟩ (by decide) (by decide)).1.trans (by decide)⟩

theorem teleporter_list.translocate_no_valid_targets_witness :
    (⟨⟨[(⟨1, 0, 0⟩, "lab"), (⟨4, 4, 0⟩, "ruin")]⟩, ⟨0, 0, 0⟩, []⟩ :
      world tripoint).teleporters.known_teleporters ≠ [] ∧
    teleporter_list.choose_teleport_location (sample_ui 0)
      ⟨[(⟨1, 0, 0⟩, "lab"), (⟨4, 4, 0⟩, "ruin")]⟩ = some ⟨1, 0, 0⟩ ∧
    (∀ pt ∈ [(⟨5, 5, 0⟩ : tripoint)], sample_env.critter_at_avatar ⟨0, 0, 0⟩ pt = false) ∧
    (teleporter_list.translocate sample_env (sample_ui 0)
      ⟨⟨[(⟨1, 0, 0⟩, "lab"), (⟨4, 4, 0⟩, "ruin")]⟩, ⟨0, 0, 0⟩, []⟩ [⟨5, 5, 0⟩]).messages =
        [(.m_neutral, "No valid targets to teleport.")] :=
  ⟨by decide, by decide, by decide, congrArg world.messages
    ((teleporter_list.translocate_no_valid_targets sample_env (sample_ui 0)
      ⟨⟨[(⟨1, 0, 0⟩, "lab"), (⟨4, 4, 0⟩, "ruin")]⟩, ⟨0, 0, 0⟩, []⟩ [⟨5, 5, 0⟩] ⟨1, 0, 0⟩
      (by decide) (by decide)).2 (by decide))⟩

/-! ## The selected destination -/

theorem menu_entries_getElem (m : gate_map) :
    ∀ (i : Int) (k : Nat) (gate : tripoint × String), m[k]? = some gate →
      (menu_entries i m)[k]? = some ⟨i + k, true, 0, gate.2⟩ := by
  induction m with
  | nil => intro i k gate h; simp at h
  | cons g rest ih =>
    intro i k gate h
    cases k with
    | zero =>
      simp at h
      simp [menu_entries, h]
    | succ k =>
      simp only [List.getElem?_cons_succ] at h
      have := ih (i + 1) k gate h
      simp only [menu_entries, List.getElem?_cons_succ, this]
      simp
      omega

theorem gate_map.find_isSome_of_mem (m : gate_map) (gate : tripoint × String)
    (h : gate ∈ m) : (gate_map.find m gate.1).isSome = true := by
  cases hf : gate_map.find m gate.1 with
  | some v => rfl
  | none => exact absurd rfl ((gate_map.find_eq_none_iff m gate.1).mp hf gate h)

/-- C11: for a registry with N gates and a selector result i with 0 <= i < N,
the entry the menu offers at index i carries the label of the i-th gate of the
registry, `choose_teleport_location` returns the coordinate of that very gate,
and that coordinate is known to the registry. -/
theorem teleporter_list.choose_teleport_location_selected (ui : ui_env) (tl : teleporter_list)
    (h0 : 0 ≤ ui.query (tl.teleport_selector ui))
    (hN : ui.query (tl.teleport_selector ui) < tl.known_teleporters.length) :
    ∃ gate : tripoint × String,
      tl.known_teleporters[(ui.query (tl.teleport_selector ui)).toNat]? = some gate ∧
      (tl.teleport_selector ui).entries[(ui.query (tl.teleport_selector ui)).toNat]? =
        some ⟨ui.query (tl.teleport_selector ui), true, 0, gate.2⟩ ∧
      tl.choose_teleport_location ui = some gate.1 ∧
      tl.knows_translocator gate.1 = true := by
  generalize hr : ui.query (tl.teleport_selector ui) = r at h0 hN
  have hlt : r.toNat < tl.known_teleporters.length := by omega
  have hcast : ((r.toNat : Nat) : Int) = r := Int.toNat_of_nonneg h0
  refine ⟨tl.known_teleporters[r.toNat], List.getElem?_eq_getElem hlt, ?_, ?_, ?_⟩
  · have he := menu_entries_getElem tl.known_teleporters 0 r.toNat _
      (List.getElem?_eq_getElem hlt)
    have hent : (tl.teleport_selector ui).entries = menu_entries 0 tl.known_teleporters := by
      simp [teleporter_list.teleport_selector, teleporter_list.menu_loop_result_entries]
    rw [hent, he]
    simp [hcast]
  · have hoff := teleporter_list.offered_eq tl
    unfold teleporter_list.offered at hoff
    have hk := congrArg (fun l => l[r.toNat]?) hoff
    simp only [List.getElem?_map] at hk
    rw [teleporter_list.menu_loop_result_entries,
      menu_entries_getElem tl.known_teleporters 0 r.toNat _ (List.getElem?_eq_getElem hlt),
      List.getElem?_eq_getElem hlt] at hk
    simp only [Option.map_some', Option.some.injEq, zero_add, hcast] at hk
    have hpos : r ≥ 0 := h0
    simp only [teleporter_list.choose_teleport_location, hr, hpos, if_true]
    rw [← hk]
  · exact gate_map.find_isSome_of_mem _ _ (List.getElem_mem _)

theorem teleporter_list.choose_teleport_location_selected_witness :
    (0 : Int) ≤ (sample_ui 1).query (teleporter_list.teleport_selector (sample_ui 1)
      ⟨[(⟨1, 0, 0⟩, "lab"), (⟨4, 4, 0⟩, "ruin")]⟩) ∧
    teleporter_list.choose_teleport_location (sample_ui 1)
      ⟨[(⟨1, 0, 0⟩, "lab"), (⟨4, 4, 0⟩, "ruin")]⟩ = some ⟨4, 4, 0⟩ ∧
    ∃ gate : tripoint × String,
      teleporter_list.choose_teleport_location (sample_ui 1)
        ⟨[(⟨1, 0, 0⟩, "lab"), (⟨4, 4, 0⟩, "ruin")]⟩ = some gate.1 ∧
      teleporter_list.knows_translocator ⟨[(⟨1, 0, 0⟩, "lab"), (⟨4, 4, 0⟩, "ruin")]⟩ gate.1 =
        true :=
  ⟨by decide, by decide,
    (teleporter_list.choose_teleport_location_selected (sample_ui 1)
      ⟨[(⟨1, 0, 0⟩, "lab"), (⟨4, 4, 0⟩, "ruin")]⟩ (by decide) (by decide)).elim
      fun gate h => ⟨gate, h.2.2.1, h.2.2.2⟩⟩

/-! ## Round trip of the registry -/

theorem tripoint.of_json_to_json (p : tripoint) : tripoint.of_json p.to_json = some p := rfl

theorem teleporter_list.deserialize_entry_record (less : tripoint → tripoint → Bool)
    (m : gate_map) (pair : tripoint × String) :
    teleporter_list.deserialize_entry less (some m)
      (.object [("position", pair.1.to_json), ("name", .string pair.2)]) =
      some (gate_map.emplace less m pair.1 pair.2).1 := by
  have h1 : json_member "position" [("position", pair.1.to_json), ("name", .string pair.2)] =
      some pair.1.to_json := by
    simp [json_member]
  have h2 : json_member "name" [("position", pair.1.to_json), ("name", .string pair.2)] =
      some (.string pair.2) := by
    have hne : ¬ ("position" = "name") := by decide
    simp [json_member, hne]
  simp only [teleporter_list.deserialize_entry, h1, h2]
  rfl

theorem teleporter_list.deserialize_entries (less : tripoint → tripoint → Bool)
    (l : gate_map) :
    ∀ m : gate_map,
      (l.map fun pair => json_value.object
          [("position", pair.1.to_json), ("name", .string pair.2)]).foldl
        (teleporter_list.deserialize_entry less) (some m) =
      some (l.foldl (fun acc pair => (gate_map.emplace less acc pair.1 pair.2).1) m) := by
  induction l with
  | nil => intro m; rfl
  | cons pair rest ih =>
    intro m
    simp only [List.map_cons, List.foldl_cons,
      teleporter_list.deserialize_entry_record less m pair]
    exact ih _

theorem teleporter_list.deserialize_serialize_eq (less : tripoint → tripoint → Bool)
    (start tl : teleporter_list) :
    teleporter_list.deserialize less start tl.serialize =
      some ⟨tl.known_teleporters.foldl
        (fun acc pair => (gate_map.emplace less acc pair.1 pair.2).1) start.known_teleporters⟩ := by
  simp only [teleporter_list.serialize, teleporter_list.deserialize, json_member, if_true,
    teleporter_list.deserialize_entries, Option.map_some']

theorem gate_map.find_emplace (less : tripoint → tripoint → Bool) (m : gate_map)
    (k c : tripoint) (v : String) :
    gate_map.find (gate_map.emplace less m k v).1 c =
      (match gate_map.find m c with
        | some w => some w
        | none => if k = c then some v else none) := by
  unfold gate_map.emplace
  cases hk : gate_map.find m k with
  | some w =>
    by_cases hkc : k = c
    · subst hkc; simp [hk]
    · cases hc : gate_map.find m c <;> simp [hkc]
  | none =>
    by_cases hkc : k = c
    · subst hkc
      simp [hk, gate_map.find_insert_sorted_self less k v m hk]
    · have hck : c ≠ k := fun e => hkc e.symm
      simp only [gate_map.find_insert_sorted_ne less k c v m hck]
      cases hc : gate_map.find m c <;> simp [hkc]

theorem gate_map.find_foldl_emplace (less : tripoint → tripoint → Bool) (l : gate_map)
    (c : tripoint) :
    ∀ m : gate_map,
      gate_map.find (l.foldl (fun acc pair => (gate_map.emplace less acc pair.1 pair.2).1) m) c =
        (match gate_map.find m c with
          | some w => some w
          | none => gate_map.find l c) := by
  induction l with
  | nil =>
    intro m
    simp only [List.foldl_nil]
    cases gate_map.find m c <;> rfl
  | cons pair rest ih =>
    intro m
    obtain ⟨k, v⟩ := pair
    rw [List.foldl_cons, ih, gate_map.find_emplace]
    cases hc : gate_map.find m c with
    | some w => rfl
    | none =>
      by_cases hkc : k = c
      · simp [hkc, gate_map.find]
      · simp [hkc, gate_map.find]

theorem gate_map.insert_sorted_last (less : tripoint → tripoint → Bool)
    (hless : strict_total_order less) (k : tripoint) (v : String) (m : gate_map)
    (h : ∀ e ∈ m, less e.1 k = true) :
    gate_map.insert_sorted less k v m = m ++ [(k, v)] := by
  induction m with
  | nil => rfl
  | cons e rest ih =>
    obtain ⟨k2, v2⟩ := e
    have h1 : less k2 k = true := h (k2, v2) (List.mem_cons_self _ _)
    have h2 : less k k2 = false := by
      cases hl : less k k2 with
      | false => rfl
      | true =>
        have := hless.trans _ _ _ hl h1
        rw [hless.irrefl] at this
        exact Bool.noConfusion this
    simp [gate_map.insert_sorted, h2, ih (fun e he => h e (List.mem_cons_of_mem _ he))]

theorem gate_map.foldl_emplace_well_formed (less : tripoint → tripoint → Bool)
    (hless : strict_total_order less) (l : gate_map) :
    ∀ m : gate_map, gate_map.well_formed less (m ++ l) →
      l.foldl (fun acc pair => (gate_map.emplace less acc pair.1 pair.2).1) m = m ++ l := by
  induction l with
  | nil => intro m _; simp
  | cons pair rest ih =>
    intro m hwf
    obtain ⟨k, v⟩ := pair
    have hbefore : ∀ e ∈ m, less e.1 k = true := by
      intro e he
      unfold gate_map.well_formed at hwf
      rw [List.pairwise_append] at hwf
      exact hwf.2.2 e he (k, v) (List.mem_cons_self _ _)
    have hnone : gate_map.find m k = none := by
      rw [gate_map.find_eq_none_iff]
      intro e he heq
      have := hbefore e he
      rw [heq, hless.irrefl] at this
      exact Bool.noConfusion this
    have hstep : (gate_map.emplace less m k v).1 = m ++ [(k, v)] := by
      simp [gate_map.emplace, hnone, gate_map.insert_sorted_last less hless k v m hbefore]
    rw [List.foldl_cons]
    simp only [hstep]
    have hwf2 : gate_map.well_formed less ((m ++ [(k, v)]) ++ rest) := by
      simpa using hwf
    simpa using ih (m ++ [(k, v)]) hwf2

/-- C12: `serialize` writes one `position`/`name` record per gate under
`known_teleporters`, and `deserialize` of that output into an empty registry
succeeds and yields a registry with the same coordinates and the same label
for each; when the registry is a map (keys ascending in a strict total order)
the registry read back is the very registry written. -/
theorem teleporter_list.serialize_deserialize_round_trip (less : tripoint → tripoint → Bool)
    (tl : teleporter_list) :
    tl.serialized_gates = (tl.known_teleporters.map fun pair =>
      json_value.object [("position", pair.1.to_json), ("name", .string pair.2)]) ∧
    ∃ back : teleporter_list,
      teleporter_list.deserialize less ⟨[]⟩ tl.serialize = some back ∧
      (∀ c, gate_map.find back.known_teleporters c = gate_map.find tl.known_teleporters c) ∧
      (∀ c, back.knows_translocator c = tl.knows_translocator c) ∧
      (strict_total_order less → gate_map.well_formed less tl.known_teleporters →
        back = tl) := by
  refine ⟨teleporter_list.serialized_gates_eq tl, _,
    teleporter_list.deserialize_serialize_eq less ⟨[]⟩ tl, ?_, ?_, ?_⟩
  · intro c
    rw [gate_map.find_foldl_emplace]
    rfl
  · intro c
    simp only [teleporter_list.knows_translocator]
    rw [gate_map.find_foldl_emplace]
    rfl
  · intro hless hwf
    have := gate_map.foldl_emplace_well_formed less hless tl.known_teleporters [] (by simpa using hwf)
    simp only [this, List.nil_append]

theorem teleporter_list.serialize_deserialize_round_trip_witness :
    gate_map.well_formed tripoint.lex_less [(⟨1, 0, 0⟩, "lab"), (⟨4, 4, 0⟩, "ruin")] ∧
    teleporter_list.deserialize tripoint.lex_less ⟨[]⟩
      (teleporter_list.serialize ⟨[(⟨1, 0, 0⟩, "lab"), (⟨4, 4, 0⟩, "ruin")]⟩) =
      some ⟨[(⟨1, 0, 0⟩, "lab"), (⟨4, 4, 0⟩, "ruin")]⟩ :=
  ⟨by unfold gate_map.well_formed; decide,
    (teleporter_list.serialize_deserialize_round_trip tripoint.lex_less
      ⟨[(⟨1, 0, 0⟩, "lab"), (⟨4, 4, 0⟩, "ruin")]⟩).2.elim fun back h =>
        h.1.trans (congrArg some (h.2.2.2 tripoint.lex_less_strict_total_order
          (by unfold gate_map.well_formed; decide)))⟩

/-! ## Version headers -/

theorem extract_int_no_digit (input : List Char)
    (h : (match after_sign input with
      | [] => false
      | c :: _ => c.isDigit) = false) :
    extract_int input = 0 := by
  unfold extract_int
  generalize after_sign input = body at h ⊢
  cases body with
  | nil => simp
  | cons c rest =>
    have hc : c.isDigit = false := h
    simp [List.takeWhile, hc]

theorem read_version_line_no_number (vline : List Char) (h : has_version_number vline = false) :
    (read_version_line vline).savedver = -1 ∨ (read_version_line vline).savedver = 0 := by
  unfold has_version_number at h
  unfold read_version_line
  split
  · left; rfl
  · rename_i tmphash rest h1
    simp only [h1] at h
    split
    · left; rfl
    · rename_i tmpver rest2 h2
      simp only [h2] at h
      by_cases hleft : rest2.dropWhile is_space = []
      · left
        simp [hleft]
      · right
        simp only [hleft, if_false]
        exact extract_int_no_digit rest2 h

theorem overmap.unserialize_loader_serialize_file (json : List Char) :
    overmap.unserialize_loader (overmap.serialize_file json) = .json json := rfl

theorem overmap.unserialize_view_loader_serialize_view_file (json : List Char) :
    overmap.unserialize_view_loader (overmap.serialize_view_file json) = .json json := rfl

set_option maxHeartbeats 4000000 in
/-- C14: a file written by `overmap::serialize` or `overmap::serialize_view`
starts with the version header 26 or 25, both greater than the last legacy
version 24, so reading it back goes to the JSON reader with the text that
follows the header and never to the legacy loader; a header whose version is at
most 24, or that has no number to read, is routed to the legacy loader. -/
theorem overmap.serialized_file_not_legacy :
    (∀ json, overmap.unserialize_loader (overmap.serialize_file json) = .json json) ∧
    (∀ json, overmap.unserialize_view_loader (overmap.serialize_view_file json) = .json json) ∧
    overmap_legacy_save_version < first_overmap_view_json_version ∧
    overmap_legacy_save_version < first_overmap_json_version ∧
    (∀ fin, fin.head? = some '#' → (read_version_line (getline fin).1).savedver ≤ 24 →
      overmap.unserialize_loader fin = .legacy (getline fin).2 ∧
      overmap.unserialize_view_loader fin = .legacy (getline fin).2) ∧
    (∀ fin, fin.head? = some '#' → has_version_number (getline fin).1 = false →
      overmap.unserialize_loader fin = .legacy (getline fin).2 ∧
      overmap.unserialize_view_loader fin = .legacy (getline fin).2) ∧
    (∀ n : Int, 0 ≤ n → n ≤ 24 → ∀ json,
      overmap.unserialize_loader (version_header n ++ json) = .legacy json ∧
      overmap.unserialize_view_loader (version_header n ++ json) = .legacy json) := by
  have hle : ∀ fin, fin.head? = some '#' → (read_version_line (getline fin).1).savedver ≤ 24 →
      overmap.unserialize_loader fin = .legacy (getline fin).2 ∧
      overmap.unserialize_view_loader fin = .legacy (getline fin).2 := by
    intro fin hhash hver
    simp [overmap.unserialize_loader, overmap.unserialize_view_loader, hhash,
      overmap_legacy_save_version, hver]
  refine ⟨overmap.unserialize_loader_serialize_file,
    overmap.unserialize_view_loader_serialize_view_file, by decide, by decide, hle, ?_, ?_⟩
  · intro fin hhash hnum
    apply hle fin hhash
    rcases read_version_line_no_number _ hnum with h | h <;> rw [h] <;> decide
  · intro n h0 hn json
    interval_cases n <;> exact ⟨rfl, rfl⟩

theorem overmap.serialized_file_not_legacy_witness :
    ("# version 24\n{}".toList).head? = some '#' ∧
    (read_version_line (getline "# version 24\n{}".toList).1).savedver ≤ 24 ∧
    overmap.unserialize_loader "# version 24\n{}".toList = .legacy "{}".toList ∧
    has_version_number (getline "# overmap\n{}".toList).1 = false ∧
    overmap.unserialize_view_loader "# overmap\n{}".toList = .legacy "{}".toList ∧
    overmap.unserialize_loader "# version 26\n{}".toList = .json "{}".toList :=
  ⟨by decide, by decide,
    (overmap.serialized_file_not_legacy.2.2.2.2.1 "# version 24\n{}".toList (by decide)
      (by decide)).1,
    by decide,
    (overmap.serialized_file_not_legacy.2.2.2.2.2.1 "# overmap\n{}".toList (by decide)
      (by decide)).2,
    overmap.serialized_file_not_legacy.1 "{}".toList⟩

/-! ## Monster groups -/

theorem mongroup_bin_eq_iff {Monster : Type} (a b : mongroup Monster) :
    mongroup_bin_eq a b = true ↔
      a.monsters = [] ∧ b.monsters = [] ∧ a.type = b.type ∧ a.radius = b.radius ∧
      a.population = b.population ∧ a.target = b.target ∧ a.interest = b.interest ∧
      a.dying = b.dying ∧ a.horde = b.horde ∧ a.horde_behaviour = b.horde_behaviour ∧
      a.diffuse = b.diffuse := by
  simp only [mongroup_bin_eq, Bool.and_eq_true, decide_eq_true_eq, List.isEmpty_iff]
  tauto

/-- C18: `mongroup_bin_eq` holds exactly when both groups have no monsters and
agree on type, radius, population, target, interest, dying, horde,
horde_behaviour and diffuse; it is false whenever one of them has monsters,
also for a group compared with itself; and it does not depend on the
positions. -/
theorem mongroup_bin_eq_spec {Monster : Type} (a b : mongroup Monster) :
    (mongroup_bin_eq a b = true ↔
      a.monsters = [] ∧ b.monsters = [] ∧ a.type = b.type ∧ a.radius = b.radius ∧
      a.population = b.population ∧ a.target = b.target ∧ a.interest = b.interest ∧
      a.dying = b.dying ∧ a.horde = b.horde ∧ a.horde_behaviour = b.horde_behaviour ∧
      a.diffuse = b.diffuse) ∧
    (a.monsters ≠ [] ∨ b.monsters ≠ [] → mongroup_bin_eq a b = false) ∧
    (a.monsters ≠ [] → mongroup_bin_eq a a = false) ∧
    (∀ p q : tripoint,
      mongroup_bin_eq { a with pos := p } { b with pos := q } = mongroup_bin_eq a b) := by
  have hiff := mongroup_bin_eq_iff a b
  have hfalse : ∀ x y : mongroup Monster, x.monsters ≠ [] ∨ y.monsters ≠ [] →
      mongroup_bin_eq x y = false := by
    intro x y h
    cases hx : x.monsters with
    | nil =>
      cases hy : y.monsters with
      | nil => rcases h with h | h <;> contradiction
      | cons m ms => simp [mongroup_bin_eq, hy]
    | cons m ms => simp [mongroup_bin_eq, hx]
  exact ⟨hiff, hfalse a b, fun h => hfalse a a (Or.inl h), fun p q => rfl⟩

theorem mongroup_bin_eq_spec_witness :
    sample_group_with_monster.monsters ≠ [] ∧
    mongroup_bin_eq sample_group_with_monster sample_group_with_monster = false :=
  ⟨by decide,
    (mongroup_bin_eq_spec sample_group_with_monster sample_group_with_monster).2.2.1
      (by decide)⟩

theorem mongroup_bin_eq_symm {Monster : Type} (a b : mongroup Monster) :
    mongroup_bin_eq a b = mongroup_bin_eq b a := by
  rw [Bool.eq_iff_iff, mongroup_bin_eq_iff a b, mongroup_bin_eq_iff b a]
  constructor <;> rintro ⟨h1, h2, h3, h4, h5, h6, h7, h8, h9, h10, h11⟩ <;>
    exact ⟨h2, h1, h3.symm, h4.symm, h5.symm, h6.symm, h7.symm, h8.symm, h9.symm, h10.symm,
      h11.symm⟩

theorem mongroup_bin_eq_congr {Monster : Type} (a b c : mongroup Monster)
    (h : mongroup_bin_eq a b = true) : mongroup_bin_eq a c = mongroup_bin_eq b c := by
  rw [mongroup_bin_eq_iff a b] at h
  obtain ⟨h1, h2, h3, h4, h5, h6, h7, h8, h9, h10, h11⟩ := h
  simp only [mongroup_bin_eq, h1, h2, h3, h4, h5, h6, h7, h8, h9, h10, h11]

theorem mongroup_bin_eq_zero_pos {Monster : Type} (a b : mongroup Monster)
    (h : mongroup_bin_eq a b = true) :
    ({ b with pos := tripoint_zero } : mongroup Monster) = { a with pos := tripoint_zero } := by
  rw [mongroup_bin_eq_iff a b] at h
  obtain ⟨h1, h2, h3, h4, h5, h6, h7, h8, h9, h10, h11⟩ := h
  cases a
  cases b
  simp only [mongroup.mk.injEq] at *
  simp_all

theorem bin_group_filter {Monster : Type} (g : mongroup Monster) (p : tripoint)
    (h : mongroup Monster) (bins : mongroup_bins Monster)
    (hbins : (bins.filter fun b => mongroup_bin_eq g b.1).length ≤ 1) :
    (bin_group bins (p, h)).filter (fun b => mongroup_bin_eq g b.1) =
      if mongroup_bin_eq g h then
        (match bins.filter fun b => mongroup_bin_eq g b.1 with
          | [] => [(h, [p])]
          | (k, ps) :: _ => [(k, ps ++ [p])])
      else bins.filter fun b => mongroup_bin_eq g b.1 := by
  induction bins with
  | nil =>
    by_cases hg : mongroup_bin_eq g h = true
    · simp [bin_group, hg]
    · simp [bin_group, hg]
  | cons kb rest ih =>
    obtain ⟨k, ps⟩ := kb
    by_cases hk : mongroup_bin_eq k h = true
    · have hgk : mongroup_bin_eq g k = mongroup_bin_eq g h := by
        rw [mongroup_bin_eq_symm g k, mongroup_bin_eq_symm g h]
        exact mongroup_bin_eq_congr k h g hk
      by_cases hg : mongroup_bin_eq g h = true
      · have hgk2 : mongroup_bin_eq g k = true := by rw [hgk]; exact hg
        have hrest : rest.filter (fun b => mongroup_bin_eq g b.1) = [] := by
          simp only [List.filter_cons, hgk2, if_true, List.length_cons] at hbins
          exact List.eq_nil_of_length_eq_zero (by omega)
        simp [bin_group, hk, hg, hgk2, List.filter_cons, hrest]
      · have hgk2 : ¬ mongroup_bin_eq g k = true := by rw [hgk]; exact hg
        simp [bin_group, hk, hg, hgk2, List.filter_cons]
    · have hrestlen : (rest.filter fun b => mongroup_bin_eq g b.1).length ≤ 1 := by
        by_cases hgk : mongroup_bin_eq g k = true
        · simp only [List.filter_cons, hgk, if_true, List.length_cons] at hbins
          omega
        · simpa [List.filter_cons, hgk] using hbins
      have ih2 := ih hrestlen
      by_cases hg : mongroup_bin_eq g h = true
      · have hgk : ¬ mongroup_bin_eq g k = true := by
          intro hgk
          apply hk
          rw [← mongroup_bin_eq_congr g k h hgk]
          exact hg
        simp only [hg, if_true] at ih2
        simp [bin_group, hk, hg, hgk, List.filter_cons, ih2]
      · simp only [hg] at ih2
        by_cases hgk : mongroup_bin_eq g k = true
        · simp [bin_group, hk, hg, hgk, List.filter_cons, ih2]
        · simp [bin_group, hk, hg, hgk, List.filter_cons, ih2]

theorem bin_groups_filter {Monster : Type} (g : mongroup Monster)
    (zg : List (tripoint × mongroup Monster)) :
    ∀ bins : mongroup_bins Monster,
      (bins.filter fun b => mongroup_bin_eq g b.1).length ≤ 1 →
      (zg.foldl bin_group bins).filter (fun b => mongroup_bin_eq g b.1) =
        (match bins.filter (fun b => mongroup_bin_eq g b.1),
            zg.filter (fun e => mongroup_bin_eq g e.2) with
          | [], [] => []
          | [], e :: es => [(e.2, e.1 :: es.map Prod.fst)]
          | (k, ps) :: _, es => [(k, ps ++ es.map Prod.fst)]) := by
  induction zg with
  | nil =>
    intro bins hbins
    simp only [List.foldl_nil, List.filter_nil, List.map_nil, List.append_nil]
    generalize bins.filter (fun b => mongroup_bin_eq g b.1) = fb at hbins ⊢
    rcases fb with _ | ⟨⟨k, ps⟩, tl⟩
    · rfl
    · have : tl = [] := List.eq_nil_of_length_eq_zero (by simpa using hbins)
      subst this
      simp
  | cons e rest ih =>
    intro bins hbins
    obtain ⟨p, h⟩ := e
    rw [List.foldl_cons]
    have hstep := bin_group_filter g p h bins hbins
    have hlen : ((bin_group bins (p, h)).filter fun b => mongroup_bin_eq g b.1).length ≤ 1 := by
      rw [hstep]
      split
      · split <;> simp
      · exact hbins
    rw [ih _ hlen, hstep]
    by_cases hg : mongroup_bin_eq g h = true
    · simp only [hg, if_true, List.filter_cons]
      generalize bins.filter (fun b => mongroup_bin_eq g b.1) = fb
      rcases fb with _ | ⟨⟨k, ps⟩, tl⟩
      · simp
      · simp
    · simp only [hg, List.filter_cons]
      simp

/-- C19: `save_monster_groups` bins the groups by their fields other than
position and monsters. When some groups of `zg` have no monsters and agree with
`g` on every field other than the position, they are written as one single
record, the group with position (0, 0, 0), followed by the list of exactly
their positions; and every written record has position (0, 0, 0). -/
theorem save_monster_groups_bins {Monster : Type} (zg : List (tripoint × mongroup Monster))
    (g : mongroup Monster)
    (hsome : zg.filter (fun e => mongroup_bin_eq g e.2) ≠ []) :
    (save_monster_groups zg).filter (fun r => mongroup_bin_eq g r.1) =
      [({ g with pos := tripoint_zero },
        (zg.filter fun e => mongroup_bin_eq g e.2).map Prod.fst)] ∧
    ((save_monster_groups zg).filter (fun r => mongroup_bin_eq g r.1)).length = 1 ∧
    (∀ r ∈ (save_monster_groups zg).filter (fun r => mongroup_bin_eq g r.1),
      r.2.length = (zg.filter fun e => mongroup_bin_eq g e.2).length) ∧
    (∀ r ∈ save_monster_groups zg, r.1.pos = tripoint_zero) := by
  have hkey : (save_monster_groups zg).filter (fun r => mongroup_bin_eq g r.1) =
      [({ g with pos := tripoint_zero },
        (zg.filter fun e => mongroup_bin_eq g e.2).map Prod.fst)] := by
    have hfold := bin_groups_filter g zg [] (by simp)
    unfold save_monster_groups
    rw [List.filter_map]
    have hfun : ((fun r : mongroup Monster × List tripoint => mongroup_bin_eq g r.1) ∘
        fun group_bin : mongroup Monster × List tripoint =>
          (({ group_bin.1 with pos := tripoint_zero } : mongroup Monster), group_bin.2)) =
        fun b => mongroup_bin_eq g b.1 := by
      funext b
      rfl
    rw [hfun, hfold]
    rcases hz : zg.filter (fun e => mongroup_bin_eq g e.2) with _ | ⟨e, es⟩
    · exact absurd hz hsome
    · have he : mongroup_bin_eq g e.2 = true := by
        have hmem : e ∈ zg.filter (fun e => mongroup_bin_eq g e.2) := by
          rw [hz]; exact List.mem_cons_self _ _
        exact (List.mem_filter.mp hmem).2
      have hz0 := mongroup_bin_eq_zero_pos g e.2 he
      rw [hz]
      simp only [List.filter_nil, List.map_cons, List.map_nil]
      rw [hz0]
  refine ⟨hkey, ?_, ?_, ?_⟩
  · rw [hkey]; rfl
  · intro r hr
    rw [hkey] at hr
    simp only [List.mem_singleton] at hr
    rw [hr]
    simp
  · intro r hr
    unfold save_monster_groups at hr
    obtain ⟨b, _, hb⟩ := List.mem_map.mp hr
    rw [← hb]

theorem save_monster_groups_bins_witness :
    sample_zg.filter (fun e => mongroup_bin_eq (sample_group_at ⟨9, 9, 9⟩) e.2) ≠ [] ∧
    (save_monster_groups sample_zg).filter
      (fun r => mongroup_bin_eq (sample_group_at ⟨9, 9, 9⟩) r.1) =
      [(sample_group_at ⟨0, 0, 0⟩, [⟨1, 0, 0⟩, ⟨3, 0, 0⟩])] :=
  ⟨fun h => List.noConfusion h,
    (save_monster_groups_bins sample_zg (sample_group_at ⟨9, 9, 9⟩)
      (fun h => List.noConfusion h)).1.trans rfl⟩

/-! ## Conversion of outdated terrain ids -/

theorem compare_at_start_iff (old lit : String) :
    compare_at_start old lit.data.length lit = true ↔ lit.data <+: old.data := by
  simp only [compare_at_start, decide_eq_true_eq]
  rw [List.prefix_iff_eq_take]
  exact eq_comm

theorem compare_at_start_ne (old lit other : String) (n : Nat)
    (h : compare_at_start old n lit = true) (hother : other.data.take n ≠ lit.data) :
    old ≠ other := by
  intro heq
  apply hother
  rw [← heq]
  simpa [compare_at_start] using h

theorem compare_at_start_false (old lit other : String) (n m : Nat)
    (h : compare_at_start old n lit = true) (hother : lit.data.take m ≠ other.data.take n) :
    compare_at_start old m other = false := by
  cases hc : compare_at_start old m other with
  | false => rfl
  | true =>
    exfalso
    apply hother
    have h1 : old.data.take n = lit.data := by simpa [compare_at_start] using h
    have h2 : old.data.take m = other.data := by simpa [compare_at_start] using hc
    rw [← h1, ← h2, List.take_take, List.take_take, Nat.min_comm]

theorem overmap.convert_chain_past_earlier {O : Type} (env : overmap_env O)
    (get_ter : tripoint → O) (pos : tripoint) (old : String)
    (hnames : ∀ name ∈ earlier_names, ¬ old = name)
    (hstarts : ∀ start ∈ earlier_starts, compare_at_start old start.data.length start = false)
    (h : compare_at_start old 4 "lmoe" = true ∨
      compare_at_start old 5 "cabin" = true ∨
      compare_at_start old 5 "pond_" = true ∨
      compare_at_start old 6 "bandit" = true ∨
      compare_at_start old 7 "haz_sar" = true ∨
      compare_at_start old 7 "shelter" = true ∨
      compare_at_start old 8 "campsite" = true ∨
      compare_at_start old 9 "pwr_large" = true ∨
      compare_at_start old 9 "shipwreck" = true ∨
      compare_at_start old 9 "robofachq" = true ∨
      compare_at_start old 10 "ranch_camp" = true ∨
      compare_at_start old 11 "hdwr_large_" = true ∨
      compare_at_start old 14 "loffice_tower_" = true ∨
      compare_at_start old 17 "cemetery_4square_" = true) :
    overmap.convert_chain env get_ter pos old = ⟨some (old ++ "_north"), []⟩ := by
  have hn0 : ¬ old = "apartments_con_tower_1_entrance" := hnames "apartments_con_tower_1_entrance" (by simp [earlier_names])
  have hn1 : ¬ old = "apartments_mod_tower_1_entrance" := hnames "apartments_mod_tower_1_entrance" (by simp [earlier_names])
  have hn2 : ¬ old = "apartments_con_tower_1" := hnames "apartments_con_tower_1" (by simp [earlier_names])
  have hn3 : ¬ old = "apartments_mod_tower_1" := hnames "apartments_mod_tower_1" (by simp [earlier_names])
  have hn4 : ¬ old = "subway_station" := hnames "subway_station" (by simp [earlier_names])
  have hn5 : ¬ old = "bridge_ew" := hnames "bridge_ew" (by simp [earlier_names])
  have hn6 : ¬ old = "bridge_ns" := hnames "bridge_ns" (by simp [earlier_names])
  have hn7 : ¬ old = "public_works_entrance" := hnames "public_works_entrance" (by simp [earlier_names])
  have hn8 : ¬ old = "public_works" := hnames "public_works" (by simp [earlier_names])
  have hn9 : ¬ old = "cathedral_1_entrance" := hnames "cathedral_1_entrance" (by simp [earlier_names])
  have hn10 : ¬ old = "cathedral_1" := hnames "cathedral_1" (by simp [earlier_names])
  have hn11 : ¬ old = "cathedral_b_entrance" := hnames "cathedral_b_entrance" (by simp [earlier_names])
  have hn12 : ¬ old = "cathedral_b" := hnames "cathedral_b" (by simp [earlier_names])
  have hn13 : ¬ old = "bunker" := hnames "bunker" (by simp [earlier_names])
  have hn14 : ¬ old = "farm" := hnames "farm" (by simp [earlier_names])
  have hn15 : ¬ old = "farm_field" := hnames "farm_field" (by simp [earlier_names])
  have hp0 : ¬ compare_at_start old 7 "school_" = true := by
    have hf : compare_at_start old 7 "school_" = false := hstarts "school_" (by simp [earlier_starts])
    rw [hf]
    exact Bool.false_ne_true
  have hp1 : ¬ compare_at_start old 7 "prison_" = true := by
    have hf : compare_at_start old 7 "prison_" = false := hstarts "prison_" (by simp [earlier_starts])
    rw [hf]
    exact Bool.false_ne_true
  have hp2 : ¬ compare_at_start old 8 "hospital" = true := by
    have hf : compare_at_start old 8 "hospital" = false := hstarts "hospital" (by simp [earlier_starts])
    rw [hf]
    exact Bool.false_ne_true
  have hp3 : ¬ compare_at_start old 14 "hotel_tower_1_" = true := by
    have hf : compare_at_start old 14 "hotel_tower_1_" = false := hstarts "hotel_tower_1_" (by simp [earlier_starts])
    rw [hf]
    exact Bool.false_ne_true
  have hp4 : ¬ compare_at_start old 14 "hotel_tower_b_" = true := by
    have hf : compare_at_start old 14 "hotel_tower_b_" = false := hstarts "hotel_tower_b_" (by simp [earlier_starts])
    rw [hf]
    exact Bool.false_ne_true
  have hp5 : ¬ compare_at_start old 7 "mansion" = true := by
    have hf : compare_at_start old 7 "mansion" = false := hstarts "mansion" (by simp [earlier_starts])
    rw [hf]
    exact Bool.false_ne_true
  unfold overmap.convert_chain
  simp only [hn0, hn1, hn2, hn3, hn4, hn5, hn6, hn7, hn8, hn9, hn10, hn11, hn12, hn13, hn14, hn15, hp0, hp1, hp2, hp3, hp4, hp5, or_self, Bool.false_eq_true, if_false, h, if_true]

theorem overmap.convert_chain_no_rotate_start {O : Type} (env : overmap_env O)
    (get_ter : tripoint → O) (pos : tripoint) (old start : String)
    (hstart : start ∈ no_rotate_starts) (hold : start.data <+: old.data) :
    overmap.convert_chain env get_ter pos old = ⟨some (old ++ "_north"), []⟩ := by
  have h := (compare_at_start_iff old start).mpr hold
  have hnames : ∀ name ∈ earlier_names, ¬ old = name := by
    intro name hname
    have key : ∀ start ∈ no_rotate_starts, ∀ name ∈ earlier_names,
        name.data.take start.data.length ≠ start.data := by decide
    exact compare_at_start_ne old start name _ h (key start hstart name hname)
  have hstarts : ∀ other ∈ earlier_starts,
      compare_at_start old other.data.length other = false := by
    intro other hother
    have key : ∀ start ∈ no_rotate_starts, ∀ other ∈ earlier_starts,
        start.data.take other.data.length ≠ other.data.take start.data.length := by decide
    exact compare_at_start_false old start other _ _ h (key start hstart other hother)
  apply overmap.convert_chain_past_earlier env get_ter pos old hnames hstarts
  have hany : (no_rotate_starts.any fun st => compare_at_start old st.data.length st) = true :=
    List.any_eq_true.mpr ⟨start, hstart, h⟩
  simp only [no_rotate_starts, List.any_cons, List.any_nil, Bool.or_false,
    Bool.or_eq_true] at hany
  exact hany

theorem overmap.convert_chain_no_rotate_name {O : Type} (env : overmap_env O)
    (get_ter : tripoint → O) (pos : tripoint) (old : String) (hold : old ∈ no_rotate_names) :
    overmap.convert_chain env get_ter pos old = ⟨some (old ++ "_north"), []⟩ := by
  simp only [no_rotate_names, List.mem_cons, List.mem_singleton, List.not_mem_nil,
    or_false] at hold
  rcases hold with rfl | rfl | rfl | rfl | rfl | rfl | rfl | rfl
  · rfl
  · rfl
  · rfl
  · rfl
  · rfl
  · rfl
  · rfl
  · rfl

theorem overmap.convert_cell_elsewhere {O : Type} (env : overmap_env O)
    (needs_conversion : List (tripoint × String)) (terrain : tripoint → O)
    (convert : tripoint × String) (p : tripoint) (hp : p ≠ convert.1) :
    overmap.convert_cell env needs_conversion terrain convert p = terrain p := by
  unfold overmap.convert_cell
  generalize overmap.convert_chain env terrain convert.1 convert.2 = c
  obtain ⟨assigned, nearby⟩ := c
  dsimp only
  generalize List.find? _ nearby = found
  cases found <;> cases assigned <;> simp [set_ter, hp]

theorem overmap.convert_cell_assigned {O : Type} (env : overmap_env O)
    (needs_conversion : List (tripoint × String)) (terrain : tripoint → O)
    (pos : tripoint) (old name : String)
    (h : overmap.convert_chain env terrain pos old = ⟨some name, []⟩) :
    overmap.convert_cell env needs_conversion terrain (pos, old) pos = env.oter_id name := by
  simp [overmap.convert_cell, h, set_ter]

theorem overmap.convert_cells_elsewhere {O : Type} (env : overmap_env O)
    (needs_conversion : List (tripoint × String)) (cells : List (tripoint × String))
    (p : tripoint) (hp : p ∉ cells.map Prod.fst) :
    ∀ terrain : tripoint → O,
      cells.foldl (overmap.convert_cell env needs_conversion) terrain p = terrain p := by
  induction cells with
  | nil => intro terrain; rfl
  | cons c rest ih =>
    intro terrain
    simp only [List.map_cons, List.mem_cons, not_or] at hp
    rw [List.foldl_cons, ih hp.2]
    exact overmap.convert_cell_elsewhere env needs_conversion terrain c p hp.1

theorem overmap.convert_cells_no_rotate {O : Type} (env : overmap_env O)
    (needs_conversion : List (tripoint × String)) (cells : List (tripoint × String))
    (pos : tripoint) (old : String) (hmem : (pos, old) ∈ cells)
    (hkeys : (cells.map Prod.fst).Nodup)
    (hchain : ∀ get_ter : tripoint → O,
      overmap.convert_chain env get_ter pos old = ⟨some (old ++ "_north"), []⟩) :
    ∀ terrain : tripoint → O,
      cells.foldl (overmap.convert_cell env needs_conversion) terrain pos =
        env.oter_id (old ++ "_north") := by
  induction cells with
  | nil => cases hmem
  | cons c rest ih =>
    intro terrain
    simp only [List.map_cons, List.nodup_cons] at hkeys
    rw [List.foldl_cons]
    rcases List.mem_cons.mp hmem with heq | hrest
    · subst heq
      rw [overmap.convert_cells_elsewhere env needs_conversion rest pos hkeys.1]
      exact overmap.convert_cell_assigned env needs_conversion terrain pos old _
        (hchain terrain)
    · exact ih hrest hkeys.2 _

/-- C20: `overmap::convert_terrain` gives every cell of `needs_conversion`
whose old name starts with lmoe, cabin, pond_, bandit, haz_sar, shelter,
campsite, pwr_large, shipwreck, robofachq, ranch_camp, hdwr_large_,
loffice_tower_ or cemetery_4square_, or is hunter_shack, outpost, park, pool,
pwr_sub_s, radio_tower, sai or toxic_dump, the id of the old name followed by
"_north", whatever the other cells and the terrain around it are: no earlier
branch of the chain takes such a name, and its list `nearby` is empty. -/
theorem overmap.convert_terrain_no_rotate {O : Type} (env : overmap_env O)
    (needs_conversion : List (tripoint × String)) (terrain : tripoint → O)
    (pos : tripoint) (old : String)
    (hkeys : (needs_conversion.map Prod.fst).Nodup)
    (hmem : (pos, old) ∈ needs_conversion)
    (hold : (∃ start ∈ no_rotate_starts, start.data <+: old.data) ∨ old ∈ no_rotate_names) :
    overmap.convert_terrain env needs_conversion terrain pos = env.oter_id (old ++ "_north") ∧
    ∀ get_ter : tripoint → O,
      overmap.convert_chain env get_ter pos old = ⟨some (old ++ "_north"), []⟩ := by
  have hchain : ∀ get_ter : tripoint → O,
      overmap.convert_chain env get_ter pos old = ⟨some (old ++ "_north"), []⟩ := by
    intro get_ter
    rcases hold with ⟨start, hstart, hpre⟩ | hname
    · exact overmap.convert_chain_no_rotate_start env get_ter pos old start hstart hpre
    · exact overmap.convert_chain_no_rotate_name env get_ter pos old hname
  exact ⟨overmap.convert_cells_no_rotate env needs_conversion needs_conversion pos old hmem
    hkeys hchain terrain, hchain⟩

theorem overmap.convert_terrain_no_rotate_witness :
    (sample_needs_conversion.map Prod.fst).Nodup ∧
    (⟨3, 4, 0⟩, "cabin_lake") ∈ sample_needs_conversion ∧
    "cabin".data <+: "cabin_lake".data ∧
    overmap.convert_terrain sample_overmap_env sample_needs_conversion (fun _ => "")
      ⟨3, 4, 0⟩ = "cabin_lake_north" :=
  ⟨by decide, by decide, by decide,
    (overmap.convert_terrain_no_rotate sample_overmap_env sample_needs_conversion
      (fun _ => "") ⟨3, 4, 0⟩ "cabin_lake" (by decide) (by decide)
      (Or.inl ⟨"cabin", by decide, by decide⟩)).1⟩

/-! ## Loading a saved game -/

theorem run_try_append_ok {σ : Type} (pre rest : List (try_step σ)) :
    ∀ s s1 : σ, run_try pre s = (s1, none) → run_try (pre ++ rest) s = run_try rest s1 := by
  induction pre with
  | nil =>
    intro s s1 h
    simp only [run_try, Prod.mk.injEq, and_true] at h
    rw [h]
    rfl
  | cons step pre ih =>
    intro s s1 h
    rcases hstep : step s with ⟨s2, _ | e⟩
    · simp only [run_try, hstep, List.cons_append] at h ⊢
      exact ih s2 s1 h
    · simp [run_try, hstep] at h

theorem run_try_raise {σ : Type} (pre post : List (try_step σ)) (step : try_step σ)
    (s s1 s2 : σ) (e : String) (hpre : run_try pre s = (s1, none))
    (hstep : step s1 = (s2, some e)) :
    run_try (pre ++ step :: post) s = (s2, some e) := by
  rw [run_try_append_ok pre (step :: post) s s1 hpre]
  simp [run_try, hstep]

/-- C13 (counterexample): values read before the error stay in the game. A
save that gives `turn` and `mostseen` and then a member `kills` that is not an
object makes `game::unserialize` report the error and return with `mostseen`
at 5, the value read, not at the 0 the game had; and a master.gsav that gives
`next_mission_id` and then a `next_npc_id` that is not a number makes
`game::unserialize_master` report the error and return with
`next_mission_id` at 7, not at 0. -/
theorem game.unserialize_keeps_read_values :
    (game.unserialize (sample_save_env sample_bad_save sample_bad_master)
      "# version 25\n".toList sample_game).debug_log = ["Bad save json\nexpected object"] ∧
    sample_game.mostseen = 0 ∧
    (game.unserialize (sample_save_env sample_bad_save sample_bad_master)
      "# version 25\n".toList sample_game).mostseen = 5 ∧
    (game.unserialize_master (sample_save_env sample_bad_save sample_bad_master)
      "# version 25\n".toList sample_game).debug_log =
        ["error loading master.gsav: expected number"] ∧
    sample_game.next_mission_id = 0 ∧
    (game.unserialize_master (sample_save_env sample_bad_save sample_bad_master)
      "# version 25\n".toList sample_game).next_mission_id = 7 := by
  refine ⟨?_, ?_, ?_, ?_, ?_, ?_⟩ <;> decide

theorem run_try_keeps {σ α : Type} (f : σ → α) (steps : List (try_step σ))
    (h : ∀ step ∈ steps, ∀ s, f (step s).1 = f s) (s : σ) : f (run_try steps s).1 = f s := by
  induction steps generalizing s with
  | nil => rfl
  | cons step steps ih =>
    have hstep := h step (List.mem_cons_self _ _) s
    rcases hs : step s with ⟨s1, _ | e⟩
    · rw [hs] at hstep
      simp only [run_try, hs]
      rw [ih (fun st hst => h st (List.mem_cons_of_mem _ hst)) s1]
      exact hstep
    · rw [hs] at hstep
      simp only [run_try, hs]
      exact hstep

theorem on_read_keeps {σ α β : Type} (f : σ → β) (r : Except String α) (set : α → σ → σ)
    (h : ∀ a s, f (set a s) = f s) (s : σ) : f (on_read r set s).1 = f s := by
  cases r with
  | error e => rfl
  | ok a => exact h a s

theorem run_try_split {σ : Type} (pre rest : List (try_step σ)) (s s2 : σ)
    (h : run_try (pre ++ rest) s = (s2, none)) :
    ∃ s1, run_try pre s = (s1, none) ∧ run_try rest s1 = (s2, none) := by
  induction pre generalizing s with
  | nil => exact ⟨s, rfl, h⟩
  | cons step pre ih =>
    rcases hs : step s with ⟨s1, _ | e⟩
    · simp only [List.cons_append, run_try, hs] at h ⊢
      exact ih s1 h
    · simp [run_try, hs] at h

theorem run_try_on_read {σ α : Type} (r : Except String α) (set : α → σ → σ)
    (rest : List (try_step σ)) (s s2 : σ)
    (h : run_try (on_read r set :: rest) s = (s2, none)) :
    ∃ a, r = .ok a ∧ run_try rest (set a s) = (s2, none) := by
  cases r with
  | error e => simp [run_try, on_read] at h
  | ok a => exact ⟨a, rfl, by simpa [run_try, on_read] using h⟩

theorem game.unserialize_kill_keeps {T : game_types} {D V α : Type} (env : save_env T D V)
    (odata : D) (member : String) (f : unserialize_state T → α)
    (h : ∀ (s : unserialize_state T) kills, f { s with g := { s.g with kills := kills } } = f s)
    (s : unserialize_state T) : f (game.unserialize_kill env odata member s).1 = f s := by
  unfold game.unserialize_kill
  cases env.get_int odata member with
  | error e => exact h s _
  | ok count => exact h s _

theorem game.unserialize_steps_keep_log {T : game_types} {D V : Type} (env : save_env T D V)
    (data : D) :
    ∀ step ∈ game.unserialize_steps env data, ∀ s,
      ((step s).1.g.debug_log, (step s).1.g.popups) =
        (s.g.debug_log, s.g.popups) := by
  intro step hstep
  simp only [game.unserialize_steps, List.mem_cons, List.mem_singleton, List.not_mem_nil,
    or_false] at hstep
  rcases hstep with rfl | rfl | rfl | rfl | rfl | rfl | rfl | rfl | rfl | rfl | rfl | rfl | rfl
    | rfl | rfl | rfl | rfl | rfl | rfl | rfl | rfl
  all_goals intro s
  all_goals first
    | rfl
    | (refine on_read_keeps (fun s : unserialize_state T => (s.g.debug_log, s.g.popups)) _ _ ?_ s
       intro v _
       first
         | rfl
         | (cases v <;> rfl))
    | (dsimp only
       split
       · rfl
       refine (run_try_keeps (fun s : unserialize_state T => (s.g.debug_log, s.g.popups))
         _ ?_ _).trans rfl
       intro step hstep s
       obtain ⟨v, _, rfl⟩ := List.mem_map.mp hstep
       first
         | exact game.unserialize_kill_keeps env _ v
             (fun s : unserialize_state T => (s.g.debug_log, s.g.popups))
             (fun _ _ => rfl) s
         | (refine on_read_keeps (fun s : unserialize_state T => (s.g.debug_log, s.g.popups))
             _ _ ?_ s
            intro _ _
            rfl))

theorem game.unserialize_steps_keep_read {T : game_types} {D V : Type} (env : save_env T D V)
    (data : D) :
    ∀ step ∈ (game.unserialize_steps env data).drop 6, ∀ s,
      ((step s).1.g.initial_season, (step s).1.g.auto_travel_mode, (step s).1.g.mostseen) =
        (s.g.initial_season, s.g.auto_travel_mode, s.g.mostseen) := by
  intro step hstep
  simp only [game.unserialize_steps, List.drop, List.mem_cons, List.mem_singleton, List.not_mem_nil,
    or_false] at hstep
  rcases hstep with rfl | rfl | rfl | rfl | rfl | rfl | rfl | rfl | rfl | rfl | rfl | rfl | rfl
    | rfl | rfl
  all_goals intro s
  all_goals first
    | rfl
    | (refine on_read_keeps (fun s : unserialize_state T => (s.g.initial_season, s.g.auto_travel_mode, s.g.mostseen)) _ _ ?_ s
       intro v _
       first
         | rfl
         | (cases v <;> rfl))
    | (dsimp only
       split
       · rfl
       refine (run_try_keeps (fun s : unserialize_state T => (s.g.initial_season, s.g.auto_travel_mode, s.g.mostseen))
         _ ?_ _).trans rfl
       intro step hstep s
       obtain ⟨v, _, rfl⟩ := List.mem_map.mp hstep
       first
         | exact game.unserialize_kill_keeps env _ v
             (fun s : unserialize_state T => (s.g.initial_season, s.g.auto_travel_mode, s.g.mostseen))
             (fun _ _ => rfl) s
         | (refine on_read_keeps (fun s : unserialize_state T => (s.g.initial_season, s.g.auto_travel_mode, s.g.mostseen))
             _ _ ?_ s
            intro _ _
            rfl))

theorem game.unserialize_steps_keep_calendar {T : game_types} {D V : Type} (env : save_env T D V)
    (data : D) :
    ∀ step ∈ (game.unserialize_steps env data).drop 12, ∀ s,
      ((step s).1.g.calendar_turn, (step s).1.g.calendar_start) =
        (s.g.calendar_turn, s.g.calendar_start) := by
  intro step hstep
  simp only [game.unserialize_steps, List.drop, List.mem_cons, List.mem_singleton, List.not_mem_nil,
    or_false] at hstep
  rcases hstep with rfl | rfl | rfl | rfl | rfl | rfl | rfl | rfl | rfl
  all_goals intro s
  all_goals first
    | rfl
    | (refine on_read_keeps (fun s : unserialize_state T => (s.g.calendar_turn, s.g.calendar_start)) _ _ ?_ s
       intro v _
       first
         | rfl
         | (cases v <;> rfl))
    | (dsimp only
       split
       · rfl
       refine (run_try_keeps (fun s : unserialize_state T => (s.g.calendar_turn, s.g.calendar_start))
         _ ?_ _).trans rfl
       intro step hstep s
       obtain ⟨v, _, rfl⟩ := List.mem_map.mp hstep
       first
         | exact game.unserialize_kill_keeps env _ v
             (fun s : unserialize_state T => (s.g.calendar_turn, s.g.calendar_start))
             (fun _ _ => rfl) s
         | (refine on_read_keeps (fun s : unserialize_state T => (s.g.calendar_turn, s.g.calendar_start))
             _ _ ?_ s
            intro _ _
            rfl))

theorem game.unserialize_first_reads {T : game_types} {D V : Type} (env : save_env T D V)
    (data : D) (s0 sa : unserialize_state T)
    (h : run_try ((game.unserialize_steps env data).take 6) s0 = (sa, none)) :
    ∃ season travel seen,
      env.get_int_or data "initial_season" env.SPRING = .ok season ∧
      env.read_bool data "auto_travel_mode" = .ok travel ∧
      env.read_int data "mostseen" = .ok seen ∧
      sa.g.initial_season = season ∧
      sa.g.auto_travel_mode = travel.getD s0.g.auto_travel_mode ∧
      sa.g.mostseen = seen.getD s0.g.mostseen := by
  simp only [game.unserialize_steps, List.take] at h
  obtain ⟨turn, _, h⟩ := run_try_on_read _ _ _ _ _ h
  obtain ⟨start, _, h⟩ := run_try_on_read _ _ _ _ _ h
  obtain ⟨season, hseason, h⟩ := run_try_on_read _ _ _ _ _ h
  obtain ⟨travel, htravel, h⟩ := run_try_on_read _ _ _ _ _ h
  obtain ⟨run, _, h⟩ := run_try_on_read _ _ _ _ _ h
  obtain ⟨seen, hseen, h⟩ := run_try_on_read _ _ _ _ _ h
  simp only [run_try, Prod.mk.injEq, and_true] at h
  subst h
  exact ⟨season, travel, seen, hseason, htravel, hseen, rfl, rfl, rfl⟩

theorem game.unserialize_calendar_reads {T : game_types} {D V : Type} (env : save_env T D V)
    (data : D) (s0 sa : unserialize_state T)
    (h : run_try ((game.unserialize_steps env data).take 12) s0 = (sa, none)) :
    ∃ turn start,
      env.read_int data "turn" = .ok turn ∧
      env.read_int data "calendar_start" = .ok start ∧
      sa.g.calendar_turn = turn.getD s0.tmpturn ∧
      sa.g.calendar_start = start.getD s0.tmpcalstart := by
  simp only [game.unserialize_steps, List.take] at h
  obtain ⟨turn, hturn, h⟩ := run_try_on_read _ _ _ _ _ h
  obtain ⟨start, hstart, h⟩ := run_try_on_read _ _ _ _ _ h
  obtain ⟨season, _, h⟩ := run_try_on_read _ _ _ _ _ h
  obtain ⟨travel, _, h⟩ := run_try_on_read _ _ _ _ _ h
  obtain ⟨run, _, h⟩ := run_try_on_read _ _ _ _ _ h
  obtain ⟨seen, _, h⟩ := run_try_on_read _ _ _ _ _ h
  obtain ⟨levx, _, h⟩ := run_try_on_read _ _ _ _ _ h
  obtain ⟨levy, _, h⟩ := run_try_on_read _ _ _ _ _ h
  obtain ⟨levz, _, h⟩ := run_try_on_read _ _ _ _ _ h
  obtain ⟨comx, _, h⟩ := run_try_on_read _ _ _ _ _ h
  obtain ⟨comy, _, h⟩ := run_try_on_read _ _ _ _ _ h
  simp only [run_try, plain, Prod.mk.injEq, and_true] at h
  subst h
  exact ⟨turn, start, hturn, hstart, rfl, rfl⟩

theorem run_try_raise_after {σ α : Type} (f : σ → α) (k : Nat)
    (steps pre post : List (try_step σ)) (step : try_step σ) (s0 s1 s2 : σ) (e : String)
    (hsteps : steps = pre ++ step :: post) (hk : k ≤ pre.length)
    (hkeep : ∀ st ∈ steps.drop k, ∀ s, f (st s).1 = f s)
    (hpre : run_try pre s0 = (s1, none)) (hstep : step s1 = (s2, some e)) :
    ∃ sa, run_try (steps.take k) s0 = (sa, none) ∧ f s2 = f sa := by
  have htake : steps.take k = pre.take k := by
    rw [hsteps, List.take_append_of_le_length hk]
  have hdrop : steps.drop k = pre.drop k ++ step :: post := by
    rw [hsteps, List.drop_append_of_le_length hk]
  rw [← List.take_append_drop k pre] at hpre
  obtain ⟨sa, ha, hrest⟩ := run_try_split _ _ _ _ hpre
  refine ⟨sa, by rw [htake]; exact ha, ?_⟩
  have h1 : f s1 = f sa := by
    have := run_try_keeps f (pre.drop k)
      (fun st hst => hkeep st (by rw [hdrop]; exact List.mem_append_left _ hst)) sa
    rw [hrest] at this
    exact this
  have h2 : f s2 = f s1 := by
    have := hkeep step (by rw [hdrop]; exact List.mem_append_right _ (List.mem_cons_self _ _)) s1
    rw [hstep] at this
    exact this
  exact h2.trans h1

theorem mission.unserialize_all_keeps {T : game_types} {D V α : Type} (env : save_env T D V)
    (v : V) (f : game_state T → α)
    (hf : ∀ (g : game_state T) missions, f { g with missions := missions } = f g)
    (g : game_state T) : f (mission.unserialize_all env v g).1 = f g := by
  have hrun := run_try_keeps f
    ((env.array_elements v).1.map fun element =>
      on_read (env.mission_deserialize element) fun mis (g : game_state T) =>
        { g with missions := env.add_existing g.missions mis })
    (fun step hstep s => by
      obtain ⟨element, _, rfl⟩ := List.mem_map.mp hstep
      refine on_read_keeps f _ _ ?_ s
      intro mis g1
      exact hf g1 _) g
  unfold mission.unserialize_all
  split
  · rename_i g1 e h1
    rw [h1] at hrun
    exact hrun
  · rename_i g1 h1
    rw [h1] at hrun
    exact hrun

theorem game.unserialize_master_member_keeps_log {T : game_types} {D V : Type}
    (env : save_env T D V) (member : String × V) (g : game_state T) :
    ((game.unserialize_master_member env member g).1.debug_log,
      (game.unserialize_master_member env member g).1.popups) = (g.debug_log, g.popups) := by
  unfold game.unserialize_master_member
  split_ifs
  · exact on_read_keeps (fun g : game_state T => (g.debug_log, g.popups)) _ _ (by intro _ _; rfl) g
  · exact on_read_keeps (fun g : game_state T => (g.debug_log, g.popups)) _ _ (by intro _ _; rfl) g
  · exact mission.unserialize_all_keeps env member.2
      (fun g : game_state T => (g.debug_log, g.popups)) (by intro _ _; rfl) g
  · rfl
  · rfl

theorem game.unserialize_master_member_keeps_ids {T : game_types} {D V : Type}
    (env : save_env T D V) (member : String × V) (g : game_state T) :
    ((member.1 ≠ "next_mission_id" ∨ (game.unserialize_master_member env member g).2 ≠ none) →
      (game.unserialize_master_member env member g).1.next_mission_id = g.next_mission_id) ∧
    ((member.1 ≠ "next_npc_id" ∨ (game.unserialize_master_member env member g).2 ≠ none) →
      (game.unserialize_master_member env member g).1.next_npc_id = g.next_npc_id) := by
  unfold game.unserialize_master_member
  split_ifs with h1 h2 h3 h4
  · refine ⟨fun h => ?_, fun _ =>
      on_read_keeps (fun g : game_state T => g.next_npc_id) _ _ (by intro _ _; rfl) g⟩
    cases hr : env.stream_get_int member.2 with
    | error e => rfl
    | ok n =>
      rcases h with h | h
      · exact absurd h1 h
      · simp [on_read, hr] at h
  · refine ⟨fun _ =>
      on_read_keeps (fun g : game_state T => g.next_mission_id) _ _ (by intro _ _; rfl) g,
      fun h => ?_⟩
    cases hr : env.stream_get_int member.2 with
    | error e => rfl
    | ok n =>
      rcases h with h | h
      · exact absurd h2 h
      · simp [on_read, hr] at h
  · exact ⟨fun _ => mission.unserialize_all_keeps env member.2
        (fun g : game_state T => g.next_mission_id) (by intro _ _; rfl) g,
      fun _ => mission.unserialize_all_keeps env member.2
        (fun g : game_state T => g.next_npc_id) (by intro _ _; rfl) g⟩
  · exact ⟨fun _ => rfl, fun _ => rfl⟩
  · exact ⟨fun _ => rfl, fun _ => rfl⟩

theorem game.unserialize_master_run {T : game_types} {D V : Type} (env : save_env T D V)
    (fin : List Char) (g : game_state T)
    (hstart : (env.json_in (chkversion fin 0).2).start_error = none) :
    run_try (game.unserialize_master_steps env (env.json_in (chkversion fin 0).2))
      (game.unserialize_master_start fin g) =
    run_try ((env.json_in (chkversion fin 0).2).members.map
        (game.unserialize_master_member env) ++
      [fun g => (g, (env.json_in (chkversion fin 0).2).end_error)])
      (game.unserialize_master_start fin g) := by
  simp [game.unserialize_master_steps, run_try, hstart]

/-- C13 (amended): when the JSON reader raises an error, `game::unserialize`
and `game::unserialize_master` return with one more debug message, which
carries the text of the error, and the values read before the error stay in
the game. When the text of a save is not an object the game is as before the
call, but for the version and the message. When a later statement raises, the
game is as that statement left it, with the message added: once the first six
reads are done `initial_season`, `auto_travel_mode` and `mostseen` hold what
was read, and once the calendar is assigned it holds the `turn` and
`calendar_start` read. In master.gsav, `next_mission_id` and `next_npc_id` hold
the last number read for them before the member that raises. -/
theorem game.unserialize_error_reported {T : game_types} {D V : Type} (env : save_env T D V)
    (fin : List Char) (g : game_state T) :
    (∀ e, env.get_object (chkversion fin g.savegame_loading_version).2 = .error e →
      game.unserialize env fin g =
        { g with
          savegame_loading_version := (chkversion fin g.savegame_loading_version).1,
          debug_log := g.debug_log ++ ["Bad save json\n" ++ e] }) ∧
    (∀ data pre step post s1 s2 e,
      env.get_object (chkversion fin g.savegame_loading_version).2 = .ok data →
      game.unserialize_steps env data = pre ++ step :: post →
      run_try pre (game.unserialize_start fin g) = (s1, none) →
      step s1 = (s2, some e) →
      game.unserialize env fin g = debugmsg ("Bad save json\n" ++ e) s2.g ∧
      (game.unserialize env fin g).debug_log = g.debug_log ++ ["Bad save json\n" ++ e] ∧
      (6 ≤ pre.length → ∃ season travel seen,
        env.get_int_or data "initial_season" env.SPRING = .ok season ∧
        env.read_bool data "auto_travel_mode" = .ok travel ∧
        env.read_int data "mostseen" = .ok seen ∧
        (game.unserialize env fin g).initial_season = season ∧
        (game.unserialize env fin g).auto_travel_mode = travel.getD g.auto_travel_mode ∧
        (game.unserialize env fin g).mostseen = seen.getD g.mostseen) ∧
      (12 ≤ pre.length → ∃ turn start,
        env.read_int data "turn" = .ok turn ∧
        env.read_int data "calendar_start" = .ok start ∧
        (game.unserialize env fin g).calendar_turn = turn.getD 0 ∧
        (game.unserialize env fin g).calendar_start = start.getD 0)) ∧
    (∀ e, (env.json_in (chkversion fin 0).2).start_error = some e →
      game.unserialize_master env fin g =
        debugmsg ("error loading master.gsav: " ++ e) (game.unserialize_master_start fin g)) ∧
    (∀ before member after g1 g2 e,
      (env.json_in (chkversion fin 0).2).start_error = none →
      (env.json_in (chkversion fin 0).2).members = before ++ member :: after →
      run_try (before.map (game.unserialize_master_member env))
        (game.unserialize_master_start fin g) = (g1, none) →
      game.unserialize_master_member env member g1 = (g2, some e) →
      game.unserialize_master env fin g = debugmsg ("error loading master.gsav: " ++ e) g2 ∧
      (game.unserialize_master env fin g).debug_log =
        g.debug_log ++ ["error loading master.gsav: " ++ e] ∧
      (∀ b1 v n b2, before = b1 ++ ("next_mission_id", v) :: b2 →
        env.stream_get_int v = .ok n → (∀ m ∈ b2, m.1 ≠ "next_mission_id") →
        (game.unserialize_master env fin g).next_mission_id = n) ∧
      (∀ b1 v n b2, before = b1 ++ ("next_npc_id", v) :: b2 →
        env.stream_get_int v = .ok n → (∀ m ∈ b2, m.1 ≠ "next_npc_id") →
        (game.unserialize_master env fin g).next_npc_id = n)) ∧
    (∀ g1 e,
      (env.json_in (chkversion fin 0).2).start_error = none →
      run_try ((env.json_in (chkversion fin 0).2).members.map
        (game.unserialize_master_member env)) (game.unserialize_master_start fin g) =
          (g1, none) →
      (env.json_in (chkversion fin 0).2).end_error = some e →
      game.unserialize_master env fin g =
        debugmsg ("error loading master.gsav: " ++ e) g1) := by
  refine ⟨?_, ?_, ?_, ?_, ?_⟩
  · intro e he
    simp [game.unserialize, game.unserialize_try, he, debugmsg, game.unserialize_start]
  · intro data pre step post s1 s2 e hdata hsteps hpre hstep
    have hrun := run_try_raise pre post step _ s1 s2 e hpre hstep
    have hresult : game.unserialize env fin g = debugmsg ("Bad save json\n" ++ e) s2.g := by
      simp [game.unserialize, game.unserialize_try, hdata, hsteps, hrun]
    refine ⟨hresult, ?_, ?_, ?_⟩
    · obtain ⟨sa, ha, hkeep⟩ := run_try_raise_after
        (fun s : unserialize_state T => (s.g.debug_log, s.g.popups)) 0 _ pre post step _ s1 s2 e
        hsteps (Nat.zero_le _)
        (by
          rw [List.drop_zero]
          exact game.unserialize_steps_keep_log env data)
        hpre hstep
      simp only [List.take_zero, run_try, Prod.mk.injEq, and_true] at ha
      subst ha
      simp only [Prod.mk.injEq] at hkeep
      rw [hresult]
      simp only [debugmsg, hkeep.1]
      rfl
    · intro h6
      obtain ⟨sa, ha, hkeep⟩ := run_try_raise_after
        (fun s : unserialize_state T =>
          (s.g.initial_season, s.g.auto_travel_mode, s.g.mostseen)) 6 _ pre post step _ s1 s2 e
        hsteps h6 (game.unserialize_steps_keep_read env data) hpre hstep
      obtain ⟨season, travel, seen, hseason, htravel, hseen, h1, h2, h3⟩ :=
        game.unserialize_first_reads env data _ sa ha
      simp only [Prod.mk.injEq] at hkeep
      refine ⟨season, travel, seen, hseason, htravel, hseen, ?_, ?_, ?_⟩
      · rw [hresult]
        exact hkeep.1.trans h1
      · rw [hresult]
        exact hkeep.2.1.trans h2
      · rw [hresult]
        exact hkeep.2.2.trans h3
    · intro h12
      obtain ⟨sa, ha, hkeep⟩ := run_try_raise_after
        (fun s : unserialize_state T => (s.g.calendar_turn, s.g.calendar_start)) 12 _ pre post
        step _ s1 s2 e hsteps h12 (game.unserialize_steps_keep_calendar env data) hpre hstep
      obtain ⟨turn, start, hturn, hstart, h1, h2⟩ :=
        game.unserialize_calendar_reads env data _ sa ha
      simp only [Prod.mk.injEq] at hkeep
      refine ⟨turn, start, hturn, hstart, ?_, ?_⟩
      · rw [hresult]
        exact hkeep.1.trans h1
      · rw [hresult]
        exact hkeep.2.trans h2
  · intro e he
    simp [game.unserialize_master, game.unserialize_master_steps, run_try, he]
  · intro before member after g1 g2 e hstart hmembers hbefore hmember
    have hrun := run_try_raise (before.map (game.unserialize_master_member env))
      (after.map (game.unserialize_master_member env) ++
        [fun g => (g, (env.json_in (chkversion fin 0).2).end_error)])
      (game.unserialize_master_member env member) _ g1 g2 e hbefore hmember
    have hresult : game.unserialize_master env fin g =
        debugmsg ("error loading master.gsav: " ++ e) g2 := by
      unfold game.unserialize_master
      rw [game.unserialize_master_run env fin g hstart, hmembers]
      simp only [List.map_append, List.map_cons, List.append_assoc, List.cons_append]
      rw [hrun]
    have hlog1 : g1.debug_log = g.debug_log := by
      have := run_try_keeps (fun g : game_state T => g.debug_log)
        (before.map (game.unserialize_master_member env))
        (fun step hstep s => by
          obtain ⟨m, _, rfl⟩ := List.mem_map.mp hstep
          exact congrArg Prod.fst (game.unserialize_master_member_keeps_log env m s))
        (game.unserialize_master_start fin g)
      rw [hbefore] at this
      rw [this]
      unfold game.unserialize_master_start
      dsimp only
      split_ifs <;> rfl
    have hlog2 : g2.debug_log = g1.debug_log := by
      have := congrArg Prod.fst (game.unserialize_master_member_keeps_log env member g1)
      rw [hmember] at this
      exact this
    have hids := game.unserialize_master_member_keeps_ids env member g1
    rw [hmember] at hids
    refine ⟨hresult, ?_, ?_, ?_⟩
    · rw [hresult]
      simp only [debugmsg, hlog2, hlog1]
    · intro b1 v n b2 hb hv hb2
      rw [hb, List.map_append, List.map_cons] at hbefore
      obtain ⟨ga, _, hrest⟩ := run_try_split _ _ _ _ hbefore
      have hstep : game.unserialize_master_member env ("next_mission_id", v) =
          on_read (env.stream_get_int v) fun n g => { g with next_mission_id := n } := by
        simp [game.unserialize_master_member]
      rw [hstep] at hrest
      obtain ⟨a, ha, hrest⟩ := run_try_on_read _ _ _ _ _ hrest
      rw [hv, Except.ok.injEq] at ha
      subst ha
      have hkeep := run_try_keeps (fun g : game_state T => g.next_mission_id)
        (b2.map (game.unserialize_master_member env))
        (fun step hstep s => by
          obtain ⟨m, hm, rfl⟩ := List.mem_map.mp hstep
          exact (game.unserialize_master_member_keeps_ids env m s).1 (Or.inl (hb2 m hm)))
        { ga with next_mission_id := n }
      rw [hrest] at hkeep
      rw [hresult]
      exact (hids.1 (Or.inr (by simp))).trans hkeep
    · intro b1 v n b2 hb hv hb2
      rw [hb, List.map_append, List.map_cons] at hbefore
      obtain ⟨ga, _, hrest⟩ := run_try_split _ _ _ _ hbefore
      have hstep : game.unserialize_master_member env ("next_npc_id", v) =
          on_read (env.stream_get_int v) fun n g => { g with next_npc_id := n } := by
        simp [game.unserialize_master_member]
      rw [hstep] at hrest
      obtain ⟨a, ha, hrest⟩ := run_try_on_read _ _ _ _ _ hrest
      rw [hv, Except.ok.injEq] at ha
      subst ha
      have hkeep := run_try_keeps (fun g : game_state T => g.next_npc_id)
        (b2.map (game.unserialize_master_member env))
        (fun step hstep s => by
          obtain ⟨m, hm, rfl⟩ := List.mem_map.mp hstep
          exact (game.unserialize_master_member_keeps_ids env m s).2 (Or.inl (hb2 m hm)))
        { ga with next_npc_id := n }
      rw [hrest] at hkeep
      rw [hresult]
      exact (hids.2 (Or.inr (by simp))).trans hkeep
  · intro g1 e hstart hmembers hend
    unfold game.unserialize_master
    rw [game.unserialize_master_run env fin g hstart,
      run_try_append_ok _ _ _ g1 hmembers]
    simp [run_try, hend]

theorem game.unserialize_error_reported_witness :
    (game.unserialize (sample_save_env sample_bad_save sample_bad_master)
      "# version 25\n".toList sample_game).debug_log =
        sample_game.debug_log ++ ["Bad save json\nexpected object"] ∧
    (∃ season travel seen,
      (sample_save_env sample_bad_save sample_bad_master).get_int_or sample_bad_save
        "initial_season" (sample_save_env sample_bad_save sample_bad_master).SPRING =
          .ok season ∧
      (sample_save_env sample_bad_save sample_bad_master).read_bool sample_bad_save
        "auto_travel_mode" = .ok travel ∧
      (sample_save_env sample_bad_save sample_bad_master).read_int sample_bad_save
        "mostseen" = .ok seen ∧
      (game.unserialize (sample_save_env sample_bad_save sample_bad_master)
        "# version 25\n".toList sample_game).initial_season = season ∧
      (game.unserialize (sample_save_env sample_bad_save sample_bad_master)
        "# version 25\n".toList sample_game).auto_travel_mode =
          travel.getD sample_game.auto_travel_mode ∧
      (game.unserialize (sample_save_env sample_bad_save sample_bad_master)
        "# version 25\n".toList sample_game).mostseen = seen.getD sample_game.mostseen) ∧
    (game.unserialize_master (sample_save_env sample_bad_save sample_bad_master)
      "# version 25\n".toList sample_game).next_mission_id = 7 :=
  have hsave := (game.unserialize_error_reported
    (sample_save_env sample_bad_save sample_bad_master) "# version 25\n".toList
    sample_game).2.1 sample_bad_save
    ((game.unserialize_steps (sample_save_env sample_bad_save sample_bad_master)
      sample_bad_save).take 17)
    (((game.unserialize_steps (sample_save_env sample_bad_save sample_bad_master)
      sample_bad_save).drop 17).headD (plain id))
    ((game.unserialize_steps (sample_save_env sample_bad_save sample_bad_master)
      sample_bad_save).drop 18)
    (run_try ((game.unserialize_steps (sample_save_env sample_bad_save sample_bad_master)
      sample_bad_save).take 17)
      (game.unserialize_start "# version 25\n".toList sample_game)).1
    (run_try ((game.unserialize_steps (sample_save_env sample_bad_save sample_bad_master)
      sample_bad_save).take 17)
      (game.unserialize_start "# version 25\n".toList sample_game)).1
    "expected object" rfl rfl rfl rfl
  have hmaster := (game.unserialize_error_reported
    (sample_save_env sample_bad_save sample_bad_master) "# version 25\n".toList
    sample_game).2.2.2.1 [("next_mission_id", .number 7)] ("next_npc_id", .string "x") []
    { sample_game with next_mission_id := 7 } { sample_game with next_mission_id := 7 }
    "expected number" rfl rfl rfl rfl
  ⟨hsave.2.1, hsave.2.2.1 (by decide),
    hmaster.2.2.1 [] (.number 7) 7 [] rfl rfl (fun _ h => absurd h (List.not_mem_nil _))⟩

theorem game.unserialize_kill_raises :
    (game.unserialize (sample_save_env [("kills", .object [("mon_zombie", .string "x")])]
      sample_bad_master) "# version 25\n".toList sample_game).kills = [("mon_zombie", 0)] ∧
    (game.unserialize (sample_save_env [("kills", .object [("mon_zombie", .string "x")])]
      sample_bad_master) "# version 25\n".toList sample_game).debug_log =
        ["Bad save json\nexpected number"] := by
  constructor <;> decide

/-! ## Spells and mana -/

/-- C15: for a template with base_energy_cost 10, energy_increment -1 and
final_energy_cost 2, the energy cost (before any modifier of the actor, with a
conversion to `int` that keeps whole numbers) is 10 at level 0 and 2 at level 8,
and at no level is it below final_energy_cost. -/
theorem spell.energy_cost_example (to_int : ℚ → Int) (type : spell_type)
    (hint : ∀ n : Int, to_int (n : ℚ) = n)
    (hbase : type.base_energy_cost = 10) (hinc : type.energy_increment = -1)
    (hfinal : type.final_energy_cost = 2) :
    spell.energy_cost to_int id type 0 = 10 ∧
    spell.energy_cost to_int id type 8 = 2 ∧
    ∀ level : Int, type.final_energy_cost ≤ spell.energy_cost to_int id type level := by
  have hneg : ¬ (0 : ℚ) ≤ -1 := by norm_num
  refine ⟨?_, ?_, ?_⟩
  · have h := hint 10
    simp only [spell.energy_cost, hbase, hinc, hfinal, hneg, if_false, id]
    norm_num at h ⊢
    rw [h]
    decide
  · have h := hint 2
    simp only [spell.energy_cost, hbase, hinc, hfinal, hneg, if_false, id]
    norm_num at h ⊢
    rw [h]
  · intro level
    simp only [spell.energy_cost, hinc, hneg, if_false, id]
    exact le_max_right _ _

theorem spell.energy_cost_example_witness :
    (∀ n : Int, Int.floor (n : ℚ) = n) ∧
    sample_spell_type.energy_source = .mana_energy ∧
    spell.energy_cost Int.floor id sample_spell_type 0 = 10 ∧
    spell.energy_cost Int.floor id sample_spell_type 8 = 2 :=
  ⟨fun n => Int.floor_intCast n, rfl,
    (spell.energy_cost_example Int.floor sample_spell_type (fun n => Int.floor_intCast n)
      rfl rfl rfl).1,
    (spell.energy_cost_example Int.floor sample_spell_type (fun n => Int.floor_intCast n)
      rfl rfl rfl).2.1⟩

theorem scaled_value_behaves (to_int : ℚ → Int) (hmono : Monotone to_int) (min : Int)
    (increment : ℚ) (max : Int) (hordered : axis_ordered min increment max) :
    axis_behaves (scaled_value to_int min increment max) min increment max := by
  constructor
  · intro hinc
    have hle := hordered.1 hinc
    constructor
    · intro l1 l2 hl
      have hraw : to_int (min + increment * l1) ≤ to_int (min + increment * l2) := by
        apply hmono
        have : (l1 : ℚ) ≤ l2 := by exact_mod_cast hl
        nlinarith
      simp only [scaled_value, hinc, if_true]
      exact max_le_max le_rfl (min_le_min hraw le_rfl)
    · intro l
      simp only [scaled_value, hinc, if_true]
      exact ⟨le_max_left _ _, max_le hle (min_le_right _ _)⟩
  · intro hinc
    have hle := hordered.2 hinc
    have hneg : ¬ 0 ≤ increment := not_le.mpr hinc
    constructor
    · intro l1 l2 hl
      have hraw : to_int (min + increment * l2) ≤ to_int (min + increment * l1) := by
        apply hmono
        have : (l1 : ℚ) ≤ l2 := by exact_mod_cast hl
        nlinarith
      simp only [scaled_value, hneg, if_false]
      exact min_le_min le_rfl (max_le_max hraw le_rfl)
    · intro l
      simp only [scaled_value, hneg, if_false]
      exact ⟨le_min hle (le_max_right _ _), min_le_left _ _⟩

/-- C16 (counterexample): a template whose damage grows by 1 a level from
min_damage 5 with max_damage 3 has damage 5 at level 0, past its bound
max_damage; no value at all lies between its two bounds. -/
theorem spell.damage_passes_bound :
    (0 : ℚ) ≤ sample_spell_type.damage_increment ∧
    sample_spell_type.max_damage = 3 ∧
    (0 : Int) ≤ sample_spell_type.max_level ∧
    spell.damage Int.floor sample_spell_type 0 = 5 ∧
    ¬ spell.damage Int.floor sample_spell_type 0 ≤ sample_spell_type.max_damage ∧
    ¬ ∃ value : Int,
      sample_spell_type.min_damage ≤ value ∧ value ≤ sample_spell_type.max_damage := by
  have h5 : spell.damage Int.floor sample_spell_type 0 = 5 := by
    have hinc : (0 : ℚ) ≤ 1 := by norm_num
    simp only [spell.damage, scaled_value, sample_spell_type, hinc, if_true]
    norm_num
  refine ⟨by simp [sample_spell_type], rfl, by simp [sample_spell_type], h5, ?_, ?_⟩
  · rw [h5]
    simp [sample_spell_type]
  · rintro ⟨value, hlo, hhi⟩
    simp only [sample_spell_type] at hlo hhi
    omega

/-- C16 (amended): for every template whose bounds are in the order of the
increment on each axis (min at most max for an increment that is not negative,
max at most min for a negative one), and a conversion to `int` that is
monotone, `damage`, `aoe`, `range`, `duration` and the pierce value are
monotonic in the level in the direction of the sign of their increment and stay
between min and max, at every level. -/
theorem spell.axes_monotone_and_bounded (to_int : ℚ → Int) (hmono : Monotone to_int)
    (type : spell_type)
    (hdamage : axis_ordered type.min_damage type.damage_increment type.max_damage)
    (haoe : axis_ordered type.min_aoe type.aoe_increment type.max_aoe)
    (hrange : axis_ordered type.min_range type.range_increment type.max_range)
    (hduration : axis_ordered type.min_duration type.duration_increment type.max_duration)
    (hpierce : axis_ordered type.min_pierce type.pierce_increment type.max_pierce) :
    axis_behaves (spell.damage to_int type) type.min_damage type.damage_increment
      type.max_damage ∧
    axis_behaves (spell.aoe to_int type) type.min_aoe type.aoe_increment type.max_aoe ∧
    axis_behaves (spell.range to_int type) type.min_range type.range_increment
      type.max_range ∧
    axis_behaves (spell.duration to_int type) type.min_duration type.duration_increment
      type.max_duration ∧
    axis_behaves (spell.pierce to_int type) type.min_pierce type.pierce_increment
      type.max_pierce :=
  ⟨scaled_value_behaves to_int hmono _ _ _ hdamage,
    scaled_value_behaves to_int hmono _ _ _ haoe,
    scaled_value_behaves to_int hmono _ _ _ hrange,
    scaled_value_behaves to_int hmono _ _ _ hduration,
    scaled_value_behaves to_int hmono _ _ _ hpierce⟩

theorem spell.axes_monotone_and_bounded_witness :
    axis_ordered sample_spell_type.min_duration sample_spell_type.duration_increment
      sample_spell_type.max_duration ∧
    axis_behaves (spell.duration Int.floor { sample_spell_type with max_damage := 8 })
      100 (-10 : Int) 50 := by
  have h0 : axis_ordered 0 0 0 := ⟨fun _ => le_rfl, fun _ => le_rfl⟩
  have hd : axis_ordered sample_spell_type.min_duration sample_spell_type.duration_increment
      sample_spell_type.max_duration := by
    constructor
    · intro h
      simp [sample_spell_type] at h
      norm_num at h
    · intro _
      simp [sample_spell_type]
  have hdmg : axis_ordered 5 1 8 := ⟨fun _ => by norm_num, fun h => by norm_num at h⟩
  have hr : axis_ordered 1 1 10 := ⟨fun _ => by norm_num, fun h => by norm_num at h⟩
  exact ⟨hd, (spell.axes_monotone_and_bounded Int.floor (fun _ _ h => Int.floor_mono h)
    { sample_spell_type with max_damage := 8 } hdmg h0 hr hd h0).2.2.2.1⟩

/-- C17: after `mod_mana` the current mana, as `available_mana()` returns it,
lies between 0 and `max_mana` of the actor, for every caster state and every
delta. -/
theorem known_magic.mod_mana_in_range (max_mana : Nat) (km : known_magic) (add_mana : Int) :
    0 ≤ (km.mod_mana max_mana add_mana).available_mana ∧
    (km.mod_mana max_mana add_mana).available_mana ≤ max_mana := by
  simp only [known_magic.mod_mana, known_magic.available_mana]
  exact ⟨le_max_left _ _, max_le (Int.natCast_nonneg _) (min_le_right _ _)⟩

/-! ## The hash of a monster group -/

/-- C25: `mongroup_hash` is consistent with `mongroup_bin_eq`: two groups that
compare equal under `mongroup_bin_eq` have the same hash, whatever the hash
functions of the fields are; and the hash of a group does not change when its
position and its monsters are replaced. -/
theorem mongroup_hash_consistent {Monster : Type} (env : hash_env) (a b : mongroup Monster) :
    (mongroup_bin_eq a b = true → mongroup_hash env a = mongroup_hash env b) ∧
    (∀ (pos : tripoint) (monsters : List Monster),
      mongroup_hash env { a with pos := pos, monsters := monsters } = mongroup_hash env a) := by
  refine ⟨fun h => ?_, fun _ _ => rfl⟩
  simp only [mongroup_bin_eq, Bool.and_eq_true, decide_eq_true_eq] at h
  obtain ⟨⟨⟨⟨⟨⟨⟨⟨⟨⟨_, _⟩, htype⟩, hradius⟩, hpop⟩, htarget⟩, hint⟩, hdying⟩, hhorde⟩, hbeh⟩,
    hdiffuse⟩ := h
  simp only [mongroup_hash, htype, hradius, hpop, htarget, hint, hdying, hhorde, hbeh, hdiffuse]

theorem mongroup_hash_consistent_witness :
    mongroup_bin_eq (sample_group_at ⟨1, 0, 0⟩) (sample_group_at ⟨3, 0, 0⟩) = true ∧
    mongroup_hash sample_hash_env (sample_group_at ⟨1, 0, 0⟩) =
      mongroup_hash sample_hash_env (sample_group_at ⟨3, 0, 0⟩) ∧
    mongroup_hash sample_hash_env sample_group_with_monster =
      mongroup_hash sample_hash_env (sample_group_at ⟨5, 5, 0⟩) :=
  ⟨by decide,
    (mongroup_hash_consistent sample_hash_env (sample_group_at ⟨1, 0, 0⟩)
      (sample_group_at ⟨3, 0, 0⟩)).1 (by decide),
    ((mongroup_hash_consistent sample_hash_env (sample_group_at ⟨5, 5, 0⟩)
      (sample_group_at ⟨5, 5, 0⟩)).2 ⟨1, 2, 0⟩ [7]).symm⟩

/-! ## Run-length encoding -/

theorem rle_runs_head {α : Type} [DecidableEq α] (last : α) (count : Nat) (vs : List α) :
    ∃ c rest, rle_runs last count vs = (last, c) :: rest := by
  induction vs generalizing count with
  | nil => exact ⟨count, [], rfl⟩
  | cons v vs ih =>
    by_cases h : v = last
    · obtain ⟨c, rest, hc⟩ := ih (count + 1)
      exact ⟨c, rest, by simp [rle_runs, h, hc]⟩
    · exact ⟨count, rle_runs v 1 vs, by simp [rle_runs, h]⟩

theorem rle_runs_expand {α : Type} [DecidableEq α] (last : α) (count : Nat) (vs : List α) :
    rle_expand (rle_runs last count vs) = List.replicate count last ++ vs := by
  induction vs generalizing last count with
  | nil => simp [rle_runs, rle_expand]
  | cons v vs ih =>
    by_cases h : v = last
    · have := ih last (count + 1)
      simp only [rle_runs, h, if_true]
      rw [this, List.replicate_succ']
      simp
    · have := ih v 1
      simp only [rle_expand] at this ⊢
      simp [rle_runs, h, this]

theorem rle_runs_pos {α : Type} [DecidableEq α] (last : α) (count : Nat) (vs : List α)
    (hc : 0 < count) : ∀ r ∈ rle_runs last count vs, 0 < r.2 := by
  induction vs generalizing last count with
  | nil => simp [rle_runs, hc]
  | cons v vs ih =>
    by_cases h : v = last
    · simpa [rle_runs, h] using ih last (count + 1) (Nat.succ_pos _)
    · intro r hr
      simp only [rle_runs, h, if_false, List.mem_cons] at hr
      rcases hr with rfl | hr
      · exact hc
      · exact ih v 1 Nat.one_pos r hr

theorem rle_runs_sum {α : Type} [DecidableEq α] (last : α) (count : Nat) (vs : List α) :
    ((rle_runs last count vs).map Prod.snd).sum = count + vs.length := by
  induction vs generalizing last count with
  | nil => simp [rle_runs]
  | cons v vs ih =>
    by_cases h : v = last
    · simp only [rle_runs, h, if_true, ih, List.length_cons]; omega
    · simp only [rle_runs, h, if_false, List.map_cons, List.sum_cons, ih, List.length_cons]; omega

/-! ## Compacted boolean arrays -/

theorem serialize_array_fold (array : Nat → Nat → Bool) (cells : List (Nat × Nat))
    (json : List json_token) (b : Bool) (c : Nat) (hc : 0 < c) :
    ((cells.foldl (serialize_array_step array) ⟨json, c, if b then 1 else 0⟩).json ++
      [.int (cells.foldl (serialize_array_step array) ⟨json, c, if b then 1 else 0⟩).count,
        .end_array]) =
      json ++ close_tokens (rle_runs b c (cells.map fun cell => array cell.1 cell.2)) := by
  induction cells generalizing json b c with
  | nil => simp [rle_runs, close_tokens]
  | cons cell cells ih =>
    simp only [List.foldl_cons, List.map_cons]
    by_cases h : array cell.1 cell.2 = b
    · have hstep : serialize_array_step array ⟨json, c, if b then 1 else 0⟩ cell =
          ⟨json, ((c + 1 : Nat) : Int), if b then 1 else 0⟩ := by
        simp [serialize_array_step, h]
      rw [hstep, ih json b (c + 1) (Nat.succ_pos _)]
      simp [rle_runs, h]
    · have hstep : serialize_array_step array ⟨json, c, if b then 1 else 0⟩ cell =
          ⟨json ++ [.int c, .end_array] ++ [.start_array, .bool (array cell.1 cell.2)],
            ((1 : Nat) : Int), if array cell.1 cell.2 then 1 else 0⟩ := by
        have hc0 : (c : Int) ≠ 0 := by omega
        cases hv : array cell.1 cell.2 <;> cases b <;>
          simp_all [serialize_array_step]
      rw [hstep, ih _ _ 1 Nat.one_pos]
      obtain ⟨c1, rest, hr⟩ :=
        rle_runs_head (array cell.1 cell.2) 1 (cells.map fun cell => array cell.1 cell.2)
      simp [rle_runs, h, hr, close_tokens, run_tokens]

theorem unserialize_array_fold (f : Nat × Nat → Bool) (cells : List (Nat × Nat)) (k : Nat)
    (b : Bool) (runs : List (Bool × Nat)) (rest : List json_token) (array : Nat → Nat → Bool)
    (hpos : ∀ r ∈ runs, 0 < r.2)
    (hvals : List.replicate k b ++ rle_expand runs = cells.map f) :
    ∃ result value,
      cells.foldlM unserialize_array_step ⟨runs.flatMap run_tokens ++ rest, k, b, array⟩ =
        some ⟨rest, 0, value, result⟩ ∧
      ∀ i j, result i j = if (i, j) ∈ cells then f (i, j) else array i j := by
  induction cells generalizing k b runs array with
  | nil =>
    have hk : k = 0 := by
      cases k with
      | zero => rfl
      | succ n => simp [List.replicate_succ] at hvals
    subst hk
    have hruns : runs = [] := by
      cases runs with
      | nil => rfl
      | cons r runs =>
        obtain ⟨n, hn⟩ := Nat.exists_eq_succ_of_ne_zero (Nat.pos_iff_ne_zero.mp
          (hpos r (List.mem_cons_self _ _)))
        simp [rle_expand, hn, List.replicate_succ] at hvals
    subst hruns
    exact ⟨array, b, by simp, by simp⟩
  | cons cell cells ih =>
    have hfinish : ∀ (m : Nat) (v : Bool) (runs1 : List (Bool × Nat)) (jsin : List json_token)
        (count : Int),
        (∀ r ∈ runs1, 0 < r.2) →
        List.replicate (m + 1) v ++ rle_expand runs1 = (cell :: cells).map f →
        unserialize_array_step ⟨jsin, count, b, array⟩ cell =
          some ⟨runs1.flatMap run_tokens ++ rest, m, v,
            fun i j => if i = cell.1 ∧ j = cell.2 then v else array i j⟩ →
        ∃ result value,
          (cell :: cells).foldlM unserialize_array_step ⟨jsin, count, b, array⟩ =
            some ⟨rest, 0, value, result⟩ ∧
          ∀ i j, result i j = if (i, j) ∈ cell :: cells then f (i, j) else array i j := by
      intro m v runs1 jsin count hpos1 hvals1 hstep
      simp only [List.replicate_succ, List.cons_append, List.map_cons, List.cons.injEq] at hvals1
      obtain ⟨hv, htail⟩ := hvals1
      obtain ⟨result, value, hfold, hres⟩ :=
        ih m v runs1 (fun i j => if i = cell.1 ∧ j = cell.2 then v else array i j) hpos1 htail
      refine ⟨result, value, ?_, ?_⟩
      · simp only [List.foldlM_cons, hstep, Option.bind_eq_bind, Option.some_bind]
        exact hfold
      · intro i j
        rw [hres i j]
        by_cases hmem : (i, j) ∈ cells
        · simp [hmem]
        · by_cases hcell : (i, j) = cell
          · subst hcell
            simp [hv]
          · have hne : ¬ (i = cell.1 ∧ j = cell.2) := by
              intro h
              exact hcell (Prod.ext h.1 h.2)
            simp [hmem, hcell, hne]
    cases k with
    | succ n =>
      apply hfinish n b runs _ _ hpos hvals
      have hn : (n : Int) + 1 ≠ 0 := by omega
      simp only [unserialize_array_step]
      push_cast
      rw [if_neg hn]
      simp
    | zero =>
      cases runs with
      | nil => simp [rle_expand] at hvals
      | cons r runs =>
        obtain ⟨v, c⟩ := r
        obtain ⟨n, hn⟩ := Nat.exists_eq_succ_of_ne_zero (Nat.pos_iff_ne_zero.mp
          (hpos (v, c) (List.mem_cons_self _ _)))
        simp only at hn
        subst hn
        apply hfinish n v runs _ _ (fun r hr => hpos r (List.mem_cons_of_mem _ hr))
        · simpa [rle_expand] using hvals
        · simp [unserialize_array_step, run_tokens, JsonIn.start_array, JsonIn.read_bool,
            JsonIn.read_int, JsonIn.end_array]

theorem mem_compacted_cells (omapx omapy i j : Nat) :
    (i, j) ∈ compacted_cells omapx omapy ↔ i < omapx ∧ j < omapy := by
  simp only [compacted_cells, List.mem_flatMap, List.mem_range, List.mem_map, Prod.mk.injEq]
  constructor
  · rintro ⟨y, hy, x, hx, rfl, rfl⟩
    exact ⟨hx, hy⟩
  · rintro ⟨hx, hy⟩
    exact ⟨j, hy, i, hx, rfl, rfl⟩

theorem length_compacted_cells (omapx omapy : Nat) :
    (compacted_cells omapx omapy).length = omapx * omapy := by
  have hrow : (List.length ∘ fun j : Nat => List.map (fun i => (i, j)) (List.range omapx)) =
      fun _ => omapx := by
    funext j
    simp
  simp only [compacted_cells, List.length_flatMap, hrow, List.map_const', List.length_range,
    List.sum_replicate, smul_eq_mul]
  exact Nat.mul_comm _ _

theorem serialize_array_runs (array : Nat → Nat → Bool) (cell : Nat × Nat)
    (cells : List (Nat × Nat)) (json : List json_token) :
    ((cell :: cells).foldl (serialize_array_step array) ⟨json, 0, -1⟩).json ++
      [.int ((cell :: cells).foldl (serialize_array_step array) ⟨json, 0, -1⟩).count,
        .end_array] =
      json ++ (rle_runs (array cell.1 cell.2) 1
        (cells.map fun cell => array cell.1 cell.2)).flatMap run_tokens := by
  have hstep : serialize_array_step array ⟨json, 0, -1⟩ cell =
      ⟨json ++ [.start_array, .bool (array cell.1 cell.2)], ((1 : Nat) : Int),
        if array cell.1 cell.2 then 1 else 0⟩ := by
    cases hv : array cell.1 cell.2 <;> simp [serialize_array_step, hv]
  rw [List.foldl_cons, hstep, serialize_array_fold array cells _ _ 1 Nat.one_pos]
  obtain ⟨c1, rest, hr⟩ :=
    rle_runs_head (array cell.1 cell.2) 1 (cells.map fun cell => array cell.1 cell.2)
  simp [hr, close_tokens, run_tokens]

/-- C23: for an array of OMAPX by OMAPY cells (both positive, the number of
cells within the range of `int`), `serialize_array_to_compacted_sequence` writes
a sequence of `[value, count]` runs whose counts are positive, fit an `int` and
sum to OMAPX*OMAPY; `unserialize_array_from_compacted_sequence` reading these
runs returns without error, consumes exactly the runs and leaves what follows
them, and gives every cell of the array its original value. -/
theorem compacted_sequence_round_trip (omapx omapy : Nat) (hx : 0 < omapx) (hy : 0 < omapy)
    (hsize : omapx * omapy ≤ 2147483647) (array old : Nat → Nat → Bool)
    (json rest : List json_token) :
    ∃ (runs : List (Bool × Nat)) (result : Nat → Nat → Bool),
      serialize_array_to_compacted_sequence omapx omapy json array =
        json ++ runs.flatMap run_tokens ∧
      (∀ r ∈ runs, 0 < r.2 ∧ (r.2 : Int) ≤ 2147483647) ∧
      (runs.map Prod.snd).sum = omapx * omapy ∧
      unserialize_array_from_compacted_sequence omapx omapy
        (serialize_array_to_compacted_sequence omapx omapy [] array ++ rest) old =
          some (rest, result) ∧
      ∀ i j, i < omapx → j < omapy → result i j = array i j := by
  have hlen := length_compacted_cells omapx omapy
  have hmem := mem_compacted_cells omapx omapy
  have hwrite : ∀ json, serialize_array_to_compacted_sequence omapx omapy json array =
      (((compacted_cells omapx omapy).foldl (serialize_array_step array) ⟨json, 0, -1⟩).json ++
        [.int ((compacted_cells omapx omapy).foldl (serialize_array_step array)
          ⟨json, 0, -1⟩).count, .end_array]) := fun _ => rfl
  have hread : ∀ jsin, unserialize_array_from_compacted_sequence omapx omapy jsin old =
      ((compacted_cells omapx omapy).foldlM unserialize_array_step ⟨jsin, 0, false, old⟩).map
        fun st => (st.jsin, st.array) := fun _ => rfl
  generalize compacted_cells omapx omapy = all at hlen hmem hwrite hread
  cases all with
  | nil =>
    simp only [List.length_nil] at hlen
    have := Nat.mul_pos hx hy
    omega
  | cons cell cells =>
    have hsum := rle_runs_sum (array cell.1 cell.2) 1 (cells.map fun cell => array cell.1 cell.2)
    have hpos := rle_runs_pos (array cell.1 cell.2) 1 (cells.map fun cell => array cell.1 cell.2)
      Nat.one_pos
    have hvals : List.replicate 0 false ++ rle_expand (rle_runs (array cell.1 cell.2) 1
        (cells.map fun cell => array cell.1 cell.2)) =
        (cell :: cells).map fun cell => array cell.1 cell.2 := by
      rw [rle_runs_expand]
      rfl
    obtain ⟨result, value, hfold, hres⟩ := unserialize_array_fold
      (fun cell => array cell.1 cell.2) (cell :: cells) 0 false _ rest old hpos hvals
    simp only [List.length_cons, List.length_map] at hsum hlen
    refine ⟨rle_runs (array cell.1 cell.2) 1 (cells.map fun cell => array cell.1 cell.2),
      result, ?_, ?_, ?_, ?_, ?_⟩
    · rw [hwrite]
      exact serialize_array_runs array cell cells json
    · intro r hr
      refine ⟨hpos r hr, ?_⟩
      have hle : r.2 ≤ ((rle_runs (array cell.1 cell.2) 1
          (cells.map fun cell => array cell.1 cell.2)).map Prod.snd).sum :=
        List.single_le_sum (fun _ _ => Nat.zero_le _) _ (List.mem_map_of_mem _ hr)
      omega
    · omega
    · rw [hread, hwrite, serialize_array_runs array cell cells []]
      simp only [List.nil_append]
      have hfold2 : List.foldlM unserialize_array_step
          ⟨(rle_runs (array cell.1 cell.2) 1
            (cells.map fun cell => array cell.1 cell.2)).flatMap run_tokens ++ rest,
            0, false, old⟩ (cell :: cells) = some ⟨rest, 0, value, result⟩ := hfold
      rw [hfold2]
      rfl
    · intro i j hi hj
      rw [hres i j, if_pos ((hmem i j).mpr ⟨hi, hj⟩)]

theorem compacted_sequence_round_trip_witness :
    serialize_array_to_compacted_sequence 2 2 [] sample_array =
      [.start_array, .bool true, .int 3, .end_array,
        .start_array, .bool false, .int 1, .end_array] ∧
    ∃ (runs : List (Bool × Nat)) (result : Nat → Nat → Bool),
      serialize_array_to_compacted_sequence 2 2 [] sample_array =
        [] ++ runs.flatMap run_tokens ∧
      (∀ r ∈ runs, 0 < r.2 ∧ (r.2 : Int) ≤ 2147483647) ∧
      (runs.map Prod.snd).sum = 2 * 2 ∧
      unserialize_array_from_compacted_sequence 2 2
        (serialize_array_to_compacted_sequence 2 2 [] sample_array ++ [.end_object])
          (fun _ _ => false) = some ([.end_object], result) ∧
      ∀ i j, i < 2 → j < 2 → result i j = sample_array i j :=
  ⟨by decide,
    compacted_sequence_round_trip 2 2 (by decide) (by decide) (by decide) sample_array
      (fun _ _ => false) [] [.end_object]⟩

/-! ## Decimal text -/

theorem digitChar_value (d : Nat) (hd : d < 10) :
    (Nat.digitChar d).isDigit = true ∧ (Nat.digitChar d).toNat - 48 = d ∧
      is_space (Nat.digitChar d) = false ∧ Nat.digitChar d ≠ '-' ∧ Nat.digitChar d ≠ '+' := by
  interval_cases d <;> decide

theorem digits_value_append (xs : List Char) (d : Char) :
    digits_value (xs ++ [d]) = digits_value xs * 10 + (d.toNat - 48) := by
  simp [digits_value, List.foldl_append]

theorem toDigitsCore_append (fuel n : Nat) (ds : List Char) :
    Nat.toDigitsCore 10 fuel n ds = Nat.toDigitsCore 10 fuel n [] ++ ds := by
  induction fuel generalizing n ds with
  | zero => simp [Nat.toDigitsCore]
  | succ fuel ih =>
    simp only [Nat.toDigitsCore]
    split
    · simp
    · rw [ih (n / 10) (Nat.digitChar (n % 10) :: ds), ih (n / 10) [Nat.digitChar (n % 10)]]
      simp

theorem toDigitsCore_value (fuel n : Nat) (h : n < fuel) :
    (∀ c ∈ Nat.toDigitsCore 10 fuel n [], c.isDigit = true) ∧
    digits_value (Nat.toDigitsCore 10 fuel n []) = n ∧
    Nat.toDigitsCore 10 fuel n [] ≠ [] := by
  induction fuel generalizing n with
  | zero => omega
  | succ fuel ih =>
    have hd := digitChar_value (n % 10) (Nat.mod_lt _ (by decide))
    simp only [Nat.toDigitsCore]
    split
    · rename_i h0
      refine ⟨by simpa using hd.1, ?_, by simp⟩
      have : digits_value [Nat.digitChar (n % 10)] = (Nat.digitChar (n % 10)).toNat - 48 := by
        simp [digits_value]
      rw [this, hd.2.1]
      omega
    · rename_i h0
      have hlt : n / 10 < fuel := by omega
      obtain ⟨hall, hval, hne⟩ := ih (n / 10) hlt
      rw [toDigitsCore_append]
      refine ⟨?_, ?_, by simp⟩
      · intro c hc
        rcases List.mem_append.mp hc with hc | hc
        · exact hall c hc
        · simp only [List.mem_singleton] at hc
          rw [hc]
          exact hd.1
      · rw [digits_value_append, hval, hd.2.1]
        omega

theorem write_int_ofNat (m : Nat) : write_int (Int.ofNat m) = Nat.toDigits 10 m := rfl

theorem write_int_negSucc (m : Nat) :
    write_int (Int.negSucc m) = '-' :: Nat.toDigits 10 (m + 1) := by
  show ("-" ++ (Nat.toDigits 10 (m + 1)).asString).toList = _
  simp [String.toList, String.data_append, List.asString]

theorem toDigits_value (n : Nat) :
    (∀ c ∈ Nat.toDigits 10 n, c.isDigit = true) ∧ digits_value (Nat.toDigits 10 n) = n ∧
      Nat.toDigits 10 n ≠ [] :=
  toDigitsCore_value (n + 1) n (Nat.lt_succ_self n)

theorem takeWhile_digits (ds rest : List Char) (hds : ∀ c ∈ ds, c.isDigit = true)
    (hrest : ∀ c, rest.head? = some c → c.isDigit = false) :
    (ds ++ rest).takeWhile Char.isDigit = ds ∧ (ds ++ rest).dropWhile Char.isDigit = rest := by
  induction ds with
  | nil =>
    cases rest with
    | nil => simp
    | cons c rest =>
      have hc := hrest c rfl
      simp [List.takeWhile, List.dropWhile, hc]
  | cons d ds ih =>
    have hd := hds d (List.mem_cons_self _ _)
    obtain ⟨h1, h2⟩ := ih fun c hc => hds c (List.mem_cons_of_mem _ hc)
    simp [List.takeWhile, List.dropWhile, hd, h1, h2]

theorem digit_not_space (c : Char) (h : c.isDigit = true) :
    is_space c = false ∧ c ≠ '-' ∧ c ≠ '+' := by
  refine ⟨?_, ?_, ?_⟩
  · cases hs : is_space c with
    | false => rfl
    | true =>
      simp only [is_space, Bool.or_eq_true, decide_eq_true_eq] at hs
      rcases hs with ((((rfl | rfl) | rfl) | rfl) | rfl) | rfl <;> exact absurd h (by decide)
  · rintro rfl
    exact absurd h (by decide)
  · rintro rfl
    exact absurd h (by decide)

theorem istringstream.extract_int_digits (buffer rest : List Char) (n old : Int)
    (hlo : -2147483648 ≤ n) (hhi : n ≤ 2147483647)
    (hrest : ∀ c, rest.head? = some c → c.isDigit = false)
    (hbuffer : buffer.dropWhile is_space = write_int n ++ rest) :
    istringstream.extract_int ⟨buffer, false⟩ old = (n, ⟨rest, false⟩) := by
  cases n with
  | ofNat m =>
    obtain ⟨hall, hval, hne⟩ := toDigits_value m
    rw [write_int_ofNat] at hbuffer
    obtain ⟨htake, hdrop⟩ := takeWhile_digits _ rest hall hrest
    generalize Nat.toDigits 10 m = ds at hall hval hne hbuffer htake hdrop
    cases ds with
    | nil => exact absurd rfl hne
    | cons d ds =>
      obtain ⟨_, hminus, hplus⟩ := digit_not_space d (hall d (List.mem_cons_self _ _))
      have hm : (m : Int) ≤ 2147483647 := hhi
      simp only [List.cons_append] at hbuffer htake hdrop
      simp only [istringstream.extract_int, hbuffer, hminus, hplus, or_self, if_false, htake,
        hdrop, hval, Bool.false_eq_true]
      rw [if_neg (by omega), if_neg (by omega)]
      rfl
  | negSucc m =>
    obtain ⟨hall, hval, hne⟩ := toDigits_value (m + 1)
    rw [write_int_negSucc] at hbuffer
    obtain ⟨htake, hdrop⟩ := takeWhile_digits _ rest hall hrest
    generalize Nat.toDigits 10 (m + 1) = ds at hall hval hne hbuffer htake hdrop
    cases ds with
    | nil => exact absurd rfl hne
    | cons d ds =>
      have hneg : Int.negSucc m = -((m + 1 : Nat) : Int) := rfl
      have hm : -2147483648 ≤ -((m + 1 : Nat) : Int) := hneg ▸ hlo
      simp only [List.cons_append] at hbuffer htake hdrop
      simp only [istringstream.extract_int, hbuffer, true_or, if_true, htake,
        hdrop, hval, Bool.false_eq_true, if_false]
      rw [if_neg (by omega), if_neg (by omega), hneg]

/-! ## The scent map -/

theorem foldl_rows {σ α : Type} (f : σ → α → σ) (rows : List (List α)) (st : σ) :
    rows.foldl (fun st elem => elem.foldl f st) st = rows.flatten.foldl f st := by
  induction rows generalizing st with
  | nil => rfl
  | cons row rows ih => simp [List.foldl_append, ih]

theorem scent_map.serialize_fold (vs : List Int) (out : List Char) (b : Int) (c : Nat)
    (hc : 0 < c) :
    (vs.foldl scent_map.serialize_val ⟨out, b, c⟩).rle_out ++
      write_int (vs.foldl scent_map.serialize_val ⟨out, b, c⟩).rle_count =
      out ++ scent_close_text (rle_runs b c vs) := by
  induction vs generalizing out b c with
  | nil => simp [rle_runs, scent_close_text]
  | cons v vs ih =>
    simp only [List.foldl_cons]
    by_cases h : v = b
    · have hstep : scent_map.serialize_val ⟨out, b, c⟩ v = ⟨out, b, ((c + 1 : Nat) : Int)⟩ := by
        simp [scent_map.serialize_val, h]
      rw [hstep, ih out b (c + 1) (Nat.succ_pos _)]
      simp [rle_runs, h]
    · have hc0 : (c : Int) ≠ 0 := by omega
      have hstep : scent_map.serialize_val ⟨out, b, c⟩ v =
          ⟨out ++ write_int c ++ [' '] ++ write_int v ++ [' '], v, ((1 : Nat) : Int)⟩ := by
        simp [scent_map.serialize_val, h, hc0]
      rw [hstep, ih _ v 1 Nat.one_pos]
      obtain ⟨c1, rest, hr⟩ := rle_runs_head v 1 vs
      simp [rle_runs, h, hr, scent_close_text, scent_run_text]

theorem scent_map.serialize_runs (grscent : List (List Int)) (v : Int) (vs : List Int)
    (hcells : grscent.flatten = v :: vs) (hfirst : v ≠ -1) :
    ' ' :: scent_map.serialize grscent = (rle_runs v 1 vs).flatMap scent_run_text := by
  have hstep : scent_map.serialize_val ⟨[], -1, 0⟩ v =
      ⟨write_int v ++ [' '], v, ((1 : Nat) : Int)⟩ := by
    simp [scent_map.serialize_val, hfirst]
  simp only [scent_map.serialize, foldl_rows, hcells, List.foldl_cons, hstep]
  rw [scent_map.serialize_fold vs _ v 1 Nat.one_pos]
  obtain ⟨c1, rest, hr⟩ := rle_runs_head v 1 vs
  simp [hr, scent_close_text, scent_run_text]

theorem write_int_dropWhile (n : Int) (rest : List Char) :
    (write_int n ++ rest).dropWhile is_space = write_int n ++ rest ∧
    (' ' :: (write_int n ++ rest)).dropWhile is_space = write_int n ++ rest := by
  have hfirst : (write_int n ++ rest).dropWhile is_space = write_int n ++ rest := by
    cases n with
    | ofNat m =>
      obtain ⟨hall, _, hne⟩ := toDigits_value m
      rw [write_int_ofNat]
      generalize Nat.toDigits 10 m = ds at hall hne
      cases ds with
      | nil => exact absurd rfl hne
      | cons d ds =>
        have hd := (digit_not_space d (hall d (List.mem_cons_self _ _))).1
        simp [List.dropWhile, hd]
    | negSucc m =>
      rw [write_int_negSucc]
      rfl
  refine ⟨hfirst, ?_⟩
  have hs : is_space ' ' = true := by decide
  rw [List.dropWhile_cons, if_pos hs]
  exact hfirst

theorem scent_run_text_head (runs : List (Int × Nat)) :
    ∀ c, (runs.flatMap scent_run_text).head? = some c → c.isDigit = false := by
  intro c hc
  cases runs with
  | nil => simp at hc
  | cons r runs =>
    simp only [List.flatMap_cons, scent_run_text, List.cons_append, List.head?_cons,
      Option.some.injEq] at hc
    rw [← hc]
    rfl

theorem scent_map.deserialize_val_encodes (r : scent_reader) (v : Int) (vs : List Int)
    (h : r.encodes (v :: vs)) :
    (scent_map.deserialize_val r).2 = v ∧ (scent_map.deserialize_val r).1.encodes vs := by
  rcases h with h | ⟨hfail, k, runs, hcount, hruns, hbuffer, hvals⟩
  · exact absurd h (List.cons_ne_nil _ _)
  obtain ⟨⟨buffer, fail⟩, stmp, count⟩ := r
  simp only at hfail hcount hbuffer hvals
  subst hfail hcount
  cases k with
  | succ n =>
    simp only [List.replicate_succ, List.cons_append, List.cons.injEq] at hvals
    obtain ⟨hv, htail⟩ := hvals
    have hn : ((n + 1 : Nat) : Int) ≠ 0 := by omega
    have hstep : scent_map.deserialize_val ⟨⟨buffer, false⟩, stmp, ((n + 1 : Nat) : Int)⟩ =
        (⟨⟨buffer, false⟩, stmp, (n : Int)⟩, stmp) := by
      simp only [scent_map.deserialize_val, if_neg hn]
      push_cast
      simp
    rw [hstep]
    exact ⟨hv, Or.inr ⟨rfl, n, runs, rfl, hruns, hbuffer, htail⟩⟩
  | zero =>
    cases runs with
    | nil => simp [rle_expand] at hvals
    | cons run runs =>
      obtain ⟨value, c⟩ := run
      obtain ⟨hpos, hchi, hvlo, hvhi⟩ := hruns (value, c) (List.mem_cons_self _ _)
      obtain ⟨n, hn⟩ := Nat.exists_eq_succ_of_ne_zero (Nat.pos_iff_ne_zero.mp hpos)
      simp only at hn hchi hvlo hvhi
      subst hn
      simp only [rle_expand, List.flatMap_cons, List.replicate_succ, List.replicate_zero,
        List.nil_append, List.cons_append, List.cons.injEq] at hvals
      obtain ⟨hv, htail⟩ := hvals
      have hdrop : buffer.dropWhile is_space =
          write_int value ++ (' ' :: (write_int ((n + 1 : Nat) : Int) ++
            runs.flatMap scent_run_text)) := by
        rcases hbuffer with hb | hb
        · have hb2 : buffer = write_int value ++ (' ' :: (write_int ((n + 1 : Nat) : Int) ++
              runs.flatMap scent_run_text)) := by
            simpa [scent_run_text] using hb
          rw [hb2]
          exact (write_int_dropWhile value _).1
        · have hb2 : buffer = ' ' :: (write_int value ++
              (' ' :: (write_int ((n + 1 : Nat) : Int) ++ runs.flatMap scent_run_text))) := by
            simpa [scent_run_text] using hb
          rw [hb2]
          exact (write_int_dropWhile value _).2
      have hvalue := istringstream.extract_int_digits buffer _ value stmp hvlo hvhi
        (by intro c hc; simp only [List.head?_cons, Option.some.injEq] at hc; rw [← hc]; rfl)
        hdrop
      have hcnt := istringstream.extract_int_digits
        (' ' :: (write_int ((n + 1 : Nat) : Int) ++ runs.flatMap scent_run_text))
        (runs.flatMap scent_run_text) ((n + 1 : Nat) : Int) ((0 : Nat) : Int) (by omega) hchi
        (scent_run_text_head runs) (write_int_dropWhile _ _).2
      have hstep : scent_map.deserialize_val ⟨⟨buffer, false⟩, stmp, ((0 : Nat) : Int)⟩ =
          (⟨⟨runs.flatMap scent_run_text, false⟩, value, (n : Int)⟩, value) := by
        simp only [scent_map.deserialize_val, Nat.cast_zero, if_true, hvalue]
        rw [show ((0 : Nat) : Int) = 0 from rfl] at hcnt
        simp only [hcnt]
        push_cast
        simp
      rw [hstep]
      refine ⟨hv, Or.inr ⟨rfl, n, runs, rfl, ?_, Or.inr rfl, htail⟩⟩
      intro x hx
      exact hruns x (List.mem_cons_of_mem _ hx)

theorem scent_map.deserialize_elem_encodes (old elem tail : List Int) (r : scent_reader)
    (hlen : old.length = elem.length) (h : r.encodes (elem ++ tail)) :
    (scent_map.deserialize_elem r old).2 = elem ∧
      (scent_map.deserialize_elem r old).1.encodes tail := by
  induction old generalizing elem r with
  | nil =>
    cases elem with
    | nil => exact ⟨rfl, h⟩
    | cons v vs => simp at hlen
  | cons o old ih =>
    cases elem with
    | nil => simp at hlen
    | cons v vs =>
      obtain ⟨hv, hnext⟩ := scent_map.deserialize_val_encodes r v (vs ++ tail) h
      obtain ⟨hvs, hlast⟩ := ih vs (scent_map.deserialize_val r).1
        (by simpa using hlen) hnext
      simp only [scent_map.deserialize_elem, hv, hvs]
      exact ⟨trivial, hlast⟩

theorem scent_map.deserialize_grid_encodes (old grscent : List (List Int)) (r : scent_reader)
    (hshape : old.map List.length = grscent.map List.length) (h : r.encodes grscent.flatten) :
    scent_map.deserialize_grid r old = grscent := by
  induction old generalizing grscent r with
  | nil =>
    cases grscent with
    | nil => rfl
    | cons elem rest => simp at hshape
  | cons o old ih =>
    cases grscent with
    | nil => simp at hshape
    | cons elem rest =>
      simp only [List.map_cons, List.cons.injEq] at hshape
      obtain ⟨helem, hnext⟩ := scent_map.deserialize_elem_encodes o elem rest.flatten r
        hshape.1 (by simpa using h)
      simp only [scent_map.deserialize_grid, helem, ih rest _ hshape.2 hnext]

theorem scent_map.first_cell_unwritten :
    scent_map.serialize [[-1, -1, 3]] = "2 3 1".toList ∧
    scent_map.deserialize [[0, 0, 0]] (scent_map.serialize [[-1, -1, 3]]) = [[2, 2, 2]] := by
  decide

/-- C22: for a scent grid of `int` cells (not more cells than an `int` counts)
whose first cell is not -1, `scent_map::deserialize` applied to the string that
`scent_map::serialize` returns gives every cell of the grid its original
value. -/
theorem scent_map.rle_round_trip (grscent old : List (List Int))
    (hshape : old.map List.length = grscent.map List.length)
    (hfirst : grscent.flatten.head? ≠ some (-1))
    (hint : ∀ v ∈ grscent.flatten, -2147483648 ≤ v ∧ v ≤ 2147483647)
    (hsize : grscent.flatten.length ≤ 2147483647) :
    scent_map.deserialize old (scent_map.serialize grscent) = grscent := by
  apply scent_map.deserialize_grid_encodes old grscent _ hshape
  cases hcells : grscent.flatten with
  | nil => exact Or.inl rfl
  | cons v vs =>
    rw [hcells] at hfirst hint hsize
    have hv : v ≠ -1 := fun hv => hfirst (by rw [hv]; rfl)
    have hsum := rle_runs_sum v 1 vs
    have hpos := rle_runs_pos v 1 vs Nat.one_pos
    refine Or.inr ⟨rfl, 0, rle_runs v 1 vs, rfl, ?_,
      Or.inl (scent_map.serialize_runs grscent v vs hcells hv), ?_⟩
    · intro x hx
      have hle : x.2 ≤ ((rle_runs v 1 vs).map Prod.snd).sum :=
        List.single_le_sum (fun _ _ => Nat.zero_le _) _ (List.mem_map_of_mem _ hx)
      have hmem : x.1 ∈ v :: vs := by
        have hsub : x.1 ∈ rle_expand (rle_runs v 1 vs) := by
          simp only [rle_expand, List.mem_flatMap]
          exact ⟨x, hx, List.mem_replicate.mpr ⟨Nat.pos_iff_ne_zero.mp (hpos x hx), rfl⟩⟩
        rw [rle_runs_expand] at hsub
        simpa using hsub
      simp only [List.length_cons] at hsize
      refine ⟨hpos x hx, by omega, hint x.1 hmem⟩
    · rw [rle_runs_expand]
      rfl

theorem scent_map.rle_round_trip_witness :
    scent_map.serialize sample_grscent = "0 2 7 2 -3 1 0 1".toList ∧
    scent_map.deserialize [[9, 9, 9], [9, 9, 9]] (scent_map.serialize sample_grscent) =
      sample_grscent :=
  ⟨by decide,
    scent_map.rle_round_trip sample_grscent [[9, 9, 9], [9, 9, 9]]
      (by decide) (by decide) (by decide) (by decide)⟩

/-! ## Placements of overmap specials -/

theorem condensed_placements.push_keys (m : condensed_placements) (special : String)
    (pos : tripoint) : (m.push special pos).map Prod.fst = m.map Prod.fst := by
  induction m with
  | nil => rfl
  | cons entry rest ih =>
    obtain ⟨key, points⟩ := entry
    by_cases h : key = special
    · simp [condensed_placements.push, h]
    · simp [condensed_placements.push, h, ih]

theorem condensed_placements.push_pairs (m : condensed_placements) (special : String)
    (pos : tripoint) (h : m.has special = true) :
    (condensed_placements.pairs (m.push special pos)).Perm
      ((pos, special) :: condensed_placements.pairs m) := by
  induction m with
  | nil => simp [condensed_placements.has] at h
  | cons entry rest ih =>
    obtain ⟨key, points⟩ := entry
    by_cases hk : key = special
    · subst hk
      simp only [condensed_placements.push, if_true, condensed_placements.pairs,
        List.flatMap_cons, List.map_append, List.map_cons, List.map_nil, List.append_assoc,
        List.singleton_append]
      exact List.perm_middle
    · have hrest : condensed_placements.has rest special = true := by
        simpa [condensed_placements.has, hk] using h
      have := ih hrest
      simp only [condensed_placements.push, hk, if_false, condensed_placements.pairs,
        List.flatMap_cons] at this ⊢
      exact (List.Perm.append_left _ this).trans List.perm_middle

theorem condensed_placements.insert_sorted_entries (less : String → String → Bool)
    (special : String) (points : List tripoint) (m : condensed_placements) :
    (condensed_placements.insert_sorted less special points m).Perm ((special, points) :: m) := by
  induction m with
  | nil => exact List.Perm.refl _
  | cons entry rest ih =>
    obtain ⟨key, value⟩ := entry
    by_cases h : less special key = true
    · simp [condensed_placements.insert_sorted, h]
    · simp only [condensed_placements.insert_sorted, h, if_false, Bool.false_eq_true]
      exact (List.Perm.cons _ ih).trans (List.Perm.swap _ _ _)

theorem condensed_placements.emplace_back_spec (less : String → String → Bool)
    (m : condensed_placements) (placement : tripoint × String)
    (hkeys : (m.map Prod.fst).Nodup) :
    ((condensed_placements.emplace_back less m placement).map Prod.fst).Nodup ∧
    (condensed_placements.pairs (condensed_placements.emplace_back less m placement)).Perm
      (placement :: condensed_placements.pairs m) := by
  obtain ⟨pos, special⟩ := placement
  by_cases h : m.has special = true
  · simp only [condensed_placements.emplace_back, h, if_true]
    exact ⟨by rw [condensed_placements.push_keys]; exact hkeys,
      condensed_placements.push_pairs m special pos h⟩
  · have hperm := condensed_placements.insert_sorted_entries less special [pos] m
    have hnot : special ∉ m.map Prod.fst := by
      intro hmem
      apply h
      obtain ⟨entry, hentry, hfst⟩ := List.mem_map.mp hmem
      simp only [condensed_placements.has, List.any_eq_true, decide_eq_true_eq]
      exact ⟨entry, hentry, hfst⟩
    simp only [condensed_placements.emplace_back, h, if_false, Bool.false_eq_true]
    refine ⟨?_, ?_⟩
    · exact ((hperm.map Prod.fst).nodup_iff).mpr (List.nodup_cons.mpr ⟨hnot, hkeys⟩)
    · have := hperm.flatMap_right fun entry : String × List tripoint =>
        entry.2.map fun p => (p, entry.1)
      simpa [condensed_placements.pairs] using this

theorem overmap.condense_fold (less : String → String → Bool)
    (placements : special_placements) (m : condensed_placements)
    (hkeys : (m.map Prod.fst).Nodup) :
    ((placements.foldl (condensed_placements.emplace_back less) m).map Prod.fst).Nodup ∧
    (condensed_placements.pairs
      (placements.foldl (condensed_placements.emplace_back less) m)).Perm
      (condensed_placements.pairs m ++ placements) := by
  induction placements generalizing m with
  | nil => exact ⟨hkeys, by simp⟩
  | cons placement rest ih =>
    obtain ⟨hk, hp⟩ := condensed_placements.emplace_back_spec less m placement hkeys
    obtain ⟨hk2, hp2⟩ := ih _ hk
    refine ⟨hk2, hp2.trans ?_⟩
    exact (List.Perm.append_right _ hp).trans (by simpa using List.perm_middle.symm)

theorem overmap.unserialize_point_members_written (s : String) (fuel : Nat) (hfuel : 2 ≤ fuel)
    (p q : tripoint) (rest : List json_token) (m : special_placements) :
    overmap.unserialize_point_members s fuel p
      ⟨.member "p" :: (q.tokens ++ .end_object :: rest), m⟩ = some ⟨rest, m.assign q s⟩ := by
  obtain ⟨n, rfl⟩ : ∃ n, fuel = n + 2 := ⟨fuel - 2, by omega⟩
  simp [overmap.unserialize_point_members, JsonIn.end_object, JsonIn.get_member_name,
    JsonIn.read_tripoint, tripoint.tokens]

theorem overmap.unserialize_points_written (s : String) (points : List tripoint) (fuel : Nat)
    (hfuel : points.length < fuel) (rest : List json_token) (m : special_placements) :
    overmap.unserialize_points s fuel
      ⟨points.flatMap overmap.point_tokens ++ .end_array :: rest, m⟩ =
      some ⟨rest, points.foldl (fun m p => m.assign p s) m⟩ := by
  induction points generalizing fuel m with
  | nil =>
    obtain ⟨f, rfl⟩ := Nat.exists_eq_succ_of_ne_zero (Nat.pos_iff_ne_zero.mp hfuel)
    simp [overmap.unserialize_points, JsonIn.end_array]
  | cons q points ih =>
    obtain ⟨f, rfl⟩ := Nat.exists_eq_succ_of_ne_zero
      (Nat.pos_iff_ne_zero.mp (Nat.lt_of_le_of_lt (Nat.zero_le _) hfuel))
    have hshape : (q :: points).flatMap overmap.point_tokens ++ .end_array :: rest =
        .start_object :: .member "p" :: (q.tokens ++ .end_object ::
          (points.flatMap overmap.point_tokens ++ .end_array :: rest)) := by
      simp [overmap.point_tokens]
    have hmembers := overmap.unserialize_point_members_written s
      ((json_token.member "p" :: (q.tokens ++ .end_object ::
        (points.flatMap overmap.point_tokens ++ .end_array :: rest))).length + 1)
      (by simp only [List.length_cons]; omega) tripoint_zero q
      (points.flatMap overmap.point_tokens ++ .end_array :: rest) m
    rw [hshape]
    simp only [overmap.unserialize_points, JsonIn.end_array, JsonIn.start_object, hmembers]
    exact ih f (by simpa using hfuel) _

theorem overmap.length_point_tokens (points : List tripoint) :
    points.length ≤ (points.flatMap overmap.point_tokens).length := by
  induction points with
  | nil => simp
  | cons q points ih =>
    simp only [List.flatMap_cons, List.length_append, List.length_cons]
    have : 0 < (overmap.point_tokens q).length := by simp [overmap.point_tokens]
    omega

theorem overmap.unserialize_placement_members_written (s : String) (points : List tripoint)
    (fuel : Nat) (hfuel : 2 ≤ fuel) (rest : List json_token) (m : special_placements) :
    overmap.unserialize_placement_members s fuel
      ⟨.member "points" :: .start_array ::
        (points.flatMap overmap.point_tokens ++ .end_array :: .end_object :: rest), m⟩ =
      some ⟨rest, points.foldl (fun m p => m.assign p s) m⟩ := by
  obtain ⟨n, rfl⟩ : ∃ n, fuel = n + 2 := ⟨fuel - 2, by omega⟩
  have hpoints := overmap.unserialize_points_written s points
    ((points.flatMap overmap.point_tokens ++ .end_array :: .end_object :: rest).length + 1)
    (by
      have := overmap.length_point_tokens points
      simp only [List.length_append]
      omega)
    (.end_object :: rest) m
  simp only [overmap.unserialize_placement_members, JsonIn.end_object,
    JsonIn.get_member_name, JsonIn.start_array, if_true, hpoints]

theorem overmap.unserialize_placements_written (s : String) (points : List tripoint)
    (fuel : Nat) (hfuel : 2 ≤ fuel) (rest : List json_token) (m : special_placements) :
    overmap.unserialize_placements s fuel
      ⟨.start_object :: .member "points" :: .start_array ::
        (points.flatMap overmap.point_tokens ++
          .end_array :: .end_object :: .end_array :: rest), m⟩ =
      some ⟨rest, points.foldl (fun m p => m.assign p s) m⟩ := by
  obtain ⟨n, rfl⟩ : ∃ n, fuel = n + 2 := ⟨fuel - 2, by omega⟩
  have hmembers := overmap.unserialize_placement_members_written s points
    ((json_token.member "points" :: .start_array :: (points.flatMap overmap.point_tokens ++
      .end_array :: .end_object :: .end_array :: rest)).length + 1)
    (by simp only [List.length_cons]; omega) (.end_array :: rest) m
  simp only [overmap.unserialize_placements, JsonIn.end_array, JsonIn.start_object, hmembers]

theorem overmap.unserialize_special_members_written (s s0 : String) (points : List tripoint)
    (fuel : Nat) (hfuel : 3 ≤ fuel) (rest : List json_token) (m : special_placements) :
    overmap.unserialize_special_members fuel s0
      ⟨.member "special" :: .string s :: .member "placements" :: .start_array ::
        .start_object :: .member "points" :: .start_array ::
        (points.flatMap overmap.point_tokens ++
          .end_array :: .end_object :: .end_array :: .end_object :: rest), m⟩ =
      some ⟨rest, points.foldl (fun m p => m.assign p s) m⟩ := by
  obtain ⟨n, rfl⟩ : ∃ n, fuel = n + 3 := ⟨fuel - 3, by omega⟩
  have hplacements := overmap.unserialize_placements_written s points
    ((json_token.start_object :: .member "points" :: .start_array ::
      (points.flatMap overmap.point_tokens ++
        .end_array :: .end_object :: .end_array :: .end_object :: rest)).length + 1)
    (by simp only [List.length_cons]; omega) (.end_object :: rest) m
  have h1 : ("placements" = "special") = False := by decide
  simp only [overmap.unserialize_special_members, JsonIn.end_object, JsonIn.get_member_name,
    JsonIn.read_string, JsonIn.start_array, if_true, h1, if_false, hplacements]

theorem overmap.unserialize_specials_written (entries : condensed_placements) (fuel : Nat)
    (hfuel : entries.length < fuel) (rest : List json_token) (m : special_placements) :
    overmap.unserialize_specials fuel
      ⟨entries.flatMap overmap.placement_tokens ++ .end_array :: rest, m⟩ =
      some ⟨rest,
        entries.foldl (fun m entry => entry.2.foldl (fun m p => m.assign p entry.1) m) m⟩ := by
  induction entries generalizing fuel m with
  | nil =>
    obtain ⟨f, rfl⟩ := Nat.exists_eq_succ_of_ne_zero (Nat.pos_iff_ne_zero.mp hfuel)
    simp [overmap.unserialize_specials, JsonIn.end_array]
  | cons entry entries ih =>
    obtain ⟨f, rfl⟩ := Nat.exists_eq_succ_of_ne_zero
      (Nat.pos_iff_ne_zero.mp (Nat.lt_of_le_of_lt (Nat.zero_le _) hfuel))
    obtain ⟨s, points⟩ := entry
    have hshape : ((s, points) :: entries).flatMap overmap.placement_tokens ++
        .end_array :: rest =
        .start_object :: .member "special" :: .string s :: .member "placements" ::
          .start_array :: .start_object :: .member "points" :: .start_array ::
          (points.flatMap overmap.point_tokens ++
            .end_array :: .end_object :: .end_array :: .end_object ::
            (entries.flatMap overmap.placement_tokens ++ .end_array :: rest)) := by
      simp [overmap.placement_tokens]
    have hmembers := overmap.unserialize_special_members_written s "" points
      ((json_token.member "special" :: .string s :: .member "placements" ::
          .start_array :: .start_object :: .member "points" :: .start_array ::
          (points.flatMap overmap.point_tokens ++
            .end_array :: .end_object :: .end_array :: .end_object ::
            (entries.flatMap overmap.placement_tokens ++ .end_array :: rest))).length + 1)
      (by simp only [List.length_cons]; omega)
      (entries.flatMap overmap.placement_tokens ++ .end_array :: rest) m
    rw [hshape]
    simp only [overmap.unserialize_specials, JsonIn.end_array, JsonIn.start_object, hmembers]
    exact ih f (by simpa using hfuel) _

theorem special_placements.assign_fresh (m : special_placements) (p : tripoint) (s : String)
    (h : p ∉ m.map Prod.fst) : m.assign p s = m ++ [(p, s)] := by
  induction m with
  | nil => rfl
  | cons entry rest ih =>
    obtain ⟨key, value⟩ := entry
    simp only [List.map_cons, List.mem_cons, not_or] at h
    have hkey : ¬ key = p := fun hk => h.1 hk.symm
    simp [special_placements.assign, hkey, ih h.2]

theorem special_placements.assign_all (pairs : List (tripoint × String))
    (m : special_placements) (h : ((m ++ pairs).map Prod.fst).Nodup) :
    pairs.foldl (fun m pair => m.assign pair.1 pair.2) m = m ++ pairs := by
  induction pairs generalizing m with
  | nil => simp
  | cons pair pairs ih =>
    have hfresh : pair.1 ∉ m.map Prod.fst := by
      intro hmem
      rw [List.map_append, List.map_cons] at h
      exact (List.nodup_append.mp h).2.2 hmem (List.mem_cons_self _ _)
    rw [List.foldl_cons, special_placements.assign_fresh m pair.1 pair.2 hfresh]
    have := ih (m ++ [(pair.1, pair.2)]) (by simpa using h)
    simpa using this

theorem condensed_placements.foldl_pairs (entries : condensed_placements)
    (m : special_placements) :
    entries.foldl (fun m entry => entry.2.foldl (fun m p => m.assign p entry.1) m) m =
      (condensed_placements.pairs entries).foldl (fun m pair => m.assign pair.1 pair.2) m := by
  induction entries generalizing m with
  | nil => rfl
  | cons entry entries ih =>
    simp only [List.foldl_cons, condensed_placements.pairs, List.flatMap_cons,
      List.foldl_append, List.foldl_map]
    exact ih _

theorem overmap.length_placement_tokens (entries : condensed_placements) :
    entries.length ≤ (entries.flatMap overmap.placement_tokens).length := by
  induction entries with
  | nil => simp
  | cons entry entries ih =>
    simp only [List.flatMap_cons, List.length_append, List.length_cons]
    have : 0 < (overmap.placement_tokens entry).length := by simp [overmap.placement_tokens]
    omega

theorem condensed_placements.pairs_keys (entries : condensed_placements) :
    (condensed_placements.pairs entries).map Prod.fst = entries.flatMap Prod.snd := by
  induction entries with
  | nil => rfl
  | cons entry entries ih =>
    simp only [condensed_placements.pairs, List.flatMap_cons, List.map_append, List.map_map]
      at ih ⊢
    rw [ih]
    congr 1
    exact List.map_id _

theorem condensed_placements.mem_pairs (entries : condensed_placements) (p : tripoint)
    (s : String) :
    (p, s) ∈ condensed_placements.pairs entries ↔ ∃ points, (s, points) ∈ entries ∧ p ∈ points := by
  simp only [condensed_placements.pairs, List.mem_flatMap, List.mem_map, Prod.mk.injEq]
  constructor
  · rintro ⟨⟨key, points⟩, hentry, q, hq, rfl, rfl⟩
    exact ⟨points, hentry, hq⟩
  · rintro ⟨points, hentry, hp⟩
    exact ⟨(s, points), hentry, p, hp, rfl, rfl⟩

/-- C21: for a map of placements (distinct positions), the condensed map that
`overmap::serialize` writes as the array `overmap_special_placements` has one
entry for each special: the keys of its entries are distinct, each special of
the map is the key of exactly one entry, every position of the map occurs
exactly once among the points of the entries, in the entry of its own special,
and the entries hold no other points. The branch of `overmap::unserialize` that
reads the array back into an empty map returns without error, consumes exactly
what was written and rebuilds a map with the same entries. -/
theorem overmap.special_placements_round_trip (less : String → String → Bool)
    (placements : special_placements) (hkeys : (placements.map Prod.fst).Nodup)
    (json rest : List json_token) :
    overmap.serialize_special_placements less json placements =
      json ++ [.member "overmap_special_placements", .start_array] ++
        (overmap.condense_special_placements less placements).flatMap
          overmap.placement_tokens ++ [.end_array] ∧
    ((overmap.condense_special_placements less placements).map Prod.fst).Nodup ∧
    (∀ placement ∈ placements,
      ((overmap.condense_special_placements less placements).map Prod.fst).count
        placement.2 = 1 ∧
      ((overmap.condense_special_placements less placements).flatMap Prod.snd).count
        placement.1 = 1 ∧
      ∃ points, (placement.2, points) ∈ overmap.condense_special_placements less placements ∧
        placement.1 ∈ points) ∧
    (∀ entry ∈ overmap.condense_special_placements less placements,
      ∀ p ∈ entry.2, (p, entry.1) ∈ placements) ∧
    ∃ written result,
      JsonIn.get_member_name
        (overmap.serialize_special_placements less [] placements ++ rest) =
          some ("overmap_special_placements", written) ∧
      overmap.unserialize_special_placements written [] = some (rest, result) ∧
      result.Perm placements := by
  obtain ⟨hnodup, hperm⟩ := overmap.condense_fold less placements [] List.nodup_nil
  have hperm2 : (condensed_placements.pairs
      (overmap.condense_special_placements less placements)).Perm placements := by
    simpa [condensed_placements.pairs] using hperm
  have hpositions : ((overmap.condense_special_placements less placements).flatMap
      Prod.snd).Nodup := by
    rw [← condensed_placements.pairs_keys]
    exact ((hperm2.map Prod.fst).nodup_iff).mpr hkeys
  refine ⟨rfl, hnodup, ?_, ?_, ?_⟩
  · intro placement hmem
    obtain ⟨p, s⟩ := placement
    obtain ⟨points, hentry, hp⟩ :=
      (condensed_placements.mem_pairs _ p s).mp (hperm2.mem_iff.mpr hmem)
    refine ⟨List.count_eq_one_of_mem hnodup (List.mem_map_of_mem Prod.fst hentry),
      List.count_eq_one_of_mem hpositions ?_, points, hentry, hp⟩
    exact List.mem_flatMap.mpr ⟨(s, points), hentry, hp⟩
  · intro entry hentry p hp
    exact hperm2.mem_iff.mp
      ((condensed_placements.mem_pairs _ p entry.1).mpr ⟨entry.2, hentry, hp⟩)
  · have hread := overmap.unserialize_specials_written
      (overmap.condense_special_placements less placements)
      (((overmap.condense_special_placements less placements).flatMap
        overmap.placement_tokens ++ .end_array :: rest).length + 1)
      (by
        have := overmap.length_placement_tokens
          (overmap.condense_special_placements less placements)
        simp only [List.length_append]
        omega)
      rest []
    rw [condensed_placements.foldl_pairs, special_placements.assign_all _ []
      (by
        rw [List.nil_append]
        exact ((hperm2.map Prod.fst).nodup_iff).mpr hkeys)] at hread
    refine ⟨.start_array :: ((overmap.condense_special_placements less placements).flatMap
        overmap.placement_tokens ++ .end_array :: rest),
      condensed_placements.pairs (overmap.condense_special_placements less placements),
      ?_, ?_, hperm2⟩
    · simp [overmap.serialize_special_placements, JsonIn.get_member_name]
    · simp only [overmap.unserialize_special_placements, JsonIn.start_array, hread]
      rfl

theorem overmap.special_placements_round_trip_witness :
    (sample_placements.map Prod.fst).Nodup ∧
    overmap.condense_special_placements sample_id_less sample_placements =
      [("Farm", [⟨5, 2, 0⟩, ⟨5, 3, 0⟩]), ("Cabin", [⟨1, 1, 0⟩, ⟨2, 1, 0⟩])] ∧
    ∃ written result,
      JsonIn.get_member_name
        (overmap.serialize_special_placements sample_id_less [] sample_placements ++
          [.end_object]) = some ("overmap_special_placements", written) ∧
      overmap.unserialize_special_placements written [] = some ([.end_object], result) ∧
      result.Perm sample_placements :=
  ⟨by decide, by decide,
    (overmap.special_placements_round_trip sample_id_less sample_placements (by decide) []
      [.end_object]).2.2.2.2⟩

/-! ## Values in a JSON stream -/

theorem JsonIn.skip_to_depth_add (jsin : List json_token) (k d : Nat) (r : List json_token)
    (h : JsonIn.skip_to_depth k jsin = some r) :
    JsonIn.skip_to_depth (k + d) jsin = JsonIn.skip_to_depth d r := by
  induction jsin generalizing k with
  | nil =>
    cases k with
    | zero =>
      simp only [JsonIn.skip_to_depth, Option.some.injEq] at h
      rw [← h, Nat.zero_add]
    | succ k => simp [JsonIn.skip_to_depth] at h
  | cons t rest ih =>
    cases k with
    | zero =>
      simp only [JsonIn.skip_to_depth, Option.some.injEq] at h
      rw [← h, Nat.zero_add]
    | succ k =>
      have hk : k + 1 + d = (k + d) + 1 := by omega
      rw [hk]
      cases t with
      | start_array =>
        have := ih (k + 2) h
        simp only [JsonIn.skip_to_depth]
        rw [← this]
        congr 1
        omega
      | start_object =>
        have := ih (k + 2) h
        simp only [JsonIn.skip_to_depth]
        rw [← this]
        congr 1
        omega
      | end_array => exact ih k h
      | end_object => exact ih k h
      | member name =>
        have := ih (k + 1) h
        simp only [JsonIn.skip_to_depth]
        rw [← this, hk]
      | bool b =>
        have := ih (k + 1) h
        simp only [JsonIn.skip_to_depth]
        rw [← this, hk]
      | int n =>
        have := ih (k + 1) h
        simp only [JsonIn.skip_to_depth]
        rw [← this, hk]
      | string s =>
        have := ih (k + 1) h
        simp only [JsonIn.skip_to_depth]
        rw [← this, hk]

theorem JsonIn.skip_value_nested (ts : List json_token)
    (h : ∀ rest, JsonIn.skip_value (ts ++ rest) = some rest) (depth : Nat)
    (rest : List json_token) :
    JsonIn.skip_to_depth (depth + 1) (ts ++ rest) = JsonIn.skip_to_depth (depth + 1) rest := by
  have hscalar : ∀ t ts1, ts = t :: ts1 → JsonIn.skip_value (ts ++ rest) = some (ts1 ++ rest) →
      JsonIn.skip_to_depth (depth + 1) (t :: rest) = JsonIn.skip_to_depth (depth + 1) rest →
      JsonIn.skip_to_depth (depth + 1) (ts ++ rest) = JsonIn.skip_to_depth (depth + 1) rest := by
    intro t ts1 hts hskip hstep
    rw [h rest, Option.some.injEq] at hskip
    have hnil : ts1 = [] := List.append_left_eq_self.mp hskip.symm
    rw [hts, hnil]
    exact hstep
  cases hts : ts with
  | nil =>
    have := h []
    simp [hts, JsonIn.skip_value] at this
  | cons t ts1 =>
    have hrest := h rest
    cases t with
    | start_array =>
      rw [hts] at hrest
      have := JsonIn.skip_to_depth_add _ 1 (depth + 1) rest hrest
      simp only [List.cons_append, JsonIn.skip_to_depth]
      rw [← this]
      congr 1
      omega
    | start_object =>
      rw [hts] at hrest
      have := JsonIn.skip_to_depth_add _ 1 (depth + 1) rest hrest
      simp only [List.cons_append, JsonIn.skip_to_depth]
      rw [← this]
      congr 1
      omega
    | end_array => simp [hts, JsonIn.skip_value] at hrest
    | end_object => simp [hts, JsonIn.skip_value] at hrest
    | member name => simp [hts, JsonIn.skip_value] at hrest
    | bool b =>
      rw [← hts]
      exact hscalar _ ts1 hts (by rw [hts]; rfl) rfl
    | int n =>
      rw [← hts]
      exact hscalar _ ts1 hts (by rw [hts]; rfl) rfl
    | string s =>
      rw [← hts]
      exact hscalar _ ts1 hts (by rw [hts]; rfl) rfl

theorem monster_json.skip_all {Monster : Type} (codec : monster_json Monster)
    (hvalue : ∀ m rest, JsonIn.skip_value (codec.write m ++ rest) = some rest)
    (monsters : List Monster) (depth : Nat) (rest : List json_token) :
    JsonIn.skip_to_depth (depth + 1) (monsters.flatMap codec.write ++ rest) =
      JsonIn.skip_to_depth (depth + 1) rest := by
  induction monsters with
  | nil => rfl
  | cons m monsters ih =>
    rw [List.flatMap_cons, List.append_assoc,
      JsonIn.skip_value_nested _ (hvalue m) depth, ih]

theorem monster_json.skip_write_all {Monster : Type} (codec : monster_json Monster)
    (hvalue : ∀ m rest, JsonIn.skip_value (codec.write m ++ rest) = some rest)
    (monsters : List Monster) (rest : List json_token) :
    JsonIn.skip_value (codec.write_all monsters ++ rest) = some rest := by
  simp only [monster_json.write_all, List.cons_append, List.append_assoc, JsonIn.skip_value]
  rw [monster_json.skip_all codec hvalue monsters 0]
  simp [JsonIn.skip_to_depth]

theorem monster_json.length_write {Monster : Type} (codec : monster_json Monster)
    (hvalue : ∀ m rest, JsonIn.skip_value (codec.write m ++ rest) = some rest)
    (monsters : List Monster) : monsters.length ≤ (monsters.flatMap codec.write).length := by
  induction monsters with
  | nil => simp
  | cons m monsters ih =>
    have hm : 0 < (codec.write m).length := by
      cases hw : codec.write m with
      | nil =>
        have := hvalue m []
        simp [hw, JsonIn.skip_value] at this
      | cons t ts => simp
    simp only [List.flatMap_cons, List.length_append, List.length_cons]
    omega

theorem JsonIn.read_monsters_written {Monster : Type} (codec : monster_json Monster)
    (hread : ∀ m rest, codec.read (codec.write m ++ rest) = some (m, rest))
    (hvalue : ∀ m rest, JsonIn.skip_value (codec.write m ++ rest) = some rest)
    (monsters : List Monster) (fuel : Nat) (hfuel : monsters.length < fuel)
    (rest : List json_token) (v : List Monster) :
    JsonIn.read_monsters codec fuel (monsters.flatMap codec.write ++ .end_array :: rest) v =
      some (v ++ monsters) := by
  induction monsters generalizing fuel v with
  | nil =>
    obtain ⟨f, rfl⟩ := Nat.exists_eq_succ_of_ne_zero (Nat.pos_iff_ne_zero.mp hfuel)
    simp [JsonIn.read_monsters, JsonIn.end_array]
  | cons m monsters ih =>
    obtain ⟨f, rfl⟩ := Nat.exists_eq_succ_of_ne_zero
      (Nat.pos_iff_ne_zero.mp (Nat.lt_of_le_of_lt (Nat.zero_le _) hfuel))
    have hshape : (m :: monsters).flatMap codec.write ++ .end_array :: rest =
        codec.write m ++ (monsters.flatMap codec.write ++ .end_array :: rest) := by
      simp
    have hend : JsonIn.end_array
        (codec.write m ++ (monsters.flatMap codec.write ++ .end_array :: rest)) =
        (false, codec.write m ++ (monsters.flatMap codec.write ++ .end_array :: rest)) := by
      have hv := hvalue m (monsters.flatMap codec.write ++ .end_array :: rest)
      generalize codec.write m ++ (monsters.flatMap codec.write ++ .end_array :: rest) = s
        at hv
      cases s with
      | nil => rfl
      | cons t ts =>
        cases t <;> first | rfl | simp [JsonIn.skip_value] at hv
    rw [hshape]
    simp only [JsonIn.read_monsters, hend, hread]
    rw [ih f (by simpa using hfuel)]
    simp

theorem JsonIn.as_monsters_written {Monster : Type} (codec : monster_json Monster)
    (hread : ∀ m rest, codec.read (codec.write m ++ rest) = some (m, rest))
    (hvalue : ∀ m rest, JsonIn.skip_value (codec.write m ++ rest) = some rest)
    (monsters : List Monster) (rest : List json_token) :
    JsonIn.as_monsters codec (codec.write_all monsters ++ rest) = some monsters := by
  have hlen := monster_json.length_write codec hvalue monsters
  have := JsonIn.read_monsters_written codec hread hvalue monsters
    ((monsters.flatMap codec.write ++ .end_array :: rest).length + 1)
    (by simp only [List.length_append]; omega) rest []
  simp only [monster_json.write_all, List.cons_append, List.append_assoc,
    List.singleton_append, List.nil_append, JsonIn.as_monsters]
  rw [this]
  rfl

/-! ## Objects read through their member positions -/

theorem JsonObject.set_fresh (positions : JsonObject) (name : String) (p : List json_token)
    (h : name ∉ positions.map Prod.fst) : positions.set name p = positions ++ [(name, p)] := by
  induction positions with
  | nil => rfl
  | cons entry rest ih =>
    obtain ⟨key, value⟩ := entry
    simp only [List.map_cons, List.mem_cons, not_or] at h
    have hkey : ¬ key = name := fun hk => h.1 hk.symm
    simp [JsonObject.set, hkey, ih h.2]

theorem object_positions_keys (tail : List json_token) (fields : List (String × List json_token)) :
    (object_positions tail fields).map Prod.fst = fields.map Prod.fst := by
  induction fields with
  | nil => rfl
  | cons f fs ih => simp [object_positions, ih]

theorem JsonIn.members_written (fields : List (String × List json_token))
    (hvalues : ∀ f ∈ fields, ∀ rest, JsonIn.skip_value (f.2 ++ rest) = some rest)
    (fuel : Nat) (hfuel : fields.length < fuel) (rest : List json_token)
    (positions : JsonObject)
    (hnames : ((positions.map Prod.fst) ++ fields.map Prod.fst).Nodup) :
    JsonIn.members fuel (fields.flatMap member_tokens ++ .end_object :: rest) positions =
      some (positions ++ object_positions (.end_object :: rest) fields, rest) := by
  induction fields generalizing fuel positions with
  | nil =>
    obtain ⟨f, rfl⟩ := Nat.exists_eq_succ_of_ne_zero (Nat.pos_iff_ne_zero.mp hfuel)
    simp [JsonIn.members, JsonIn.end_object, object_positions]
  | cons field fields ih =>
    obtain ⟨f, rfl⟩ := Nat.exists_eq_succ_of_ne_zero
      (Nat.pos_iff_ne_zero.mp (Nat.lt_of_le_of_lt (Nat.zero_le _) hfuel))
    obtain ⟨name, value⟩ := field
    have hshape : ((name, value) :: fields).flatMap member_tokens ++ .end_object :: rest =
        .member name :: (value ++ (fields.flatMap member_tokens ++ .end_object :: rest)) := by
      simp [member_tokens]
    have hskip := hvalues (name, value) (List.mem_cons_self _ _)
      (fields.flatMap member_tokens ++ .end_object :: rest)
    have hfresh : name ∉ positions.map Prod.fst := by
      intro hmem
      simp only [List.map_cons] at hnames
      exact (List.nodup_append.mp hnames).2.2 hmem (List.mem_cons_self _ _)
    rw [hshape]
    simp only [JsonIn.members, JsonIn.end_object, JsonIn.get_member_name] at hskip ⊢
    simp only [hskip, JsonObject.set_fresh positions name _ hfresh]
    rw [ih (fun f hf => hvalues f (List.mem_cons_of_mem _ hf)) f (by simpa using hfuel)
      (positions ++ [(name, value ++ (fields.flatMap member_tokens ++ .end_object :: rest))])
      (by simpa using hnames)]
    simp [object_positions]

theorem JsonObject.position_absent (jo : JsonObject) (name : String)
    (h : name ∉ jo.map Prod.fst) : jo.position name = none := by
  induction jo with
  | nil => rfl
  | cons entry rest ih =>
    obtain ⟨key, value⟩ := entry
    simp only [List.map_cons, List.mem_cons, not_or] at h
    have hkey : ¬ key = name := fun hk => h.1 hk.symm
    simp [JsonObject.position, hkey, ih h.2]

theorem object_positions_written (tail : List json_token)
    (fields : List (String × List json_token)) (hnames : (fields.map Prod.fst).Nodup)
    (name : String) (value : List json_token) (hmem : (name, value) ∈ fields) :
    ∃ after, (object_positions tail fields).position name = some (value ++ after) := by
  induction fields with
  | nil => simp at hmem
  | cons f fs ih =>
    obtain ⟨key, v⟩ := f
    simp only [List.map_cons, List.nodup_cons] at hnames
    rcases List.mem_cons.mp hmem with heq | hrest
    · simp only [Prod.mk.injEq] at heq
      obtain ⟨rfl, rfl⟩ := heq
      exact ⟨fs.flatMap member_tokens ++ tail, by simp [object_positions, JsonObject.position]⟩
    · have hkey : ¬ key = name := by
        intro hk
        apply hnames.1
        rw [hk]
        exact List.mem_map_of_mem Prod.fst hrest
      obtain ⟨after, hafter⟩ := ih hnames.2 hrest
      exact ⟨after, by simp [object_positions, JsonObject.position, hkey, hafter]⟩

theorem JsonObject.archive_read_written {α : Type} (tail : List json_token)
    (fields : List (String × List json_token)) (hnames : (fields.map Prod.fst).Nodup)
    (name : String) (value : List json_token) (is_default : Bool)
    (read : List json_token → Option α) (default x : α)
    (hmem : is_default = false → (name, value) ∈ fields)
    (habsent : is_default = true → name ∉ fields.map Prod.fst)
    (hdefault : is_default = true → x = default)
    (hread : ∀ after, read (value ++ after) = some x) :
    JsonObject.archive_read (object_positions tail fields) name read default = x := by
  cases hd : is_default with
  | true =>
    have hnone := JsonObject.position_absent (object_positions tail fields) name
      (by rw [object_positions_keys]; exact habsent hd)
    simp [JsonObject.archive_read, hnone, hdefault hd]
  | false =>
    obtain ⟨after, hafter⟩ := object_positions_written tail fields hnames name value (hmem hd)
    simp [JsonObject.archive_read, hafter, hread]

/-! ## Round trip of a monster group -/

theorem mem_archive_member (f : String × List json_token) (name : String)
    (value : List json_token) (is_default : Bool) :
    f ∈ archive_member name value is_default ↔ is_default = false ∧ f = (name, value) := by
  cases is_default <;> simp [archive_member]

theorem mem_archive_member_keys (x name : String) (value : List json_token)
    (is_default : Bool) :
    x ∈ (archive_member name value is_default).map Prod.fst ↔ is_default = false ∧ x = name := by
  cases is_default <;> simp [archive_member]

theorem archive_member_sublist (name : String) (value : List json_token) (is_default : Bool) :
    ((archive_member name value is_default).map Prod.fst).Sublist [name] := by
  cases is_default <;> simp [archive_member]

theorem mongroup.io_members_nodup {Monster : Type} (codec : monster_json Monster)
    (g : mongroup Monster) : ((mongroup.io_members codec g).map Prod.fst).Nodup := by
  have hsub : ((mongroup.io_members codec g).map Prod.fst).Sublist
      (["type"] ++ ["pos"] ++ ["radius"] ++ ["population"] ++ ["diffuse"] ++ ["dying"] ++
        ["horde"] ++ ["target"] ++ ["interest"] ++ ["horde_behaviour"] ++ ["monsters"]) := by
    simp only [mongroup.io_members, List.map_append]
    exact ((((((((((archive_member_sublist _ _ _).append (archive_member_sublist _ _ _)).append
      (archive_member_sublist _ _ _)).append (archive_member_sublist _ _ _)).append
      (archive_member_sublist _ _ _)).append (archive_member_sublist _ _ _)).append
      (archive_member_sublist _ _ _)).append (archive_member_sublist _ _ _)).append
      (archive_member_sublist _ _ _)).append (archive_member_sublist _ _ _)).append
      (archive_member_sublist _ _ _)
  exact hsub.nodup (by decide)

theorem mongroup.io_members_values {Monster : Type} (codec : monster_json Monster)
    (hvalue : ∀ m rest, JsonIn.skip_value (codec.write m ++ rest) = some rest)
    (g : mongroup Monster) :
    ∀ f ∈ mongroup.io_members codec g, ∀ rest, JsonIn.skip_value (f.2 ++ rest) = some rest := by
  intro f hf rest
  simp only [mongroup.io_members, List.mem_append, mem_archive_member] at hf
  rcases hf with (((((((((hf | hf) | hf) | hf) | hf) | hf) | hf) | hf) | hf) | hf) | hf <;>
    obtain ⟨_, rfl⟩ := hf <;>
    first
    | rfl
    | exact monster_json.skip_write_all codec hvalue _ rest
    | simp [tripoint.tokens, JsonIn.skip_value, JsonIn.skip_to_depth]

theorem length_member_tokens (fields : List (String × List json_token)) :
    fields.length ≤ (fields.flatMap member_tokens).length := by
  induction fields with
  | nil => simp
  | cons f fs ih =>
    simp only [List.flatMap_cons, List.length_append, List.length_cons, member_tokens]
    omega

theorem mongroup.io_read_written {Monster : Type} (codec : monster_json Monster)
    (hread : ∀ m rest, codec.read (codec.write m ++ rest) = some (m, rest))
    (hvalue : ∀ m rest, JsonIn.skip_value (codec.write m ++ rest) = some rest)
    (g new_group : mongroup Monster) (hradius : g.radius ≤ 2147483647)
    (hpopulation : g.population ≤ 2147483647) (tail : List json_token) :
    mongroup.io_read codec (object_positions tail (mongroup.io_members codec g)) new_group =
      g := by
  have hnames := mongroup.io_members_nodup codec g
  obtain ⟨type, pos, radius, population, target, interest, dying, horde, monsters,
    horde_behaviour, diffuse⟩ := g
  simp only at hradius hpopulation
  simp only [mongroup.io_read, mongroup.mk.injEq]
  refine ⟨?_, ?_, ?_, ?_, ?_, ?_, ?_, ?_, ?_, ?_, ?_⟩
  · exact JsonObject.archive_read_written tail _ hnames "type" [.string type] false _ _ _
      (fun _ => by simp [mongroup.io_members, mem_archive_member])
      (fun h => by simp at h) (fun h => by simp at h) (fun _ => rfl)
  · exact JsonObject.archive_read_written tail _ hnames "pos" pos.tokens
      (decide (pos = tripoint_zero)) _ _ _
      (fun h => by simp [mongroup.io_members, mem_archive_member, h])
      (fun h => by
        simp only [decide_eq_true_eq] at h
        simp [mongroup.io_members, mem_archive_member, h])
      (fun h => by simpa using h) (fun _ => rfl)
  · exact JsonObject.archive_read_written tail _ hnames "radius" [.int radius]
      (decide (radius = 1)) _ _ _
      (fun h => by simp [mongroup.io_members, mem_archive_member, h])
      (fun h => by
        simp only [decide_eq_true_eq] at h
        simp [mongroup.io_members, mem_archive_member, h])
      (fun h => by simpa using h)
      (fun _ => by
        simp only [List.cons_append, JsonIn.as_unsigned, Option.some.injEq]
        omega)
  · exact JsonObject.archive_read_written tail _ hnames "population" [.int population]
      (decide (population = 1)) _ _ _
      (fun h => by simp [mongroup.io_members, mem_archive_member, h])
      (fun h => by
        simp only [decide_eq_true_eq] at h
        simp [mongroup.io_members, mem_archive_member, h])
      (fun h => by simpa using h)
      (fun _ => by
        simp only [List.cons_append, JsonIn.as_unsigned, Option.some.injEq]
        omega)
  · exact JsonObject.archive_read_written tail _ hnames "target" target.tokens
      (decide (target = tripoint_zero)) _ _ _
      (fun h => by simp [mongroup.io_members, mem_archive_member, h])
      (fun h => by
        simp only [decide_eq_true_eq] at h
        simp [mongroup.io_members, mem_archive_member, h])
      (fun h => by simpa using h) (fun _ => rfl)
  · exact JsonObject.archive_read_written tail _ hnames "interest" [.int interest]
      (decide (interest = 0)) _ _ _
      (fun h => by simp [mongroup.io_members, mem_archive_member, h])
      (fun h => by
        simp only [decide_eq_true_eq] at h
        simp [mongroup.io_members, mem_archive_member, h])
      (fun h => by simpa using h) (fun _ => rfl)
  · exact JsonObject.archive_read_written tail _ hnames "dying" [.bool dying]
      (decide (dying = false)) _ _ _
      (fun h => by simp [mongroup.io_members, mem_archive_member, h])
      (fun h => by
        simp only [decide_eq_true_eq] at h
        simp [mongroup.io_members, mem_archive_member, h])
      (fun h => by simpa using h) (fun _ => rfl)
  · exact JsonObject.archive_read_written tail _ hnames "horde" [.bool horde]
      (decide (horde = false)) _ _ _
      (fun h => by simp [mongroup.io_members, mem_archive_member, h])
      (fun h => by
        simp only [decide_eq_true_eq] at h
        simp [mongroup.io_members, mem_archive_member, h])
      (fun h => by simpa using h) (fun _ => rfl)
  · exact JsonObject.archive_read_written tail _ hnames "monsters" (codec.write_all monsters)
      monsters.isEmpty _ _ _
      (fun h => by simp [mongroup.io_members, mem_archive_member, h])
      (fun h => by simp [mongroup.io_members, mem_archive_member, h])
      (fun h => by simpa using h)
      (fun after => JsonIn.as_monsters_written codec hread hvalue monsters after)
  · exact JsonObject.archive_read_written tail _ hnames "horde_behaviour"
      [.string horde_behaviour] horde_behaviour.isEmpty _ _ _
      (fun h => by simp [mongroup.io_members, mem_archive_member, h])
      (fun h => by simp [mongroup.io_members, mem_archive_member, h])
      (fun h => (String.isEmpty_iff _).mp h)
      (fun _ => rfl)
  · exact JsonObject.archive_read_written tail _ hnames "diffuse" [.bool diffuse]
      (decide (diffuse = false)) _ _ _
      (fun h => by simp [mongroup.io_members, mem_archive_member, h])
      (fun h => by
        simp only [decide_eq_true_eq] at h
        simp [mongroup.io_members, mem_archive_member, h])
      (fun h => by simpa using h) (fun _ => rfl)

theorem mongroup.deserialize_serialize {Monster : Type} (codec : monster_json Monster)
    (hread : ∀ m rest, codec.read (codec.write m ++ rest) = some (m, rest))
    (hvalue : ∀ m rest, JsonIn.skip_value (codec.write m ++ rest) = some rest)
    (g new_group : mongroup Monster) (hradius : g.radius ≤ 2147483647)
    (hpopulation : g.population ≤ 2147483647) (rest : List json_token) :
    mongroup.deserialize codec new_group (mongroup.serialize codec g ++ rest) =
      some (g, rest) := by
  have hmembers := JsonIn.members_written (mongroup.io_members codec g)
    (mongroup.io_members_values codec hvalue g)
    (((mongroup.io_members codec g).flatMap member_tokens ++ .end_object :: rest).length + 1)
    (by
      have := length_member_tokens (mongroup.io_members codec g)
      simp only [List.length_append]
      omega)
    rest [] (by simpa using mongroup.io_members_nodup codec g)
  have hshape : mongroup.serialize codec g ++ rest =
      .start_object :: ((mongroup.io_members codec g).flatMap member_tokens ++
        .end_object :: rest) := by
    simp [mongroup.serialize]
  rw [hshape]
  simp only [mongroup.deserialize, JsonIn.get_object, JsonIn.start_object, hmembers,
    List.nil_append]
  rw [mongroup.io_read_written codec hread hvalue g new_group hradius hpopulation]

/-! ## Loading the monster groups -/

theorem tripoint.deserialize_tokens (p : tripoint) (rest : List json_token) :
    tripoint.deserialize (p.tokens ++ rest) = some (p, rest) := rfl

theorem overmap.load_group_positions_written {Monster : Type} (positions : List tripoint)
    (fuel : Nat) (hfuel : positions.length < fuel) (group : mongroup Monster)
    (rest : List json_token) (added : List (mongroup Monster)) :
    overmap.load_group_positions fuel group
      ⟨positions.flatMap tripoint.tokens ++ .end_array :: rest, added⟩ =
      some ⟨rest, added ++ positions.map fun p => { group with pos := p }⟩ := by
  induction positions generalizing fuel group added with
  | nil =>
    obtain ⟨f, rfl⟩ := Nat.exists_eq_succ_of_ne_zero (Nat.pos_iff_ne_zero.mp hfuel)
    simp [overmap.load_group_positions, JsonIn.end_array]
  | cons p positions ih =>
    obtain ⟨f, rfl⟩ := Nat.exists_eq_succ_of_ne_zero
      (Nat.pos_iff_ne_zero.mp (Nat.lt_of_le_of_lt (Nat.zero_le _) hfuel))
    have hshape : (p :: positions).flatMap tripoint.tokens ++ .end_array :: rest =
        .start_array :: .int p.x :: .int p.y :: .int p.z :: .end_array ::
          (positions.flatMap tripoint.tokens ++ .end_array :: rest) := by
      simp [tripoint.tokens]
    rw [hshape]
    simp only [overmap.load_group_positions, JsonIn.end_array, tripoint.deserialize]
    rw [ih f (by simpa using hfuel)]
    simp

theorem length_tripoint_tokens (positions : List tripoint) :
    positions.length ≤ (positions.flatMap tripoint.tokens).length := by
  induction positions with
  | nil => simp
  | cons p positions ih =>
    simp only [List.flatMap_cons, List.length_append, tripoint.tokens, List.length_cons]
    omega

theorem overmap.load_group_bins_written {Monster : Type} (codec : monster_json Monster)
    (hread : ∀ m rest, codec.read (codec.write m ++ rest) = some (m, rest))
    (hvalue : ∀ m rest, JsonIn.skip_value (codec.write m ++ rest) = some rest)
    (new_group : mongroup Monster) (bins : List (mongroup Monster × List tripoint))
    (hrange : ∀ bin ∈ bins, bin.1.radius ≤ 2147483647 ∧ bin.1.population ≤ 2147483647)
    (fuel : Nat) (hfuel : bins.length < fuel) (rest : List json_token)
    (added : List (mongroup Monster)) :
    overmap.load_group_bins codec new_group fuel
      ⟨bins.flatMap (overmap.group_bin_tokens codec) ++ .end_array :: rest, added⟩ =
      some ⟨rest, added ++ added_groups bins⟩ := by
  induction bins generalizing fuel added with
  | nil =>
    obtain ⟨f, rfl⟩ := Nat.exists_eq_succ_of_ne_zero (Nat.pos_iff_ne_zero.mp hfuel)
    simp [overmap.load_group_bins, JsonIn.end_array, added_groups]
  | cons bin bins ih =>
    obtain ⟨f, rfl⟩ := Nat.exists_eq_succ_of_ne_zero
      (Nat.pos_iff_ne_zero.mp (Nat.lt_of_le_of_lt (Nat.zero_le _) hfuel))
    obtain ⟨g, positions⟩ := bin
    obtain ⟨hradius, hpopulation⟩ := hrange (g, positions) (List.mem_cons_self _ _)
    have hshape : ((g, positions) :: bins).flatMap (overmap.group_bin_tokens codec) ++
        .end_array :: rest =
        .start_array :: (mongroup.serialize codec g ++ (.start_array ::
          (positions.flatMap tripoint.tokens ++ .end_array :: .end_array ::
            (bins.flatMap (overmap.group_bin_tokens codec) ++ .end_array :: rest)))) := by
      simp [overmap.group_bin_tokens]
    have hgroup := mongroup.deserialize_serialize codec hread hvalue g new_group hradius
      hpopulation (.start_array :: (positions.flatMap tripoint.tokens ++ .end_array ::
        .end_array :: (bins.flatMap (overmap.group_bin_tokens codec) ++ .end_array :: rest)))
    have hpositions := overmap.load_group_positions_written positions
      ((positions.flatMap tripoint.tokens ++ .end_array :: .end_array ::
        (bins.flatMap (overmap.group_bin_tokens codec) ++ .end_array :: rest)).length + 1)
      (by
        have := length_tripoint_tokens positions
        simp only [List.length_append]
        omega)
      g (.end_array :: (bins.flatMap (overmap.group_bin_tokens codec) ++ .end_array :: rest))
      added
    rw [hshape]
    simp only [overmap.load_group_bins, JsonIn.end_array, JsonIn.start_array, hgroup,
      hpositions]
    rw [ih (fun bin hbin => hrange bin (List.mem_cons_of_mem _ hbin)) f (by simpa using hfuel)]
    simp [added_groups]

theorem mongroup_bin_eq_at {Monster : Type} (a b : mongroup Monster)
    (h : mongroup_bin_eq a b = true) (p : tripoint) :
    ({ a with pos := p } : mongroup Monster) = { b with pos := p } := by
  rw [mongroup_bin_eq_iff a b] at h
  obtain ⟨h1, h2, h3, h4, h5, h6, h7, h8, h9, h10, h11⟩ := h
  cases a
  cases b
  simp only [mongroup.mk.injEq] at *
  simp_all

theorem bin_group_added {Monster : Type} (bins : mongroup_bins Monster)
    (pos_group : tripoint × mongroup Monster) :
    (added_groups (bin_group bins pos_group)).Perm
      (added_groups bins ++ [{ pos_group.2 with pos := pos_group.1 }]) := by
  induction bins with
  | nil => simp [bin_group, added_groups]
  | cons bin bins ih =>
    obtain ⟨key, positions⟩ := bin
    by_cases h : mongroup_bin_eq key pos_group.2 = true
    · have hkey := mongroup_bin_eq_at key pos_group.2 h pos_group.1
      simp only [bin_group, h, if_true, added_groups, List.flatMap_cons, List.map_append,
        List.map_cons, List.map_nil, hkey, List.append_assoc]
      exact List.Perm.append_left _ List.perm_append_comm
    · simp only [bin_group, h, if_false, Bool.false_eq_true, added_groups, List.flatMap_cons,
        List.append_assoc] at ih ⊢
      exact List.Perm.append_left _ ih

theorem bin_group_keys {Monster : Type} (bins : mongroup_bins Monster)
    (pos_group : tripoint × mongroup Monster) :
    ∀ bin ∈ bin_group bins pos_group, (∃ old ∈ bins, bin.1 = old.1) ∨ bin.1 = pos_group.2 := by
  induction bins with
  | nil =>
    intro bin hbin
    simp only [bin_group, List.mem_singleton] at hbin
    exact Or.inr (by rw [hbin])
  | cons first bins ih =>
    obtain ⟨key, positions⟩ := first
    intro bin hbin
    by_cases h : mongroup_bin_eq key pos_group.2 = true
    · simp only [bin_group, h, if_true, List.mem_cons] at hbin
      rcases hbin with rfl | hbin
      · exact Or.inl ⟨(key, positions), List.mem_cons_self _ _, rfl⟩
      · exact Or.inl ⟨bin, List.mem_cons_of_mem _ hbin, rfl⟩
    · simp only [bin_group, h, if_false, Bool.false_eq_true, List.mem_cons] at hbin
      rcases hbin with rfl | hbin
      · exact Or.inl ⟨(key, positions), List.mem_cons_self _ _, rfl⟩
      · rcases ih bin hbin with ⟨old, hold, heq⟩ | heq
        · exact Or.inl ⟨old, List.mem_cons_of_mem _ hold, heq⟩
        · exact Or.inr heq

theorem bin_groups_added {Monster : Type} (zg : List (tripoint × mongroup Monster))
    (bins : mongroup_bins Monster) :
    (added_groups (zg.foldl bin_group bins)).Perm
      (added_groups bins ++ zg.map fun e => { e.2 with pos := e.1 }) ∧
    ∀ bin ∈ zg.foldl bin_group bins,
      (∃ old ∈ bins, bin.1 = old.1) ∨ ∃ e ∈ zg, bin.1 = e.2 := by
  induction zg generalizing bins with
  | nil => exact ⟨by simp, fun bin hbin => Or.inl ⟨bin, hbin, rfl⟩⟩
  | cons e zg ih =>
    obtain ⟨hperm, hkeys⟩ := ih (bin_group bins e)
    refine ⟨?_, ?_⟩
    · simp only [List.foldl_cons, List.map_cons]
      refine hperm.trans ?_
      refine (List.Perm.append_right _ (bin_group_added bins e)).trans ?_
      simp
    · intro bin hbin
      rcases hkeys bin hbin with ⟨old, hold, heq⟩ | ⟨e2, he2, heq⟩
      · rcases bin_group_keys bins e old hold with ⟨older, holder, heq2⟩ | heq2
        · exact Or.inl ⟨older, holder, heq.trans heq2⟩
        · exact Or.inr ⟨e, List.mem_cons_self _ _, heq.trans heq2⟩
      · exact Or.inr ⟨e2, List.mem_cons_of_mem _ he2, heq⟩

theorem added_groups_saved {Monster : Type} (zg : List (tripoint × mongroup Monster)) :
    added_groups (save_monster_groups zg) = added_groups (zg.foldl bin_group []) := by
  simp only [save_monster_groups, added_groups, List.flatMap_map]

/-- C24: when the JSON form of a monster reads back as written and is one JSON
value, and radius and population of the groups fit an `int`,
`overmap::load_monster_groups` applied to what `overmap::save_monster_groups`
wrote for the groups `zg` returns without error, consumes exactly what was
written, and hands to `add_mon_group`, up to the order of the calls, exactly
one group for each entry of `zg`: the group of the entry, monsters included,
with its position set to the position of the entry. -/
theorem overmap.monster_groups_round_trip {Monster : Type} (codec : monster_json Monster)
    (hread : ∀ m rest, codec.read (codec.write m ++ rest) = some (m, rest))
    (hvalue : ∀ m rest, JsonIn.skip_value (codec.write m ++ rest) = some rest)
    (new_group : mongroup Monster) (zg : List (tripoint × mongroup Monster))
    (hrange : ∀ e ∈ zg, e.2.radius ≤ 2147483647 ∧ e.2.population ≤ 2147483647)
    (rest : List json_token) :
    ∃ written added,
      JsonIn.get_member_name (overmap.save_monster_groups_tokens codec [] zg ++ rest) =
        some ("monster_groups", written) ∧
      overmap.load_monster_groups codec new_group written = some (rest, added) ∧
      added.Perm (zg.map fun e => { e.2 with pos := e.1 }) ∧
      added.length = zg.length := by
  obtain ⟨hperm, hkeys⟩ := bin_groups_added zg []
  have hbins : ∀ bin ∈ save_monster_groups zg,
      bin.1.radius ≤ 2147483647 ∧ bin.1.population ≤ 2147483647 := by
    intro bin hbin
    simp only [save_monster_groups, List.mem_map] at hbin
    obtain ⟨key, hkey, rfl⟩ := hbin
    rcases hkeys key hkey with ⟨old, hold, _⟩ | ⟨e, he, heq⟩
    · simp at hold
    · have := hrange e he
      simp only [heq]
      exact this
  have hload := overmap.load_group_bins_written codec hread hvalue new_group
    (save_monster_groups zg) hbins
    (((save_monster_groups zg).flatMap (overmap.group_bin_tokens codec) ++
      .end_array :: rest).length + 1)
    (by
      have hlen : (save_monster_groups zg).length ≤
          ((save_monster_groups zg).flatMap (overmap.group_bin_tokens codec)).length := by
        generalize save_monster_groups zg = bins
        induction bins with
        | nil => simp
        | cons bin bins ih =>
          simp only [List.flatMap_cons, List.length_append, List.length_cons,
            overmap.group_bin_tokens]
          omega
      simp only [List.length_append]
      omega)
    rest []
  have hadded : (added_groups (save_monster_groups zg)).Perm
      (zg.map fun e => { e.2 with pos := e.1 }) := by
    rw [added_groups_saved]
    simpa [added_groups] using hperm
  refine ⟨.start_array :: ((save_monster_groups zg).flatMap (overmap.group_bin_tokens codec) ++
      .end_array :: rest), added_groups (save_monster_groups zg), ?_, ?_, hadded, ?_⟩
  · simp [overmap.save_monster_groups_tokens, JsonIn.get_member_name]
  · simp only [overmap.load_monster_groups, JsonIn.start_array, hload]
    rfl
  · simpa using hadded.length_eq

theorem overmap.monster_groups_round_trip_witness :
    (∀ e ∈ sample_zg_monsters, e.2.radius ≤ 2147483647 ∧ e.2.population ≤ 2147483647) ∧
    ∃ written added,
      JsonIn.get_member_name
        (overmap.save_monster_groups_tokens sample_monster_json [] sample_zg_monsters ++
          [.end_object]) = some ("monster_groups", written) ∧
      overmap.load_monster_groups sample_monster_json sample_new_group written =
        some ([.end_object], added) ∧
      added.Perm (sample_zg_monsters.map fun e => { e.2 with pos := e.1 }) ∧
      added.length = sample_zg_monsters.length :=
  ⟨by decide,
    overmap.monster_groups_round_trip sample_monster_json
      (fun m rest => by simp [sample_monster_json]) (fun _ _ => rfl) sample_new_group
      sample_zg_monsters (by decide) [.end_object]⟩
